import Mathlib

/-!
# ELF module loader (`elf/elf_module.c`): shallow embedding and verified properties

The C functions of `elf/elf_module.c` are transcribed as Lean functions over
an explicit machine state.  Unsigned 32-bit quantities (`Elf32_Addr`,
`Elf32_Word`, `Elf32_Off`) are natural numbers, and every C operation that can
wrap is written with an explicit reduction modulo `2^32`.  Functions of
`efi/main.c` follow in the namespace `EfiMain`, and `valid_mbft` of
`utils/memdiskfind.c` in the namespace `MemdiskFind`.  All definitions come first,
the theorems after them.
-/

namespace ElfModule

/-! ## Constants of `<elf.h>` -/

def EI_MAG0 : Fin 16 := 0
def EI_MAG1 : Fin 16 := 1
def EI_MAG2 : Fin 16 := 2
def EI_MAG3 : Fin 16 := 3
def EI_CLASS : Fin 16 := 4
def EI_DATA : Fin 16 := 5
def EI_VERSION : Fin 16 := 6

def ELFMAG0 : Nat := 0x7f
def ELFMAG1 : Nat := 'E'.toNat
def ELFMAG2 : Nat := 'L'.toNat
def ELFMAG3 : Nat := 'F'.toNat

def ET_REL : Nat := 1
def ET_EXEC : Nat := 2
def ET_DYN : Nat := 3

def PT_NULL : Nat := 0
def PT_LOAD : Nat := 1
def PT_DYNAMIC : Nat := 2
def PT_PHDR : Nat := 6

def DT_NULL : Nat := 0
def DT_NEEDED : Nat := 1
def DT_HASH : Nat := 4
def DT_STRTAB : Nat := 5
def DT_SYMTAB : Nat := 6
def DT_STRSZ : Nat := 10
def DT_SYMENT : Nat := 11
def DT_GNU_HASH : Nat := 0x6ffffef5

/-- The ELF file header, `Elf32_Ehdr`. -/
structure Elf32_Ehdr where
  e_ident : Fin 16 → Nat
  e_type : Nat
  e_machine : Nat
  e_version : Nat
  e_entry : Nat
  e_phoff : Nat
  e_shoff : Nat
  e_flags : Nat
  e_ehsize : Nat
  e_phentsize : Nat
  e_phnum : Nat
  e_shentsize : Nat
  e_shnum : Nat
  e_shstrndx : Nat

/-- A program-header table entry, `Elf32_Phdr`. -/
structure Elf32_Phdr where
  p_type : Nat
  p_offset : Nat
  p_vaddr : Nat
  p_paddr : Nat
  p_filesz : Nat
  p_memsz : Nat
  p_flags : Nat
  p_align : Nat
deriving DecidableEq, Repr

/-- The `MODULE_ELF_*` constants of `elf_module.h` that depend on the target
(the header is not part of the sources at hand, so they are parameters). -/
structure ModuleTarget where
  MODULE_ELF_CLASS : Nat
  MODULE_ELF_DATA : Nat
  MODULE_ELF_VERSION : Nat
  MODULE_ELF_MACHINE : Nat
deriving DecidableEq, Repr

/-- Modelled from the spec: `MODULE_ELF_TYPE` of `elf_module.h` (absent from
the sources); the loader only accepts shared objects, so it is `ET_DYN`. -/
def MODULE_ELF_TYPE : Nat := ET_DYN

/-! ## `check_header` -/

/-- Function `check_header`: the value returned and the lines it writes to
`stderr`. -/
def check_header (t : ModuleTarget) (elf_hdr : Elf32_Ehdr) : Int × List String :=
  if elf_hdr.e_ident EI_MAG0 ≠ ELFMAG0 ∨
     elf_hdr.e_ident EI_MAG1 ≠ ELFMAG1 ∨
     elf_hdr.e_ident EI_MAG2 ≠ ELFMAG2 ∨
     elf_hdr.e_ident EI_MAG3 ≠ ELFMAG3 then
    (-1, ["The file is not an ELF object\n"])
  else if elf_hdr.e_ident EI_CLASS ≠ t.MODULE_ELF_CLASS then
    (-1, ["Invalid ELF class code\n"])
  else if elf_hdr.e_ident EI_DATA ≠ t.MODULE_ELF_DATA then
    (-1, ["Invalid ELF data encoding\n"])
  else if elf_hdr.e_ident EI_VERSION ≠ t.MODULE_ELF_VERSION ∨
          elf_hdr.e_version ≠ t.MODULE_ELF_VERSION then
    (-1, ["Invalid ELF file version\n"])
  else if elf_hdr.e_type ≠ MODULE_ELF_TYPE then
    (-1, ["The ELF file must be a shared object\n"])
  else if elf_hdr.e_machine ≠ t.MODULE_ELF_MACHINE then
    (-1, ["Invalid ELF architecture\n"])
  else if elf_hdr.e_phoff = 0x00000000 then
    (-1, ["PHT missing\n"])
  else
    (0, [])

/-! ### The validator as the specification words it (§4.1, §7) -/

/-- The seven rejection kinds of the header validator, in the order of §4.1. -/
inductive HeaderError where
  | BadMagic
  | UnsupportedClass
  | UnsupportedEndianness
  | UnsupportedVersion
  | NotSharedObject
  | UnsupportedMachine
  | MissingProgramHeaders
deriving DecidableEq, Repr

/-- The seven checks of §4.1, each as a proposition about a header and named
by the rejection kind that its failure gives. -/
def HeaderError.passes (t : ModuleTarget) (h : Elf32_Ehdr) : HeaderError → Prop
  | .BadMagic => h.e_ident EI_MAG0 = 0x7f ∧ h.e_ident EI_MAG1 = 'E'.toNat ∧
      h.e_ident EI_MAG2 = 'L'.toNat ∧ h.e_ident EI_MAG3 = 'F'.toNat
  | .UnsupportedClass => h.e_ident EI_CLASS = t.MODULE_ELF_CLASS
  | .UnsupportedEndianness => h.e_ident EI_DATA = t.MODULE_ELF_DATA
  | .UnsupportedVersion => h.e_ident EI_VERSION = t.MODULE_ELF_VERSION ∧
      h.e_version = t.MODULE_ELF_VERSION
  | .NotSharedObject => h.e_type = ET_DYN
  | .UnsupportedMachine => h.e_machine = t.MODULE_ELF_MACHINE
  | .MissingProgramHeaders => h.e_phoff ≠ 0

instance (t : ModuleTarget) (h : Elf32_Ehdr) (e : HeaderError) :
    Decidable (HeaderError.passes t h e) := by
  cases e <;> unfold HeaderError.passes <;> infer_instance

/-- The checks in the order in which §4.1 lists them. -/
def HeaderError.inOrder : List HeaderError :=
  [.BadMagic, .UnsupportedClass, .UnsupportedEndianness, .UnsupportedVersion,
   .NotSharedObject, .UnsupportedMachine, .MissingProgramHeaders]

/-- The diagnostic that the source prints for each rejection kind. -/
def HeaderError.message : HeaderError → String
  | .BadMagic => "The file is not an ELF object\n"
  | .UnsupportedClass => "Invalid ELF class code\n"
  | .UnsupportedEndianness => "Invalid ELF data encoding\n"
  | .UnsupportedVersion => "Invalid ELF file version\n"
  | .NotSharedObject => "The ELF file must be a shared object\n"
  | .UnsupportedMachine => "Invalid ELF architecture\n"
  | .MissingProgramHeaders => "PHT missing\n"

/-- The earliest check, in the order of §4.1, that a header fails. -/
def firstFailure (t : ModuleTarget) (h : Elf32_Ehdr) : Option HeaderError :=
  HeaderError.inOrder.find? (fun e => decide (¬ HeaderError.passes t h e))

/-- A header of the target that passes every check (used in examples). -/
def goodHeader (t : ModuleTarget) : Elf32_Ehdr where
  e_ident := fun i =>
    ([0x7f, 0x45, 0x4c, 0x46, t.MODULE_ELF_CLASS, t.MODULE_ELF_DATA,
      t.MODULE_ELF_VERSION, 0, 0, 0, 0, 0, 0, 0, 0, 0] : List Nat).getD i.val 0
  e_type := ET_DYN
  e_machine := t.MODULE_ELF_MACHINE
  e_version := t.MODULE_ELF_VERSION
  e_entry := 0
  e_phoff := 52
  e_shoff := 0
  e_flags := 0
  e_ehsize := 52
  e_phentsize := 32
  e_phnum := 1
  e_shentsize := 40
  e_shnum := 0
  e_shstrndx := 0

/-- The i386 target: `ELFCLASS32`, `ELFDATA2LSB`, `EV_CURRENT`, `EM_386`. -/
def i386 : ModuleTarget := ⟨1, 1, 1, 3⟩

/-! ## Machine model -/

/-- The width of a pointer, `sizeof(void*)`: the loader targets a 32-bit
machine (it casts pointers to `Elf32_Addr`, and `size_t` is `unsigned int`
in `bitsize32/stddef.h`). -/
def sizeof_voidp : Nat := 4

/-- Addition of two `Elf32_Addr`/`Elf32_Word` values: wraps modulo `2^32`. -/
def add32 (a b : Nat) : Nat := (a + b) % 4294967296

/-- Subtraction of two `Elf32_Addr`/`Elf32_Word` values: wraps modulo `2^32`. -/
def sub32 (a b : Nat) : Nat := (a + 4294967296 - b % 4294967296) % 4294967296

/-- The macro `MIN(x,y)`. -/
def MIN (x y : Nat) : Nat := if x < y then x else y

/-- The macro `MAX(x,y)`. -/
def MAX (x y : Nat) : Nat := if x > y then x else y

/-- What the loader does to the outside world, in the order in which it does
it: allocation requests, memory writes and diagnostics. -/
inductive Event where
  /-- Call `posix_memalign(&p, alignment, size)` and the block it gave, if any. -/
  | posix_memalign (alignment size : Nat) (result : Option Nat)
  /-- Call `memset(s, c, n)`. -/
  | memset (s c n : Nat)
  /-- Call `memcpy(dest, _file_image + src, n)`. -/
  | memcpy (dest src n : Nat)
  /-- Call `fprintf(stderr, msg)`. -/
  | stderr (msg : String)
  /-- Call `printf(fmt, args...)`. -/
  | printf (fmt : String) (args : List Nat)
  /-- Call `perror(msg)`. -/
  | perror (msg : String)
  /-- Call `mmap(NULL, length, PROT_READ, MAP_PRIVATE, fd, 0)` and its result. -/
  | mmap (length : Nat) (fd : Int) (result : Nat)
  /-- Call `munmap(addr, length)`. -/
  | munmap (addr length : Nat)
  /-- Call `close(fd)`. -/
  | close (fd : Int)
  /-- Call `free(p)`. -/
  | free (p : Nat)
deriving DecidableEq, Repr

/-- The memory of the machine (one byte per address) and the trace of what
the loader did so far. -/
structure Env where
  mem : Nat → Nat
  trace : List Event

/-- The `struct elf_module` of `elf_module.h` (absent from the sources), with
the fields that `elf_module.c` reads and writes.  Pointers are addresses;
`_dyn_info`, which points into the file image, is kept as the offset from the
start of the image; the list heads `list` and `deps` are kept as the lists of
the entries linked to them (empty after `INIT_LIST_HEAD`). -/
structure elf_module where
  name : List Nat
  base_addr : Nat
  module_size : Nat
  module_addr : Nat
  hash_table : Nat
  ghash_table : Nat
  str_table : Nat
  sym_table : Nat
  strtable_size : Nat
  syment_size : Nat
  _file_image : Nat
  _file_size : Nat
  _file_fd : Int
  _dyn_info : Nat
  list : List Nat
  deps : List Nat
deriving DecidableEq, Repr

/-- Modelled from the spec: the typed views `elf_get_header` and `elf_get_ph`
of `elf_utils.h` (absent from the sources) over the byte buffer at
`module->_file_image`: `hdr` is the file header, `pht` the entries
`0 .. e_phnum - 1` of the program-header table, and `bytes off` the byte at
`_file_image + off`.  The buffer holds `_file_size` bytes; `bytes` at a larger
offset is whatever follows the buffer in memory. -/
structure ElfImage where
  hdr : Elf32_Ehdr
  pht : List Elf32_Phdr
  bytes : Nat → Nat

/-- What a stage of the loader returns and leaves behind. -/
structure Outcome where
  ret : Int
  module : elf_module
  env : Env

/-- The effect of `memset(s, c, n)` on the byte memory. -/
def memset (mem : Nat → Nat) (s c n : Nat) : Nat → Nat :=
  fun a => if s ≤ a ∧ a < s + n then c else mem a

/-- The effect of `memcpy(dest, src, n)` on the byte memory, `src k` being the
`k`-th byte of the source. -/
def memcpy (mem : Nat → Nat) (dest : Nat) (src : Nat → Nat) (n : Nat) : Nat → Nat :=
  fun a => if dest ≤ a ∧ a < dest + n then src (a - dest) else mem a

/-! ## `load_segments` -/

/-- The locals `min_addr`, `max_addr`, `max_align` of `load_segments`. -/
structure Extent where
  min_addr : Nat
  max_addr : Nat
  max_align : Nat
deriving DecidableEq, Repr

/-- The body of the first loop of `load_segments` at index `i`. -/
def scan_step (i : Nat) (cr_pht : Elf32_Phdr) (acc : Extent) : Extent :=
  if cr_pht.p_type = PT_LOAD then
    { min_addr := if i = 0 then cr_pht.p_vaddr else MIN acc.min_addr cr_pht.p_vaddr
      max_addr := MAX acc.max_addr (add32 cr_pht.p_vaddr cr_pht.p_memsz)
      max_align := MAX acc.max_align cr_pht.p_align }
  else acc

/-- The first loop of `load_segments`, from index `i` on. -/
def scan_segments : Nat → List Elf32_Phdr → Extent → Extent
  | _, [], acc => acc
  | i, cr_pht :: rest, acc => scan_segments (i + 1) rest (scan_step i cr_pht acc)

/-- The locals after the first loop of `load_segments`, which starts from
`min_addr = 0`, `max_addr = 0`, `max_align = sizeof(void*)`. -/
def extent (pht : List Elf32_Phdr) : Extent :=
  scan_segments 0 pht ⟨0x00000000, 0x00000000, sizeof_voidp⟩

/-- The local `min_alloc` of `load_segments`. -/
def min_alloc (e : Extent) : Nat := sub32 e.min_addr (e.min_addr % e.max_align)

/-- The local `max_alloc` of `load_segments`. -/
def max_alloc (e : Extent) : Nat :=
  if e.max_addr % e.max_align > 0 then
    add32 (sub32 e.max_addr (e.max_addr % e.max_align)) e.max_align
  else
    sub32 e.max_addr (e.max_addr % e.max_align)

/-- The second loop of `load_segments`: every `PT_LOAD` segment is copied to
`base_addr + p_vaddr`. -/
def copy_segments (image : ElfImage) (base_addr : Nat) : List Elf32_Phdr → Env → Env
  | [], env => env
  | cr_pht :: rest, env =>
    if cr_pht.p_type = PT_LOAD then
      copy_segments image base_addr rest
        { mem := memcpy env.mem (add32 base_addr cr_pht.p_vaddr)
            (fun k => image.bytes (cr_pht.p_offset + k)) cr_pht.p_filesz
          trace := env.trace ++
            [Event.memcpy (add32 base_addr cr_pht.p_vaddr) cr_pht.p_offset cr_pht.p_filesz,
             Event.printf
               "Loadable segment of size 0x%08x copied from vaddr 0x%08x at 0x%08x\n"
               [cr_pht.p_filesz, cr_pht.p_vaddr, add32 base_addr cr_pht.p_vaddr]] }
    else
      copy_segments image base_addr rest env

/-- Function `load_segments`.  The parameter `posix_memalign alignment size`
is the allocator: `some p` when it returns 0 and stores `p`, `none` when it
fails (it then leaves `module_addr` as it was).  The file image is read-only
and lies apart from the memory that is written. -/
def load_segments (posix_memalign : Nat → Nat → Option Nat) (image : ElfImage)
    (module : elf_module) (env : Env) : Outcome :=
  let e := extent image.pht
  if sub32 e.max_addr e.min_addr = 0 then
    { ret := -1, module := module,
      env := { env with trace := env.trace ++ [Event.stderr "No loadable segments found\n"] } }
  else
    match posix_memalign e.max_align (sub32 (max_alloc e) (min_alloc e)) with
    | none =>
      { ret := -1, module := module,
        env := { env with trace := env.trace ++
          [Event.posix_memalign e.max_align (sub32 (max_alloc e) (min_alloc e)) none,
           Event.stderr "Could not allocate segments\n"] } }
    | some p =>
      let module1 : elf_module :=
        { module with
          module_addr := p
          base_addr := sub32 (p % 4294967296) (min_alloc e)
          module_size := sub32 (max_alloc e) (min_alloc e) }
      let env1 : Env :=
        { mem := memset env.mem module1.module_addr 0 module1.module_size
          trace := env.trace ++
            [Event.posix_memalign e.max_align (sub32 (max_alloc e) (min_alloc e)) (some p),
             Event.memset module1.module_addr 0 module1.module_size] }
      let env2 := copy_segments image module1.base_addr image.pht env1
      { ret := 0, module := module1,
        env := { env2 with trace := env2.trace ++
          [Event.printf "Base address: 0x%08x, aligned at 0x%08x\n"
             [module1.base_addr, e.max_align],
           Event.printf "Module size: 0x%08x\n" [module1.module_size]] } }

/-- The address `a` lies in the range to which `load_segments` copies the file
bytes of the segment `q`: the `p_filesz` bytes from `base_addr + p_vaddr`, the
destination and length of its `memcpy`. -/
def in_copy_range (base_addr : Nat) (q : Elf32_Phdr) (a : Nat) : Prop :=
  add32 base_addr q.p_vaddr ≤ a ∧ a < add32 base_addr q.p_vaddr + q.p_filesz

/-- The `memcpy` calls of a trace, each as (destination, image offset, length). -/
def memcpys : List Event → List (Nat × Nat × Nat)
  | [] => []
  | Event.memcpy dest src n :: rest => (dest, src, n) :: memcpys rest
  | _ :: rest => memcpys rest

/-- The allocation requests of a trace, each as (alignment, size). -/
def requests : List Event → List (Nat × Nat)
  | [] => []
  | Event.posix_memalign alignment size _ :: rest => (alignment, size) :: requests rest
  | _ :: rest => requests rest

/-- The memory writes (`memset` and `memcpy`) of a trace, each as
(start address, length). -/
def writes : List Event → List (Nat × Nat)
  | [] => []
  | Event.memset s _ n :: rest => (s, n) :: writes rest
  | Event.memcpy dest _ n :: rest => (dest, n) :: writes rest
  | _ :: rest => writes rest

/-! ## Sample data -/

/-- A program-header entry with the given type, file offset, virtual address,
file size, memory size and alignment. -/
def phdr (type offset vaddr filesz memsz align : Nat) : Elf32_Phdr :=
  ⟨type, offset, vaddr, 0, filesz, memsz, 0, align⟩

/-- An image with the given program-header table whose byte at offset `k` is
`k % 251 + 1` (never zero). -/
def sampleImage (pht : List Elf32_Phdr) : ElfImage :=
  ⟨goodHeader i386, pht, fun k => k % 251 + 1⟩

/-- A module whose image, a buffer of `file_size` bytes, has been acquired; its
other fields are still zero. -/
def sampleModule (file_size : Nat) : elf_module :=
  ⟨[], 0, 0, 0, 0, 0, 0, 0, 0, 0, 0x8000, file_size, 3, 0, [], []⟩

/-- A machine whose memory holds `0xAA` everywhere and that has done nothing. -/
def dirtyEnv : Env := ⟨fun _ => 0xAA, []⟩

/-- An allocator that hands out the block at `p` whenever it fits below `2^32`. -/
def allocAt (p : Nat) : Nat → Nat → Option Nat :=
  fun _ size => if p + size ≤ 4294967296 then some p else none

/-- An allocator that refuses every request. -/
def allocNone : Nat → Nat → Option Nat := fun _ _ => none

/-! ### The footprint as the specification words it (§4.2) -/

/-- The loadable (`PT_LOAD`) entries of a table. -/
def spec_loadable (pht : List Elf32_Phdr) : List Elf32_Phdr :=
  pht.filter (fun q => decide (q.p_type = PT_LOAD))

/-- Spec: "`min_addr` = smallest virtual address among loadable segments". -/
def spec_min_addr (pht : List Elf32_Phdr) : Nat :=
  match spec_loadable pht with
  | [] => 0
  | q :: rest => rest.foldl (fun acc r => min acc r.p_vaddr) q.p_vaddr

/-- Spec: "`max_addr` = largest `(vaddr + memsz)`". -/
def spec_max_addr (pht : List Elf32_Phdr) : Nat :=
  (spec_loadable pht).foldl (fun acc r => max acc (r.p_vaddr + r.p_memsz)) 0

/-- Spec: "`max_align` = largest segment alignment, floored at pointer-width
alignment". -/
def spec_max_align (pht : List Elf32_Phdr) : Nat :=
  (spec_loadable pht).foldl (fun acc r => max acc r.p_align) sizeof_voidp

/-- Spec: "`min_alloc` = `min_addr` rounded down to `max_align`". -/
def spec_min_alloc (pht : List Elf32_Phdr) : Nat :=
  spec_min_addr pht / spec_max_align pht * spec_max_align pht

/-- Spec: "`max_alloc` = `max_addr` rounded up to `max_align`". -/
def spec_max_alloc (pht : List Elf32_Phdr) : Nat :=
  (spec_max_addr pht + spec_max_align pht - 1) / spec_max_align pht * spec_max_align pht

/-- The size of the allocation according to §4.2: `max_alloc - min_alloc`. -/
def spec_module_size (pht : List Elf32_Phdr) : Nat :=
  spec_max_alloc pht - spec_min_alloc pht

/-! ## `prepare_dynlinking` -/

/-- A 32-bit little-endian word of the byte memory `bytes` at offset `off`. -/
def read32 (bytes : Nat → Nat) (off : Nat) : Nat :=
  bytes off % 256 + 256 * (bytes (off + 1) % 256) + 65536 * (bytes (off + 2) % 256) +
    16777216 * (bytes (off + 3) % 256)

/-- An entry of the dynamic section, `Elf32_Dyn`; `d_un` is the union of
`d_val` and `d_ptr`. -/
structure Elf32_Dyn where
  d_tag : Nat
  d_un : Nat
deriving DecidableEq, Repr

/-- The entry `*(Elf32_Dyn*)(_file_image + off)`. -/
def dyn_at (image : ElfImage) (off : Nat) : Elf32_Dyn :=
  ⟨read32 image.bytes off, read32 image.bytes (off + 4)⟩

/-- The search loop of `prepare_dynlinking` for the `PT_DYNAMIC` entry.  The
second argument is the value of the local `dyn_ph` before the iteration; the
source does not initialise it, so on an empty table the result is whatever it
held. -/
def find_dynamic : List Elf32_Phdr → Option Elf32_Phdr → Option Elf32_Phdr
  | [], dyn_ph => dyn_ph
  | cr :: rest, _ => if cr.p_type = PT_DYNAMIC then some cr else find_dynamic rest none

/-- The `switch` of `prepare_dynlinking` on one entry. -/
def dyn_step (dyn_entry : Elf32_Dyn) (module : elf_module) : elf_module :=
  if dyn_entry.d_tag = DT_NEEDED then module
  else if dyn_entry.d_tag = DT_HASH then
    { module with hash_table := add32 dyn_entry.d_un module.base_addr }
  else if dyn_entry.d_tag = DT_GNU_HASH then
    { module with ghash_table := add32 dyn_entry.d_un module.base_addr }
  else if dyn_entry.d_tag = DT_STRTAB then
    { module with str_table := add32 dyn_entry.d_un module.base_addr }
  else if dyn_entry.d_tag = DT_SYMTAB then
    { module with sym_table := add32 dyn_entry.d_un module.base_addr }
  else if dyn_entry.d_tag = DT_STRSZ then
    { module with strtable_size := dyn_entry.d_un }
  else if dyn_entry.d_tag = DT_SYMENT then
    { module with syment_size := dyn_entry.d_un }
  else module

/-- The `while (dyn_entry->d_tag != DT_NULL)` loop of `prepare_dynlinking`,
from the entry at offset `off`; `none` when no `DT_NULL` entry is met within
`fuel` entries. -/
def dyn_walk : Nat → ElfImage → Nat → elf_module → Option elf_module
  | 0, _, _, _ => none
  | fuel + 1, image, off, module =>
    if (dyn_at image off).d_tag = DT_NULL then some module
    else dyn_walk fuel image (off + 8) (dyn_step (dyn_at image off) module)

/-- Function `prepare_dynlinking`; `dyn_ph0` is the indeterminate initial
value of the local `dyn_ph`, and the result is `none` when the walk over the
dynamic entries does not end within `fuel` entries. -/
def prepare_dynlinking (fuel : Nat) (image : ElfImage) (dyn_ph0 : Option Elf32_Phdr)
    (module : elf_module) (env : Env) : Option Outcome :=
  match find_dynamic image.pht dyn_ph0 with
  | none =>
    some { ret := -1, module := module,
           env := { env with trace := env.trace ++
             [Event.stderr "Dynamic relocation information not found\n"] } }
  | some dyn_ph =>
    (dyn_walk fuel image dyn_ph.p_offset { module with _dyn_info := dyn_ph.p_offset }).map
      fun m => { ret := 0, module := m, env := env }

/-- An image of 0x20 bytes followed in memory, at offset 0x40, by the dynamic
entries `DT_HASH 0x20`, `DT_NULL`; its `PT_DYNAMIC` entry points at offset
0x40, past the end of the buffer. -/
def dynPastEndImage : ElfImage :=
  ⟨goodHeader i386, [phdr PT_LOAD 0 0 0x10 0x100 4, phdr PT_DYNAMIC 0x40 0x40 0x10 0x10 4],
   fun k => if k < 0x40 then 0 else
     ([4, 0, 0, 0, 0x20, 0, 0, 0, 0, 0, 0, 0, 0, 0, 0, 0] : List Nat).getD (k - 0x40) 0⟩

/-- A table whose entry 0 is `PT_PHDR` and whose only loadable segment is at
`0x1000`, `0x100` bytes long. -/
def tableLoadSecond : List Elf32_Phdr :=
  [phdr PT_PHDR 52 0x34 0x40 0x40 4, phdr PT_LOAD 0 0x1000 0x10 0x100 4]

/-- The same two entries with the loadable segment first. -/
def tableLoadFirst : List Elf32_Phdr :=
  [phdr PT_LOAD 0 0x1000 0x10 0x100 4, phdr PT_PHDR 52 0x34 0x40 0x40 4]

/-- A loadable segment `[0, 0x1000)` followed by one of `p_memsz = 0` at
`0x1000`. -/
def tableEmptyLast : List Elf32_Phdr :=
  [phdr PT_LOAD 0 0 0x10 0x1000 4, phdr PT_LOAD 0x10 0x1000 0 0 4]

/-- A loadable segment `[0, 0x1000)` followed by one at `0x2000` whose
`p_vaddr + p_memsz` is `2^32`. -/
def tableWrapping : List Elf32_Phdr :=
  [phdr PT_LOAD 0 0 0x10 0x1000 4, phdr PT_LOAD 0x10 0x2000 0x10 0xFFFFE000 4]

/-- One loadable segment `[0, 0xFFFFFFFD)`: its end rounded up to a multiple of
4 is `2^32`. -/
def tableRoundWrap : List Elf32_Phdr := [phdr PT_LOAD 0 0 0x10 0xFFFFFFFD 4]

/-- Two loadable segments with disjoint ranges `[0, 0x10)` and `[0x10, 0x20)`;
the first has `p_filesz = 0x20` larger than its `p_memsz`, the second is all
BSS. -/
def tableSpill : List Elf32_Phdr :=
  [phdr PT_LOAD 0 0 0x20 0x10 4, phdr PT_LOAD 0 0x10 0 0x10 4]

/-- Two loadable segments with disjoint ranges `[0, 0x10)` and `[0x10, 0x20)`;
the first has `p_filesz = 0x20` larger than its `p_memsz`, the second copies
`0x10` bytes from offset `0x40`. -/
def tableSpillCopied : List Elf32_Phdr :=
  [phdr PT_LOAD 0 0 0x20 0x10 4, phdr PT_LOAD 0x40 0x10 0x10 0x10 4]

/-- A loadable segment `[0, 0x10)` followed by one at `0xFFFFFFF0` of `0x20`
bytes, whose `p_vaddr + p_memsz` exceeds `2^32`; both have `p_filesz =
p_memsz`. -/
def tableWrapCopied : List Elf32_Phdr :=
  [phdr PT_LOAD 0 0 0x10 0x10 4, phdr PT_LOAD 0x40 0xFFFFFFF0 0x20 0x20 4]

/-- Two loadable segments at the same address: the first all BSS, the second
all file bytes. -/
def tableOverlapping : List Elf32_Phdr :=
  [phdr PT_LOAD 0 0 0 0x10 4, phdr PT_LOAD 0 0 0x10 0x10 4]

/-- Two disjoint loadable segments, each with a BSS tail. -/
def tableTwoSegments : List Elf32_Phdr :=
  [phdr PT_LOAD 0 0x1000 0x10 0x100 4, phdr PT_LOAD 0x10 0x2000 0x20 0x40 4]

/-- One loadable segment with `p_filesz = 0x100` larger than `p_memsz = 4`. -/
def tableFileLarger : List Elf32_Phdr := [phdr PT_LOAD 0 0 0x100 4 4]

/-- One loadable segment whose file range is `[0x10, 0x50)`. -/
def tablePastEnd : List Elf32_Phdr := [phdr PT_LOAD 0x10 0 0x40 0x40 4]

/-- A table without any loadable segment. -/
def tableNoLoad : List Elf32_Phdr :=
  [phdr PT_PHDR 52 0x34 0x40 0x40 4, phdr PT_DYNAMIC 0x40 0x40 0x10 0x10 4]

/-- A table with a single loadable segment. -/
def tableOne : List Elf32_Phdr := [phdr PT_LOAD 0 0x1000 0x10 0x100 4]

/-- The outcome of `load_segments` on the sample image with table `pht`, an
image buffer of `file_size` bytes, the block at `0x100000` and memory full of
`0xAA`. -/
def sampleLoad (pht : List Elf32_Phdr) (file_size : Nat) : Outcome :=
  load_segments (allocAt 0x100000) (sampleImage pht) (sampleModule file_size) dirtyEnv

/-! ## The dynamic section as a list of entries -/

/-- The entries of the dynamic array at offset `off` that come before its
first `DT_NULL` entry, in order; `none` when no `DT_NULL` entry is met within
`fuel` entries. -/
def dyn_entries : Nat → ElfImage → Nat → Option (List Elf32_Dyn)
  | 0, _, _ => none
  | fuel + 1, image, off =>
    if (dyn_at image off).d_tag = DT_NULL then some []
    else (dyn_entries fuel image (off + 8)).map (fun es => dyn_at image off :: es)

/-- The last entry of a list of dynamic entries that carries the tag `tag`. -/
def last_entry (tag : Nat) : List Elf32_Dyn → Option Elf32_Dyn
  | [] => none
  | e :: rest =>
    match last_entry tag rest with
    | some e' => some e'
    | none => if e.d_tag = tag then some e else none

/-- The value that a field has after the entries `es`: `value e` for the last
entry `e` with the tag `tag`, and `old` when no entry has that tag. -/
def resolved (tag : Nat) (value : Elf32_Dyn → Nat) (old : Nat) (es : List Elf32_Dyn) : Nat :=
  match last_entry tag es with
  | some e => value e
  | none => old

/-- The tags that `prepare_dynlinking` records on the module. -/
def recognized_tags : List Nat :=
  [DT_HASH, DT_GNU_HASH, DT_STRTAB, DT_SYMTAB, DT_STRSZ, DT_SYMENT]

/-- The entries of a list whose tag `prepare_dynlinking` records. -/
def recognized (es : List Elf32_Dyn) : List Elf32_Dyn :=
  es.filter (fun e => decide (e.d_tag ∈ recognized_tags))

/-- An image whose program-header table is `pht` and whose bytes from offset
`0x40` on are `bytes` (zero elsewhere). -/
def dynImage (pht : List Elf32_Phdr) (bytes : List Nat) : ElfImage :=
  ⟨goodHeader i386, pht, fun k => if k < 0x40 then 0 else bytes.getD (k - 0x40) 0⟩

/-- The bytes of one dynamic entry with a one-byte tag and a 16-bit value. -/
def dynBytes (tag lo hi : Nat) : List Nat := [tag, 0, 0, 0, lo, hi, 0, 0]

/-- A dynamic array in which `DT_HASH` occurs twice: `DT_HASH 0x20`,
`DT_STRTAB 0x30`, `DT_HASH 0x28`, `DT_SYMTAB 0x40`, `DT_STRSZ 0x10`,
`DT_SYMENT 0x10`, `DT_NULL`. -/
def dynArrayFull : List Nat :=
  dynBytes 4 0x20 0 ++ dynBytes 5 0x30 0 ++ dynBytes 4 0x28 0 ++ dynBytes 6 0x40 0 ++
    dynBytes 10 0x10 0 ++ dynBytes 11 0x10 0 ++ dynBytes 0 0 0

/-- The array `DT_HASH 0x20`, `DT_STRTAB 0x30`, `DT_NULL`. -/
def dynArrayPlain : List Nat :=
  dynBytes 4 0x20 0 ++ dynBytes 5 0x30 0 ++ dynBytes 0 0 0

/-- The array `DT_HASH 0x20`, `DT_NEEDED 1`, an entry of tag 21 (not handled by
the loader), `DT_STRTAB 0x30`, `DT_NULL`, followed by `DT_HASH 0x99` after
the terminator. -/
def dynArrayNoisy : List Nat :=
  dynBytes 4 0x20 0 ++ dynBytes 1 1 0 ++ dynBytes 21 7 0 ++ dynBytes 5 0x30 0 ++
    dynBytes 0 0 0 ++ dynBytes 4 0x99 0

/-- A table with a loadable segment and a `PT_DYNAMIC` entry at offset 0x40. -/
def tableDynamic : List Elf32_Phdr :=
  [phdr PT_LOAD 0 0 0x10 0x100 4, phdr PT_DYNAMIC 0x40 0x40 0x40 0x40 4]

/-- A table with two `PT_DYNAMIC` entries, at offsets 0x40 and 0x48. -/
def tableTwoDynamic : List Elf32_Phdr :=
  [phdr PT_LOAD 0 0 0x10 0x100 4, phdr PT_DYNAMIC 0x40 0x40 0x40 0x40 4,
   phdr PT_DYNAMIC 0x48 0x48 0x38 0x38 4]

/-- A module whose segments have been mapped at `0x100000` (`0x100` bytes). -/
def mappedModule : elf_module :=
  { sampleModule 0x2000 with base_addr := 0x100000, module_addr := 0x100000,
                              module_size := 0x100 }

/-! ## `module_find_symbol` -/

def STN_UNDEF : Nat := 0

/-- Modelled from the spec: the function `elf_hash` of `elf_utils.h` (absent
from the sources), on the bytes of a name, as §4.5 words it: per byte `h = (h
<< 4) + c; if (h & 0xf0000000) h ^= (h >> 24) & 0xf0000000; h &=
~0xf0000000`, in 32 bits. -/
def elf_hash (name : List Nat) : Nat :=
  name.foldl (fun h c =>
    let h1 := (h * 16 + c) % 4294967296
    let h2 := if h1 &&& 0xf0000000 ≠ 0 then h1 ^^^ ((h1 >>> 24) &&& 0xf0000000) else h1
    h2 &&& 0x0fffffff) 0

/-- The field `st_name` of the `Elf32_Sym` at address `sym`. -/
def st_name (mem : Nat → Nat) (sym : Nat) : Nat := read32 mem sym

/-- The field `st_value` of the `Elf32_Sym` at address `sym`. -/
def st_value (mem : Nat → Nat) (sym : Nat) : Nat := read32 mem (sym + 4)

/-- The result of `strcmp(name, s)`, where `name` lists the bytes of the first
string before its terminating NUL and `s` is the address of the second
string. -/
def strcmp (mem : Nat → Nat) : List Nat → Nat → Int
  | [], s => - ((mem s % 256 : Nat) : Int)
  | c :: cs, s =>
    if c = mem s % 256 then strcmp mem cs (s + 1)
    else (c : Int) - ((mem s % 256 : Nat) : Int)

/-- What a call of `module_find_symbol` does: it returns a pointer to a symbol
entry, or `NULL`, or it divides by zero. -/
inductive Lookup where
  /-- The division `h % hash_table[0]` by zero. -/
  | fault
  /-- The symbol entry at address `crt_sym` is returned. -/
  | found (crt_sym : Nat)
  /-- The value `NULL` is returned. -/
  | not_found
deriving DecidableEq, Repr

/-- The `while (crt_index != STN_UNDEF)` loop of `module_find_symbol`, `chn`
being the address of the chain array; `none` when the loop does not end
within `fuel` tests of its condition. -/
def chain_walk (mem : Nat → Nat) (name : List Nat) (module : elf_module) (chn : Nat) :
    Nat → Nat → Option Lookup
  | 0, _ => none
  | fuel + 1, crt_index =>
    if crt_index = STN_UNDEF then some Lookup.not_found
    else if strcmp mem name
        (module.str_table +
          st_name mem (module.sym_table + (crt_index * module.syment_size) % 4294967296))
        = 0 then
      some (Lookup.found (module.sym_table + (crt_index * module.syment_size) % 4294967296))
    else
      chain_walk mem name module chn fuel (read32 mem (chn + 4 * crt_index))

/-- Function `module_find_symbol`.  The parameter `hash` is the function
`elf_hash` of `elf_utils.h`; `name` lists the bytes of the name before its
terminating NUL; the tables are read from the memory `mem`. -/
def module_find_symbol (fuel : Nat) (hash : List Nat → Nat) (name : List Nat)
    (module : elf_module) (mem : Nat → Nat) : Option Lookup :=
  if read32 mem module.hash_table = 0 then some Lookup.fault
  else
    chain_walk mem name module
      (module.hash_table + 4 * (2 + read32 mem module.hash_table)) fuel
      (read32 mem (module.hash_table + 4 * 2 +
        4 * (hash name % 4294967296 % read32 mem module.hash_table)))

/-! ### The lookup as the specification words it (§4.5) -/

/-- The string at address `s` is exactly `name`: the bytes of `name` followed
by a NUL. -/
def is_string_at (mem : Nat → Nat) (s : Nat) (name : List Nat) : Prop :=
  (∀ i, i < name.length → mem (s + i) % 256 = name.getD i 0) ∧
    mem (s + name.length) % 256 = 0

instance (mem : Nat → Nat) (s : Nat) (name : List Nat) :
    Decidable (is_string_at mem s name) := by
  unfold is_string_at
  infer_instance

/-- Word `j` of the module's hash table. -/
def hash_word (mem : Nat → Nat) (module : elf_module) (j : Nat) : Nat :=
  read32 mem (module.hash_table + 4 * j)

/-- The bucket count: word 0 of the hash table. -/
def nbucket (mem : Nat → Nat) (module : elf_module) : Nat := hash_word mem module 0

/-- The entry `bucket[j]`: word `2 + j` of the hash table. -/
def bucket (mem : Nat → Nat) (module : elf_module) (j : Nat) : Nat :=
  hash_word mem module (2 + j)

/-- The entry `chain[j]`: word `2 + nbucket + j` of the hash table. -/
def chain (mem : Nat → Nat) (module : elf_module) (j : Nat) : Nat :=
  hash_word mem module (2 + nbucket mem module + j)

/-- The index sequence of a lookup: `i0 = bucket[h mod nbucket]`, `i(k+1) =
chain[i(k)]`. -/
def chain_index (mem : Nat → Nat) (module : elf_module) (h : Nat) (k : Nat) : Nat :=
  (chain mem module)^[k] (bucket mem module (h % nbucket mem module))

/-- The name of the symbol of index `i` is exactly `name`: the string at
`str_table + st_name` of the entry at byte offset `i * syment_size` of
`sym_table`. -/
def symbol_named (mem : Nat → Nat) (module : elf_module) (name : List Nat) (i : Nat) : Prop :=
  is_string_at mem
    (module.str_table + st_name mem (module.sym_table + i * module.syment_size)) name

instance (mem : Nat → Nat) (module : elf_module) (name : List Nat) (i : Nat) :
    Decidable (symbol_named mem module name i) := by
  unfold symbol_named
  infer_instance

/-- The reference chain search over the first `fuel` indices of the sequence:
the entry of the first index whose symbol is named `name`, not-found when the
sentinel 0 comes first, and `none` when neither is met. -/
def reference_search (fuel : Nat) (h : Nat) (name : List Nat) (module : elf_module)
    (mem : Nat → Nat) : Option Lookup :=
  ((List.range fuel).find? (fun k =>
      decide (chain_index mem module h k = 0 ∨
        symbol_named mem module name (chain_index mem module h k)))).map
    (fun k =>
      if chain_index mem module h k = 0 then Lookup.not_found
      else Lookup.found (module.sym_table + chain_index mem module h k * module.syment_size))

/-- The little-endian bytes of a 32-bit word. -/
def word32 (w : Nat) : List Nat :=
  [w % 256, w / 256 % 256, w / 65536 % 256, w / 16777216 % 256]

/-- A memory that holds `bytes` from address `base` on and zero elsewhere. -/
def memOf (base : Nat) (bytes : List Nat) : Nat → Nat :=
  fun a => if a < base then 0 else bytes.getD (a - base) 0

/-- The bytes of a symbol entry with the given `st_name` and `st_value`. -/
def symBytes (name value : Nat) : List Nat :=
  word32 name ++ word32 value ++ word32 0 ++ word32 0

/-- The bytes of the name `foo`. -/
def nameFoo : List Nat := [0x66, 0x6f, 0x6f]

/-- The bytes of the name `bar`. -/
def nameBar : List Nat := [0x62, 0x61, 0x72]

/-- The bytes of the name `baz`. -/
def nameBaz : List Nat := [0x62, 0x61, 0x7a]

/-- A mapped module with one exported symbol `foo` of value `0x10`: at
`0x100000` a hash table with one bucket (`bucket[0] = 1`, `chain[1] = 0`), at
`0x100020` the symbol table, at `0x100050` the string table. -/
def symMemOne : Nat → Nat :=
  memOf 0x100000
    (word32 1 ++ word32 2 ++ word32 1 ++ word32 0 ++ word32 0 ++ word32 0 ++ word32 0 ++
      word32 0 ++
     symBytes 0 0 ++ symBytes 1 0x10 ++ symBytes 0 0 ++
     ([0] ++ nameFoo ++ [0]))

/-- A mapped module with the symbols `foo` (index 1, value `0x10`) and `baz`
(index 2, value `0x20`) in the same bucket: `bucket[0] = 2`, `chain[2] = 1`,
`chain[1] = 0`. -/
def symMemTwo : Nat → Nat :=
  memOf 0x100000
    (word32 1 ++ word32 3 ++ word32 2 ++ word32 0 ++ word32 0 ++ word32 1 ++ word32 0 ++
      word32 0 ++
     symBytes 0 0 ++ symBytes 1 0x10 ++ symBytes 5 0x20 ++
     ([0] ++ nameFoo ++ [0] ++ nameBaz ++ [0]))

/-- A mapped module whose hash table declares a bucket count of 0. -/
def symMemZero : Nat → Nat :=
  memOf 0x100000
    (word32 0 ++ word32 2 ++ word32 0 ++ word32 0 ++ word32 0 ++ word32 0 ++ word32 0 ++
      word32 0 ++
     symBytes 0 0 ++ symBytes 1 0x10 ++ symBytes 0 0 ++
     ([0] ++ nameFoo ++ [0]))

/-- The module whose tables lie as in the sample memories. -/
def symModule : elf_module :=
  { mappedModule with hash_table := 0x100000, sym_table := 0x100020,
                      str_table := 0x100050, syment_size := 16, strtable_size := 9 }

/-! ## `resolve_symbols` -/

def DT_PLTRELSZ : Nat := 2
def DT_PLTGOT : Nat := 3
def DT_RELA : Nat := 7
def DT_RELASZ : Nat := 8
def DT_RELAENT : Nat := 9
def DT_INIT : Nat := 12
def DT_FINI : Nat := 13
def DT_REL : Nat := 17
def DT_RELSZ : Nat := 18
def DT_RELENT : Nat := 19
def DT_PLTREL : Nat := 20
def DT_JMPREL : Nat := 23

/-- The `switch` of `resolve_symbols` on one entry: the twelve `case` labels
fall through to one `printf`. -/
def resolve_step (dyn_entry : Elf32_Dyn) (env : Env) : Env :=
  if dyn_entry.d_tag = DT_RELA ∨ dyn_entry.d_tag = DT_RELASZ ∨
     dyn_entry.d_tag = DT_RELAENT ∨ dyn_entry.d_tag = DT_PLTRELSZ ∨
     dyn_entry.d_tag = DT_PLTGOT ∨ dyn_entry.d_tag = DT_INIT ∨
     dyn_entry.d_tag = DT_FINI ∨ dyn_entry.d_tag = DT_REL ∨
     dyn_entry.d_tag = DT_RELSZ ∨ dyn_entry.d_tag = DT_RELENT ∨
     dyn_entry.d_tag = DT_PLTREL ∨ dyn_entry.d_tag = DT_JMPREL then
    { env with trace := env.trace ++
        [Event.printf "Recognized DYN tag: %d\n" [dyn_entry.d_tag]] }
  else env

/-- The `while (dyn_entry->d_tag != DT_NULL)` loop of `resolve_symbols`, from
the entry at offset `off`; `none` when no `DT_NULL` entry is met within `fuel`
entries. -/
def resolve_walk : Nat → ElfImage → Nat → Env → Option Env
  | 0, _, _, _ => none
  | fuel + 1, image, off, env =>
    if (dyn_at image off).d_tag = DT_NULL then some env
    else resolve_walk fuel image (off + 8) (resolve_step (dyn_at image off) env)

/-- Function `resolve_symbols`: it walks the entries from `_dyn_info`. -/
def resolve_symbols (fuel : Nat) (image : ElfImage) (module : elf_module) (env : Env) :
    Option Outcome :=
  (resolve_walk fuel image module._dyn_info env).map
    fun e => { ret := 0, module := module, env := e }

/-! ## `load_image`, `unload_image`, `module_load` -/

/-- What the operating system answers to `load_image` (the build with
`ELF_USERSPACE_TEST`, the one in which `module_load` compiles): the descriptor
that `open` returns for the file of the module, the size that `fstat` reports
(`none` when it fails), the address that `mmap` returns (0 for `NULL`) and the
image mapped there. -/
structure ImageSource where
  fd : Int
  st_size : Option Nat
  addr : Nat
  image : ElfImage

/-- The statements after the label `error` of `load_image`. -/
def load_image_error (module : elf_module) (env : Env) : Outcome :=
  let module1 : elf_module :=
    if module._file_image ≠ 0 then { module with _file_image := 0 } else module
  let env1 : Env :=
    if module._file_image ≠ 0 then
      { env with trace := env.trace ++ [Event.munmap module._file_image module._file_size] }
    else env
  let module2 : elf_module :=
    if module1._file_fd > 0 then { module1 with _file_fd := 0 } else module1
  let env2 : Env :=
    if module1._file_fd > 0 then
      { env1 with trace := env1.trace ++ [Event.close module1._file_fd] }
    else env1
  { ret := -1, module := module2, env := env2 }

/-- Function `load_image`. -/
def load_image (src : ImageSource) (module : elf_module) (env : Env) : Outcome :=
  if src.fd < 0 then
    load_image_error { module with _file_fd := src.fd }
      { env with trace := env.trace ++ [Event.perror "Could not open object file"] }
  else
    match src.st_size with
    | none =>
      load_image_error { module with _file_fd := src.fd }
        { env with trace := env.trace ++ [Event.perror "Could not get file information"] }
    | some size =>
      if src.addr = 0 then
        load_image_error
          { module with _file_fd := src.fd, _file_size := size, _file_image := src.addr }
          { env with trace := env.trace ++
              [Event.mmap size src.fd src.addr,
               Event.perror "Could not map the file into memory"] }
      else
        { ret := 0,
          module :=
            { module with _file_fd := src.fd, _file_size := size, _file_image := src.addr },
          env := { env with trace := env.trace ++ [Event.mmap size src.fd src.addr] } }

/-- Function `unload_image`. -/
def unload_image (module : elf_module) (env : Env) : Outcome :=
  { ret := 0,
    module := { module with _file_image := 0, _file_fd := 0 },
    env := { env with trace := env.trace ++
      [Event.munmap module._file_image module._file_size, Event.close module._file_fd] } }

/-- The output of `print_elf_ehdr`. -/
def print_elf_ehdr (ehdr : Elf32_Ehdr) : List Event :=
  [Event.printf "Identification:\t" []] ++
  (List.finRange 16).map (fun i => Event.printf "%d " [ehdr.e_ident i]) ++
  [Event.printf "\n" [],
   Event.printf "Type:\t\t%u\n" [ehdr.e_type],
   Event.printf "Machine:\t%u\n" [ehdr.e_machine],
   Event.printf "Version:\t%u\n" [ehdr.e_version],
   Event.printf "Entry:\t\t0x%08x\n" [ehdr.e_entry],
   Event.printf "PHT Offset:\t0x%08x\n" [ehdr.e_phoff],
   Event.printf "SHT Offset:\t0x%08x\n" [ehdr.e_shoff],
   Event.printf "Flags:\t\t%u\n" [ehdr.e_flags],
   Event.printf "Header size:\t%u (Structure size: %u)\n" [ehdr.e_ehsize, 52]]

/-- The statements after the label `error` of `module_load`: the image is
unloaded and `res` is returned. -/
def module_load_error (res : Int) (module : elf_module) (env : Env) : Outcome :=
  { ret := res, module := (unload_image module env).module,
    env := (unload_image module env).env }

/-- Function `module_load`; `none` when a walk over the dynamic entries does
not end within `fuel` entries. -/
def module_load (fuel : Nat) (posix_memalign : Nat → Nat → Option Nat) (t : ModuleTarget)
    (src : ImageSource) (dyn_ph0 : Option Elf32_Phdr) (module : elf_module) (env : Env) :
    Option Outcome :=
  let r1 := load_image src { module with list := [], deps := [] } env
  if r1.ret < 0 then some r1
  else
    let env2 : Env :=
      { r1.env with trace := r1.env.trace ++
          (check_header t src.image.hdr).2.map Event.stderr }
    if (check_header t src.image.hdr).1 < 0 then
      some (module_load_error (check_header t src.image.hdr).1 r1.module env2)
    else
      let r3 := load_segments posix_memalign src.image r1.module
        { env2 with trace := env2.trace ++ print_elf_ehdr src.image.hdr }
      if r3.ret < 0 then some (module_load_error r3.ret r3.module r3.env)
      else
        match prepare_dynlinking fuel src.image dyn_ph0 r3.module r3.env with
        | none => none
        | some r4 =>
          if r4.ret < 0 then some (module_load_error r4.ret r4.module r4.env)
          else
            match resolve_symbols fuel src.image r4.module r4.env with
            | none => none
            | some r5 =>
              if r5.ret < 0 then some (module_load_error r5.ret r5.module r5.env)
              else if (unload_image r5.module r5.env).ret < 0 then
                some (module_load_error (unload_image r5.module r5.env).ret
                  (unload_image r5.module r5.env).module (unload_image r5.module r5.env).env)
              else
                some { ret := 0, module := (unload_image r5.module r5.env).module,
                       env := (unload_image r5.module r5.env).env }

/-! ### The pipeline as the specification words it (§2, §3) -/

/-- The outcome of the call of `load_segments` that `module_load` makes once
the image is acquired and its header accepted. -/
def segments_outcome (posix_memalign : Nat → Nat → Option Nat) (t : ModuleTarget)
    (src : ImageSource) (module : elf_module) (env : Env) : Outcome :=
  load_segments posix_memalign src.image
    (load_image src { module with list := [], deps := [] } env).module
    { mem := (load_image src { module with list := [], deps := [] } env).env.mem
      trace := (load_image src { module with list := [], deps := [] } env).env.trace ++
        (check_header t src.image.hdr).2.map Event.stderr ++ print_elf_ehdr src.image.hdr }

/-- The part of `module_load` that follows a successful `load_segments` with
outcome `r3`. -/
def module_load_tail (fuel : Nat) (src : ImageSource) (dyn_ph0 : Option Elf32_Phdr)
    (r3 : Outcome) : Option Outcome :=
  match prepare_dynlinking fuel src.image dyn_ph0 r3.module r3.env with
  | none => none
  | some r4 =>
    if r4.ret < 0 then some (module_load_error r4.ret r4.module r4.env)
    else
      match resolve_symbols fuel src.image r4.module r4.env with
      | none => none
      | some r5 =>
        if r5.ret < 0 then some (module_load_error r5.ret r5.module r5.env)
        else if (unload_image r5.module r5.env).ret < 0 then
          some (module_load_error (unload_image r5.module r5.env).ret
            (unload_image r5.module r5.env).module (unload_image r5.module r5.env).env)
        else
          some { ret := 0, module := (unload_image r5.module r5.env).module,
                 env := (unload_image r5.module r5.env).env }

/-- The number of outstanding allocations of a trace: the blocks that
`posix_memalign` gave, less the calls of `free`. -/
def outstanding : List Event → Int
  | [] => 0
  | Event.posix_memalign _ _ (some _) :: rest => outstanding rest + 1
  | Event.free _ :: rest => outstanding rest - 1
  | _ :: rest => outstanding rest

/-- A file of `0x2000` bytes that opens as descriptor 3 and is mapped at
`0x8000`. -/
def sampleSource (image : ElfImage) : ImageSource := ⟨3, some 0x2000, 0x8000, image⟩

/-- A module as it is before its image is acquired: all fields zero. -/
def freshModule : elf_module := ⟨[], 0, 0, 0, 0, 0, 0, 0, 0, 0, 0, 0, 0, 0, [], []⟩

/-- A dynamic array whose `DT_HASH` value `0x8000` lies beyond the module:
`DT_HASH 0x8000`, `DT_STRTAB 0x30`, `DT_SYMTAB 0x40`, `DT_SYMENT 0x10`,
`DT_NULL`. -/
def dynArrayWild : List Nat :=
  dynBytes 4 0 0x80 ++ dynBytes 5 0x30 0 ++ dynBytes 6 0x40 0 ++ dynBytes 11 0x10 0 ++
    dynBytes 0 0 0

/-- A dynamic array with no entry before its `DT_NULL`. -/
def dynArrayEmpty : List Nat := dynBytes 0 0 0

/-- The run of `module_load` on the sample image with table `pht` and dynamic
array `dyn`: the file of `sampleSource`, a module with all fields zero, the
block at `0x100000` and memory full of `0xAA`. -/
def sampleModuleLoad (pht : List Elf32_Phdr) (dyn : List Nat) : Option Outcome :=
  module_load 16 (allocAt 0x100000) i386 (sampleSource (dynImage pht dyn)) none freshModule
    dirtyEnv

/-! ## The registry and the structure of the module -/

/-- The module is a member of the list of loaded modules, the static list
whose head is declared with `LIST_HEAD(modules)` and lies at the address
`modules`: the head is on the list that passes through the node `list` of the
module. -/
def in_registry (modules : Nat) (module : elf_module) : Prop := modules ∈ module.list

instance (modules : Nat) (module : elf_module) : Decidable (in_registry modules module) := by
  unfold in_registry
  infer_instance

/-- The blocks given back with `free` in a trace. -/
def frees (trace : List Event) : List Nat :=
  trace.filterMap (fun e => match e with
    | Event.free p => some p
    | _ => none)

/-- The twelve tags of the `case` labels of `resolve_symbols`. -/
def reloc_tags : List Nat :=
  [DT_RELA, DT_RELASZ, DT_RELAENT, DT_PLTRELSZ, DT_PLTGOT, DT_INIT, DT_FINI, DT_REL,
   DT_RELSZ, DT_RELENT, DT_PLTREL, DT_JMPREL]

/-- One diagnostic for each entry of `es` whose tag is one of `reloc_tags`, in
the order of the entries. -/
def diagnostics (es : List Elf32_Dyn) : List Event :=
  (es.filter (fun e => decide (e.d_tag ∈ reloc_tags))).map
    (fun e => Event.printf "Recognized DYN tag: %d\n" [e.d_tag])

/-- A dynamic array with relocation entries: `DT_HASH 0x20`, `DT_REL 0x50`,
`DT_NEEDED 1`, `DT_RELSZ 0x10`, `DT_REL 0x60`, `DT_NULL`, and `DT_JMPREL`
after the terminator. -/
def dynArrayReloc : List Nat :=
  dynBytes 4 0x20 0 ++ dynBytes 17 0x50 0 ++ dynBytes 1 1 0 ++ dynBytes 18 0x10 0 ++
    dynBytes 17 0x60 0 ++ dynBytes 0 0 0 ++ dynBytes 23 0x70 0

/-- The sample source whose file header has `e_type = ET_EXEC`, which
`check_header` rejects. -/
def badHeaderSource : ImageSource :=
  ⟨3, some 0x2000, 0x8000,
    { dynImage tableDynamic dynArrayFull with hdr := { goodHeader i386 with e_type := 2 } }⟩

/-! ## `module_alloc` -/

/-- The effect of `strncpy(dest, src, n)` on the array `dest`, `src` listing
the bytes of the source string before its terminating NUL: the first `n`
bytes become the bytes of `src`, at most `n` of them, followed by NULs up to
`n` bytes in all; the bytes from `n` on are kept. -/
def strncpy (dest : List Nat) (src : List Nat) (n : Nat) : List Nat :=
  src.take n ++ List.replicate (n - src.length) 0 ++ dest.drop n

/-- Modelled from the spec: the layout of `struct elf_module` of
`elf_module.h` (absent from the sources) as far as `module_alloc` needs it:
the field `name` is an array of `MODULE_NAME_SIZE` characters ("bounded
identifier string"), and `MODULE_NAME_SIZE` is a parameter.  This is the
structure that `memset(result, 0, sizeof(struct elf_module))` leaves: every
field is zero, and the list heads, which hold null pointers, are linked to
nothing. -/
def zeroed_module (MODULE_NAME_SIZE : Nat) : elf_module :=
  ⟨List.replicate MODULE_NAME_SIZE 0, 0, 0, 0, 0, 0, 0, 0, 0, 0, 0, 0, 0, 0, [], []⟩

/-- Function `module_alloc`.  The parameter `malloc` is what
`malloc(sizeof(struct elf_module))` returns: the address of the block, or
`none` for `NULL`; the function does not test it, and with `NULL` the
`memset` writes through a null pointer: no result.  `name` lists the bytes of
the name before its terminating NUL.  The result is the pointer returned and
the structure it points to; no list is touched. -/
def module_alloc (MODULE_NAME_SIZE : Nat) (malloc : Option Nat) (name : List Nat) :
    Option (Nat × elf_module) :=
  match malloc with
  | none => none
  | some result =>
    some (result,
      { zeroed_module MODULE_NAME_SIZE with
        name := strncpy (zeroed_module MODULE_NAME_SIZE).name name MODULE_NAME_SIZE })

/-! ## The symbol indices that `module_find_symbol` examines -/

/-- The test `strcmp(name, module->str_table + crt_sym->st_name) == 0` of
`module_find_symbol` for the symbol index `crt_index`. -/
def name_matches (mem : Nat → Nat) (name : List Nat) (module : elf_module)
    (crt_index : Nat) : Prop :=
  strcmp mem name
    (module.str_table +
      st_name mem (module.sym_table + (crt_index * module.syment_size) % 4294967296)) = 0

instance (mem : Nat → Nat) (name : List Nat) (module : elf_module) (crt_index : Nat) :
    Decidable (name_matches mem name module crt_index) := by
  unfold name_matches
  infer_instance

/-- The symbol indices whose entries the loop of `module_find_symbol` compares
with the name, in order, within `fuel` tests of the loop condition: the loop
of `chain_walk` with the indices recorded. -/
def chain_visits (mem : Nat → Nat) (name : List Nat) (module : elf_module) (chn : Nat) :
    Nat → Nat → List Nat
  | 0, _ => []
  | fuel + 1, crt_index =>
    if crt_index = STN_UNDEF then []
    else if strcmp mem name
        (module.str_table +
          st_name mem (module.sym_table + (crt_index * module.syment_size) % 4294967296))
        = 0 then
      [crt_index]
    else
      crt_index :: chain_visits mem name module chn fuel (read32 mem (chn + 4 * crt_index))

/-- The symbol indices that a call of `module_find_symbol` examines. -/
def module_find_symbol_visits (fuel : Nat) (hash : List Nat → Nat) (name : List Nat)
    (module : elf_module) (mem : Nat → Nat) : List Nat :=
  if read32 mem module.hash_table = 0 then []
  else
    chain_visits mem name module
      (module.hash_table + 4 * (2 + read32 mem module.hash_table)) fuel
      (read32 mem (module.hash_table + 4 * 2 +
        4 * (hash name % 4294967296 % read32 mem module.hash_table)))

end ElfModule

/-!
# EFI boot code (`efi/main.c`)

The functions `efi_setcwd` and `emalloc` of `efi/main.c`, and the loop of
`efi_boot_linux` that builds the e820 map.  A `CHAR16` string is
the list of its characters before the terminating NUL; `EFI_PHYSICAL_ADDRESS`
values are natural numbers reduced modulo `2^64`, `UINTN` values modulo `2^w`.
-/

namespace EfiMain

/-! ## `efi_setcwd` -/

/-- The conversion of an unsigned value to `int`: the low 32 bits, read as a
two's-complement number. -/
def to_int (n : Nat) : Int :=
  if n % 4294967296 < 2147483648 then ((n % 4294967296 : Nat) : Int)
  else ((n % 4294967296 : Nat) : Int) - 4294967296

/-- The first loop of `efi_setcwd`, `for (...; i >= 0; i--)`, when it is about
to test the index `i = k - 1`: the value of `i` when the loop ends, the index
of the last `'\\'` or `'/'` at or below `k - 1`, or -1. -/
def scan_back (dp : List Nat) : Nat → Int
  | 0 => -1
  | k + 1 =>
    if dp.getD k 0 = 0x5c ∨ dp.getD k 0 = 0x2f then (k : Int)
    else scan_back dp k

/-- The second loop of `efi_setcwd`, `for (j = 0; j < i; j++)`, with `c16`
the characters from `*c16` on and `n` the iterations left: the bytes stored
through `c8`, in order.  A `CHAR16` other than `'\\'` is stored as a `char`:
its low byte. -/
def copy_path : List Nat → Nat → List Nat
  | _, 0 => []
  | c16, n + 1 =>
    (if c16.headD 0 = 0x5c then 0x2f else c16.headD 0 % 256) :: copy_path c16.tail n

/-- Function `efi_setcwd`.  `dp` lists the `CHAR16` characters of the path
before its terminating NUL (`StrLen(dp)` is its length), and `CURRENTDIR_MAX`,
the size of the array `CurrentDirName` (defined in a header absent from the
sources), is a parameter.  The result lists the bytes stored at
`CurrentDirName[0]`, `CurrentDirName[1]`, ... in order, the final NUL
included; a byte of index `CURRENTDIR_MAX` or more is stored beyond the end
of the array. -/
def efi_setcwd (CURRENTDIR_MAX : Nat) (dp : List Nat) : List Nat :=
  let i0 : Int := to_int (dp.length + 4294967295)
  let i : Int := if i0 < 0 then i0 else scan_back dp (i0.toNat + 1)
  if i < 0 ∨ i > (CURRENTDIR_MAX : Int) then
    copy_path [0x5c] 1 ++ [0]
  else
    copy_path dp i.toNat ++ [0]

/-- The string that an array of characters holds: its bytes before the first
NUL. -/
def c_string (bytes : List Nat) : List Nat := bytes.takeWhile (fun c => decide (c ≠ 0))

/-- The path `\EFI\BOOT\syslinux.efi`. -/
def pathBoot : List Nat :=
  [0x5c, 0x45, 0x46, 0x49, 0x5c, 0x42, 0x4f, 0x4f, 0x54, 0x5c,
   0x73, 0x79, 0x73, 0x6c, 0x69, 0x6e, 0x75, 0x78, 0x2e, 0x65, 0x66, 0x69]

/-- The path `\syslinux.efi`, a file in the root directory. -/
def pathRoot : List Nat :=
  [0x5c, 0x73, 0x79, 0x73, 0x6c, 0x69, 0x6e, 0x75, 0x78, 0x2e, 0x65, 0x66, 0x69]

/-- The path `syslinux.efi`, without a separator. -/
def pathBare : List Nat :=
  [0x73, 0x79, 0x73, 0x6c, 0x69, 0x6e, 0x75, 0x78, 0x2e, 0x65, 0x66, 0x69]

/-! ## `emalloc` -/

/-- An entry of the memory map, `EFI_MEMORY_DESCRIPTOR`, with the fields that
`emalloc` reads; `MemoryType` is the field `Type`. -/
structure EFI_MEMORY_DESCRIPTOR where
  MemoryType : Nat
  PhysicalStart : Nat
  NumberOfPages : Nat
deriving DecidableEq, Repr

/-- Modelled from the spec: the memory type `EfiConventionalMemory` of the UEFI
headers (absent from the sources), with its standard value. -/
def EfiConventionalMemory : Nat := 7

/-- Modelled from the spec: the constant `EFI_PAGE_SHIFT` of the UEFI headers
(absent from the sources): pages of 4 KiB. -/
def EFI_PAGE_SHIFT : Nat := 12

/-- Modelled from the spec: the status `EFI_SUCCESS` of the UEFI headers
(absent from the sources). -/
def EFI_SUCCESS : Nat := 0

/-- Modelled from the spec: the status `EFI_OUT_OF_RESOURCES` of the UEFI
headers (absent from the sources): error 9, with the high bit of a `UINTN` of
`w` bits set. -/
def EFI_OUT_OF_RESOURCES (w : Nat) : Nat := 2 ^ (w - 1) + 9

/-- Modelled from the spec: the macro `EFI_SIZE_TO_PAGES` of the UEFI headers
(absent from the sources): the number of pages that hold `a` bytes. -/
def EFI_SIZE_TO_PAGES (a : Nat) : Nat :=
  a / 2 ^ EFI_PAGE_SHIFT + (if a % 2 ^ EFI_PAGE_SHIFT ≠ 0 then 1 else 0)

/-- The loop of `emalloc` over the entries of the memory map that are left,
`size` being the current value of the parameter `size`: `some aligned` when
the loop is left by `break` (the firmware has allocated at `aligned`, and
`err` is `EFI_SUCCESS`), `none` when it runs to the end (`i == nr_entries`).
`UINTN` has `w` bits, `EFI_PHYSICAL_ADDRESS` has 64;
`allocate_pages nr_pages aligned` is the status that the firmware returns for
`allocate_pages(AllocateAddress, EfiLoaderData, nr_pages, &aligned)`. -/
def emalloc_loop (w : Nat) (allocate_pages : Nat → Nat → Nat) (align nr_pages : Nat) :
    List EFI_MEMORY_DESCRIPTOR → Nat → Option Nat
  | [], _ => none
  | desc :: rest, size =>
    if desc.MemoryType ≠ EfiConventionalMemory then
      emalloc_loop w allocate_pages align nr_pages rest size
    else if desc.NumberOfPages < nr_pages then
      emalloc_loop w allocate_pages align nr_pages rest size
    else
      let start := desc.PhysicalStart
      let end_ := (start + desc.NumberOfPages * 2 ^ EFI_PAGE_SHIFT % 2 ^ 64) % 2 ^ 64
      if end_ ≤ 2 ^ 20 then
        emalloc_loop w allocate_pages align nr_pages rest size
      else
        let size1 := if start < 2 ^ 20 then (size + 2 ^ w - (2 ^ 20 - start)) % 2 ^ w else size
        let start1 := if start < 2 ^ 20 then 2 ^ 20 else start
        let aligned :=
          ((start1 + align + 2 ^ 64 - 1) % 2 ^ 64) &&&
            (2 ^ w - 1 - (align + 2 ^ w - 1) % 2 ^ w)
        if (aligned + size1) % 2 ^ 64 ≤ end_ then
          if allocate_pages nr_pages aligned = EFI_SUCCESS then some aligned
          else emalloc_loop w allocate_pages align nr_pages rest size1
        else emalloc_loop w allocate_pages align nr_pages rest size1

/-- Function `emalloc`: the status returned and the address stored through
`addr`, if one is stored.  `get_memory_map` is the map that the firmware
gives (`none` for `NULL`); `err0` is what the local `err`, which has no
initialiser, holds at the start: it is the value returned when there is no
map. -/
def emalloc (w : Nat) (get_memory_map : Option (List EFI_MEMORY_DESCRIPTOR))
    (allocate_pages : Nat → Nat → Nat) (err0 : Nat) (size align : Nat) :
    Nat × Option Nat :=
  match get_memory_map with
  | none => (err0, none)
  | some map_buf =>
    match emalloc_loop w allocate_pages align (EFI_SIZE_TO_PAGES size) map_buf size with
    | some aligned => (EFI_SUCCESS, some aligned)
    | none => (EFI_OUT_OF_RESOURCES w, none)

/-- The address `a` lies inside the entry `desc` of the memory map. -/
def inside (desc : EFI_MEMORY_DESCRIPTOR) (a : Nat) : Prop :=
  desc.PhysicalStart ≤ a ∧ a < desc.PhysicalStart + desc.NumberOfPages * 2 ^ EFI_PAGE_SHIFT

instance (desc : EFI_MEMORY_DESCRIPTOR) (a : Nat) : Decidable (inside desc a) := by
  unfold inside
  infer_instance

/-- A firmware that grants `pages` pages at `address` exactly when each of
these pages lies inside an `EfiConventionalMemory` entry of the map `map`,
and otherwise returns `EFI_NOT_FOUND` (error 14). -/
def firmwareOf (map : List EFI_MEMORY_DESCRIPTOR) (pages address : Nat) : Nat :=
  if ∀ k, k < pages → ∃ desc ∈ map, desc.MemoryType = EfiConventionalMemory ∧
      inside desc (address + k * 2 ^ EFI_PAGE_SHIFT) then EFI_SUCCESS
  else 2 ^ 63 + 14

/-- A memory map whose first entry, of conventional memory, starts below 1 MiB
and ends at 2 MiB, followed by two entries of conventional memory of one page
each, at 2 MiB and at 2 MiB + 4 KiB. -/
def mapStraddling : List EFI_MEMORY_DESCRIPTOR :=
  [⟨7, 0, 0x200⟩, ⟨7, 0x200000, 1⟩, ⟨7, 0x201000, 1⟩]

/-! ## The e820 map of `efi_boot_linux` -/

/-- The entry type `struct e820_entry`; `start` and `len` are 64-bit values. -/
structure e820_entry where
  start : Nat
  len : Nat
  type : Nat
deriving DecidableEq, Repr

def E820MAX : Nat := 128
def E820_RAM : Nat := 1
def E820_RESERVED : Nat := 2
def E820_ACPI : Nat := 3
def E820_NVS : Nat := 4
def E820_UNUSABLE : Nat := 5

/-- Modelled from the spec: the memory types of `EFI_MEMORY_TYPE` of the UEFI
headers (absent from the sources) that the `switch` names, with their
standard values (`EfiConventionalMemory` is defined above). -/
def EfiReservedMemoryType : Nat := 0

/-- Modelled from the spec: see `EfiReservedMemoryType`. -/
def EfiLoaderCode : Nat := 1

/-- Modelled from the spec: see `EfiReservedMemoryType`. -/
def EfiLoaderData : Nat := 2

/-- Modelled from the spec: see `EfiReservedMemoryType`. -/
def EfiBootServicesCode : Nat := 3

/-- Modelled from the spec: see `EfiReservedMemoryType`. -/
def EfiBootServicesData : Nat := 4

/-- Modelled from the spec: see `EfiReservedMemoryType`. -/
def EfiRuntimeServicesCode : Nat := 5

/-- Modelled from the spec: see `EfiReservedMemoryType`. -/
def EfiRuntimeServicesData : Nat := 6

/-- Modelled from the spec: see `EfiReservedMemoryType`. -/
def EfiUnusableMemory : Nat := 8

/-- Modelled from the spec: see `EfiReservedMemoryType`. -/
def EfiACPIReclaimMemory : Nat := 9

/-- Modelled from the spec: see `EfiReservedMemoryType`. -/
def EfiACPIMemoryNVS : Nat := 10

/-- Modelled from the spec: see `EfiReservedMemoryType`. -/
def EfiMemoryMappedIO : Nat := 11

/-- Modelled from the spec: see `EfiReservedMemoryType`. -/
def EfiMemoryMappedIOPortSpace : Nat := 12

/-- Modelled from the spec: see `EfiReservedMemoryType`. -/
def EfiPalCode : Nat := 13

/-- The `switch (map->Type)` of the loop that builds the e820 map: the value
given to `e820_type`, or `none` for `default: continue`. -/
def e820_type_of (t : Nat) : Option Nat :=
  if t = EfiReservedMemoryType ∨ t = EfiRuntimeServicesCode ∨ t = EfiRuntimeServicesData ∨
     t = EfiMemoryMappedIO ∨ t = EfiMemoryMappedIOPortSpace ∨ t = EfiPalCode then
    some E820_RESERVED
  else if t = EfiUnusableMemory then some E820_UNUSABLE
  else if t = EfiACPIReclaimMemory then some E820_ACPI
  else if t = EfiLoaderCode ∨ t = EfiLoaderData ∨ t = EfiBootServicesCode ∨
     t = EfiBootServicesData ∨ t = EfiConventionalMemory then
    some E820_RAM
  else if t = EfiACPIMemoryNVS then some E820_NVS
  else none

/-- The array `_bp->e820_map` (`e820buf`) and the position of the pointer `e`
in it (`e - e820buf`). -/
structure E820State where
  e820_map : Nat → e820_entry
  e : Nat

/-- The body of the loop that builds the e820 map, for the descriptor `map`.
The fields `start` and `len` of the slot `*e` are written before the
`switch`; `prev` is the slot before `e`, when there is one. -/
def e820_step (st : E820State) (map : EFI_MEMORY_DESCRIPTOR) : E820State :=
  let slot : e820_entry :=
    { st.e820_map st.e with
      start := map.PhysicalStart
      len := map.NumberOfPages * 2 ^ EFI_PAGE_SHIFT % 2 ^ 64 }
  match e820_type_of map.MemoryType with
  | none => { st with e820_map := Function.update st.e820_map st.e slot }
  | some e820_type =>
    if 0 < st.e ∧
        ((st.e820_map (st.e - 1)).start + (st.e820_map (st.e - 1)).len) % 2 ^ 64 =
          slot.start ∧
        (st.e820_map (st.e - 1)).type = e820_type then
      { e820_map :=
          Function.update
            (Function.update st.e820_map st.e { slot with type := e820_type })
            (st.e - 1)
            { st.e820_map (st.e - 1) with
              len := ((st.e820_map (st.e - 1)).len + slot.len) % 2 ^ 64 }
        e := st.e }
    else
      { e820_map := Function.update st.e820_map st.e { slot with type := e820_type }
        e := st.e + 1 }

/-- The loop `for (i = 0; i < nr_entries && i < E820MAX; i++)` of
`efi_boot_linux` over the memory map `map`, from `e = e820buf`;
`e820_map0` is what the array holds before. -/
def e820_loop (e820_map0 : Nat → e820_entry) (map : List EFI_MEMORY_DESCRIPTOR) :
    E820State :=
  (map.take E820MAX).foldl e820_step ⟨e820_map0, 0⟩

/-- The entries of an e820 map: the first `e - e820buf` slots of the array,
the number stored in `_bp->e820_entries`. -/
def entries (st : E820State) : List e820_entry := (List.range st.e).map st.e820_map

/-- The e820 map that `efi_boot_linux` builds from the memory map `map`. -/
def efi_boot_linux_e820 (e820_map0 : Nat → e820_entry) (map : List EFI_MEMORY_DESCRIPTOR) :
    List e820_entry :=
  entries (e820_loop e820_map0 map)

/-! ### The e820 map as a list -/

/-- One descriptor added to a list of e820 entries: a descriptor of
unrecognized type is left out; one that starts where the last entry ends
(modulo `2^64`) and has its e820 type is merged into it, the lengths being
added; any other becomes a new last entry. -/
def merge_step (acc : List e820_entry) (map : EFI_MEMORY_DESCRIPTOR) : List e820_entry :=
  match e820_type_of map.MemoryType with
  | none => acc
  | some ty =>
    match acc.getLast? with
    | none => [⟨map.PhysicalStart, map.NumberOfPages * 2 ^ EFI_PAGE_SHIFT % 2 ^ 64, ty⟩]
    | some prev =>
      if (prev.start + prev.len) % 2 ^ 64 = map.PhysicalStart ∧ prev.type = ty then
        acc.dropLast ++
          [{ prev with
             len := (prev.len + map.NumberOfPages * 2 ^ EFI_PAGE_SHIFT % 2 ^ 64) % 2 ^ 64 }]
      else
        acc ++ [⟨map.PhysicalStart, map.NumberOfPages * 2 ^ EFI_PAGE_SHIFT % 2 ^ 64, ty⟩]

/-- Two consecutive entries can be merged: the second starts where the first
ends (modulo `2^64`) and they have the same type. -/
def mergeable (a b : e820_entry) : Prop :=
  (a.start + a.len) % 2 ^ 64 = b.start ∧ a.type = b.type

instance (a b : e820_entry) : Decidable (mergeable a b) := by
  unfold mergeable
  infer_instance

/-- A memory map with two adjacent entries of RAM (conventional memory and
boot-services data), an entry of unrecognized type 14, a third adjacent entry
of RAM, and an entry of ACPI memory. -/
def mapMixed : List EFI_MEMORY_DESCRIPTOR :=
  [⟨7, 0x100000, 0x10⟩, ⟨4, 0x110000, 0x10⟩, ⟨14, 0x500000, 1⟩, ⟨7, 0x120000, 0x20⟩,
   ⟨9, 0x140000, 2⟩]

end EfiMain

/-!
# MEMDISK finder (`utils/memdiskfind.c`)

The function `valid_mbft` of `utils/memdiskfind.c`; the table is given by its
bytes.
-/

namespace MemdiskFind

/-! ## `valid_mbft` -/

def MBFT_MIN_LENGTH : Nat := 36 + 4 + 26

/-- Modelled from the spec: the layout of `struct mBFT` of
`memdisk/mstructs.h` (absent from the sources), as the constants of
`valid_mbft` give it: an ACPI header of 36 bytes, whose first 4 bytes are the
signature, 4 more bytes, and the structure `mdi`.  The table is given by its
bytes, `mbft k` being the byte at offset `k`; this is the field
`acpi.signature`. -/
def acpi_signature (mbft : Nat → Nat) : List Nat :=
  [mbft 0 % 256, mbft 1 % 256, mbft 2 % 256, mbft 3 % 256]

/-- Modelled from the spec: the field `acpi.length` of `struct mBFT`
(`memdisk/mstructs.h`, absent from the sources), the 32-bit little-endian
word at offset 4 of the ACPI header. -/
def acpi_length (mbft : Nat → Nat) : Nat :=
  mbft 4 % 256 + 256 * (mbft 5 % 256) + 65536 * (mbft 6 % 256) + 16777216 * (mbft 7 % 256)

/-- Modelled from the spec: the field `mdi.bytes` of `struct mBFT`
(`memdisk/mstructs.h`, absent from the sources), the 16-bit little-endian
word at offset `36 + 4`. -/
def mdi_bytes (mbft : Nat → Nat) : Nat := mbft 40 % 256 + 256 * (mbft 41 % 256)

/-- The value of the `uint8_t` local `csum` of `valid_mbft` after `n`
iterations of the loop `csum += ((const uint8_t *)mbft)[i]`. -/
def csum : (Nat → Nat) → Nat → Nat
  | _, 0 => 0
  | mbft, n + 1 => (csum mbft n + mbft n % 256) % 256

/-- Function `valid_mbft`. -/
def valid_mbft (mbft : Nat → Nat) (space : Nat) : Bool :=
  if acpi_signature mbft ≠ [0x6d, 0x42, 0x46, 0x54] then false
  else if acpi_length mbft < MBFT_MIN_LENGTH then false
  else if acpi_length mbft > space then false
  else if acpi_length mbft ≠ mdi_bytes mbft + 36 + 4 then false
  else if csum mbft (acpi_length mbft) ≠ 0 then false
  else true

/-- A table of 66 bytes: the signature `mBFT`, the length 66, `mdi.bytes = 26`,
and at offset 8 the byte that makes the sum of the 66 bytes a multiple of
256; zero elsewhere. -/
def sampleMbft : Nat → Nat :=
  fun k => ([0x6d, 0x42, 0x46, 0x54, 66, 0, 0, 0, 0x5b] : List Nat).getD k
    (if k = 40 then 26 else 0)

end MemdiskFind

namespace ElfModule



/-! ## Theorems: `check_header` -/

theorem goodHeader_ident (t : ModuleTarget) :
    (goodHeader t).e_ident EI_MAG0 = 0x7f ∧ (goodHeader t).e_ident EI_MAG1 = 0x45 ∧
    (goodHeader t).e_ident EI_MAG2 = 0x4c ∧ (goodHeader t).e_ident EI_MAG3 = 0x46 ∧
    (goodHeader t).e_ident EI_CLASS = t.MODULE_ELF_CLASS ∧
    (goodHeader t).e_ident EI_DATA = t.MODULE_ELF_DATA ∧
    (goodHeader t).e_ident EI_VERSION = t.MODULE_ELF_VERSION :=
  ⟨rfl, rfl, rfl, rfl, rfl, rfl, rfl⟩

theorem goodHeader_fields (t : ModuleTarget) :
    (goodHeader t).e_version = t.MODULE_ELF_VERSION ∧ (goodHeader t).e_type = ET_DYN ∧
    (goodHeader t).e_machine = t.MODULE_ELF_MACHINE ∧ (goodHeader t).e_phoff = 52 :=
  ⟨rfl, rfl, rfl, rfl⟩

theorem firstFailure_eq (t : ModuleTarget) (h : Elf32_Ehdr) :
    firstFailure t h =
      if ¬ HeaderError.passes t h .BadMagic then some .BadMagic
      else if ¬ HeaderError.passes t h .UnsupportedClass then some .UnsupportedClass
      else if ¬ HeaderError.passes t h .UnsupportedEndianness then some .UnsupportedEndianness
      else if ¬ HeaderError.passes t h .UnsupportedVersion then some .UnsupportedVersion
      else if ¬ HeaderError.passes t h .NotSharedObject then some .NotSharedObject
      else if ¬ HeaderError.passes t h .UnsupportedMachine then some .UnsupportedMachine
      else if ¬ HeaderError.passes t h .MissingProgramHeaders then
        some .MissingProgramHeaders
      else none := by
  unfold firstFailure HeaderError.inOrder
  simp only [List.find?]
  split_ifs <;> simp [*]

/-- C1: `check_header` returns 0 exactly when the seven checks all pass (magic
`0x7f 'E' 'L' 'F'`, class, data encoding, both version fields, type `ET_DYN`,
machine, `e_phoff ≠ 0`) and returns -1 for every other header; a header that
passes all seven is accepted, and a header whose type is `ET_EXEC` is rejected
whatever its other fields are. -/
theorem check_header_accepts_iff (t : ModuleTarget) (h : Elf32_Ehdr) :
    ((check_header t h).1 = 0 ↔
        ((h.e_ident EI_MAG0 = 0x7f ∧ h.e_ident EI_MAG1 = 'E'.toNat ∧
          h.e_ident EI_MAG2 = 'L'.toNat ∧ h.e_ident EI_MAG3 = 'F'.toNat) ∧
         h.e_ident EI_CLASS = t.MODULE_ELF_CLASS ∧
         h.e_ident EI_DATA = t.MODULE_ELF_DATA ∧
         (h.e_ident EI_VERSION = t.MODULE_ELF_VERSION ∧
          h.e_version = t.MODULE_ELF_VERSION) ∧
         h.e_type = ET_DYN ∧
         h.e_machine = t.MODULE_ELF_MACHINE ∧
         h.e_phoff ≠ 0)) ∧
    ((check_header t h).1 = 0 ∨ (check_header t h).1 = -1) ∧
    (check_header t (goodHeader t)).1 = 0 ∧
    (check_header t { goodHeader t with e_type := ET_EXEC }).1 = -1 ∧
    (check_header t { h with e_type := ET_EXEC }).1 = -1 := by
  refine ⟨?_, ?_, ?_, ?_, ?_⟩
  · unfold check_header
    simp only [ELFMAG0, ELFMAG1, ELFMAG2, ELFMAG3, MODULE_ELF_TYPE]
    split_ifs <;> simp <;> tauto
  · unfold check_header
    split_ifs <;> simp
  · simp [check_header, goodHeader_ident, goodHeader_fields, ELFMAG0, ELFMAG1, ELFMAG2,
      ELFMAG3, MODULE_ELF_TYPE]
  · simp [check_header, goodHeader_ident, ELFMAG0, ELFMAG1, ELFMAG2,
      ELFMAG3, MODULE_ELF_TYPE, ET_EXEC, ET_DYN, (goodHeader_fields t).1]
  · unfold check_header
    simp only [ET_EXEC, ET_DYN, MODULE_ELF_TYPE]
    split_ifs <;> simp_all

/-- C2: each of the seven checks has its own diagnostic, different from the
other six, and for every header `check_header` reports exactly the diagnostic
of the first check that fails in the order magic, class, data encoding,
version, type, machine, program-header offset (and nothing when none fails);
a header that fails several checks reports only the earliest. -/
theorem check_header_reports_first_failure (t : ModuleTarget) (h : Elf32_Ehdr) :
    Function.Injective HeaderError.message ∧
    HeaderError.inOrder = [.BadMagic, .UnsupportedClass, .UnsupportedEndianness,
      .UnsupportedVersion, .NotSharedObject, .UnsupportedMachine,
      .MissingProgramHeaders] ∧
    check_header t h =
      (match firstFailure t h with
       | none => (0, [])
       | some e => (-1, [e.message])) ∧
    (check_header t { goodHeader t with e_type := ET_EXEC, e_phoff := 0 }).2 =
      [HeaderError.message .NotSharedObject] := by
  refine ⟨?_, rfl, ?_, ?_⟩
  · intro a b hab
    cases a <;> cases b <;> first | rfl | (exact absurd hab (by decide))
  · rw [firstFailure_eq]
    unfold check_header
    simp only [ELFMAG0, ELFMAG1, ELFMAG2, ELFMAG3, MODULE_ELF_TYPE, HeaderError.passes]
    split_ifs <;> simp_all [HeaderError.message]
  · simp [check_header, goodHeader_ident, ELFMAG0, ELFMAG1, ELFMAG2,
      ELFMAG3, MODULE_ELF_TYPE, ET_EXEC, ET_DYN, (goodHeader_fields t).1,
      HeaderError.message]

/-! ## Lemmas: the scan of the program-header table -/

theorem MIN_le_left (x y : Nat) : MIN x y ≤ x := by
  unfold MIN; split_ifs <;> omega

theorem MIN_le_right (x y : Nat) : MIN x y ≤ y := by
  unfold MIN; split_ifs <;> omega

theorem le_MAX_left (x y : Nat) : x ≤ MAX x y := by
  unfold MAX; split_ifs <;> omega

theorem le_MAX_right (x y : Nat) : y ≤ MAX x y := by
  unfold MAX; split_ifs <;> omega

theorem scan_segments_no_load (l : List Elf32_Phdr) (i : Nat) (acc : Extent)
    (h : ∀ ph ∈ l, ph.p_type ≠ PT_LOAD) : scan_segments i l acc = acc := by
  induction l generalizing i acc with
  | nil => rfl
  | cons ph rest ih =>
    have h1 : ph.p_type ≠ PT_LOAD := h ph (List.mem_cons_self _ _)
    have h2 : ∀ q ∈ rest, q.p_type ≠ PT_LOAD := fun q hq => h q (List.mem_cons_of_mem _ hq)
    simp only [scan_segments, scan_step, if_neg h1]
    exact ih (i + 1) acc h2

theorem scan_min_le_acc (l : List Elf32_Phdr) (i : Nat) (acc : Extent) (hi : i ≠ 0) :
    (scan_segments i l acc).min_addr ≤ acc.min_addr := by
  induction l generalizing i acc with
  | nil => exact Nat.le_refl _
  | cons ph rest ih =>
    simp only [scan_segments]
    refine Nat.le_trans (ih (i + 1) _ (Nat.succ_ne_zero i)) ?_
    by_cases hl : ph.p_type = PT_LOAD
    · simp only [scan_step, if_pos hl, if_neg hi]
      exact MIN_le_left _ _
    · simp only [scan_step, if_neg hl]
      exact Nat.le_refl _

theorem scan_min_le_of_mem_pos (l : List Elf32_Phdr) (i : Nat) (acc : Extent) (hi : i ≠ 0)
    (ph : Elf32_Phdr) (hm : ph ∈ l) (hl : ph.p_type = PT_LOAD) :
    (scan_segments i l acc).min_addr ≤ ph.p_vaddr := by
  induction l generalizing i acc with
  | nil => cases hm
  | cons q rest ih =>
    simp only [scan_segments]
    rcases List.mem_cons.mp hm with rfl | hm'
    · refine Nat.le_trans (scan_min_le_acc rest (i + 1) _ (Nat.succ_ne_zero i)) ?_
      simp only [scan_step, if_pos hl, if_neg hi]
      exact MIN_le_right _ _
    · exact ih (i + 1) _ (Nat.succ_ne_zero i) hm'

theorem scan_min_le_of_mem (l : List Elf32_Phdr) (acc : Extent)
    (ph : Elf32_Phdr) (hm : ph ∈ l) (hl : ph.p_type = PT_LOAD) :
    (scan_segments 0 l acc).min_addr ≤ ph.p_vaddr := by
  cases l with
  | nil => cases hm
  | cons q rest =>
    simp only [scan_segments]
    rcases List.mem_cons.mp hm with rfl | hm'
    · refine Nat.le_trans (scan_min_le_acc rest 1 _ (by decide)) ?_
      simp [scan_step, hl]
    · exact scan_min_le_of_mem_pos rest 1 _ (by decide) ph hm' hl

theorem scan_max_ge_acc (l : List Elf32_Phdr) (i : Nat) (acc : Extent) :
    acc.max_addr ≤ (scan_segments i l acc).max_addr := by
  induction l generalizing i acc with
  | nil => exact Nat.le_refl _
  | cons ph rest ih =>
    simp only [scan_segments]
    refine Nat.le_trans ?_ (ih (i + 1) _)
    by_cases hl : ph.p_type = PT_LOAD
    · simp only [scan_step, if_pos hl]
      exact le_MAX_left _ _
    · simp only [scan_step, if_neg hl]
      exact Nat.le_refl _

theorem scan_max_ge_of_mem (l : List Elf32_Phdr) (i : Nat) (acc : Extent)
    (ph : Elf32_Phdr) (hm : ph ∈ l) (hl : ph.p_type = PT_LOAD) :
    add32 ph.p_vaddr ph.p_memsz ≤ (scan_segments i l acc).max_addr := by
  induction l generalizing i acc with
  | nil => cases hm
  | cons q rest ih =>
    simp only [scan_segments]
    rcases List.mem_cons.mp hm with rfl | hm'
    · refine Nat.le_trans ?_ (scan_max_ge_acc rest (i + 1) _)
      simp only [scan_step, if_pos hl]
      exact le_MAX_right _ _
    · exact ih (i + 1) _ hm'

theorem scan_align_ge_acc (l : List Elf32_Phdr) (i : Nat) (acc : Extent) :
    acc.max_align ≤ (scan_segments i l acc).max_align := by
  induction l generalizing i acc with
  | nil => exact Nat.le_refl _
  | cons ph rest ih =>
    simp only [scan_segments]
    refine Nat.le_trans ?_ (ih (i + 1) _)
    by_cases hl : ph.p_type = PT_LOAD
    · simp only [scan_step, if_pos hl]
      exact le_MAX_left _ _
    · simp only [scan_step, if_neg hl]
      exact Nat.le_refl _

theorem scan_align_ge_of_mem (l : List Elf32_Phdr) (i : Nat) (acc : Extent)
    (ph : Elf32_Phdr) (hm : ph ∈ l) (hl : ph.p_type = PT_LOAD) :
    ph.p_align ≤ (scan_segments i l acc).max_align := by
  induction l generalizing i acc with
  | nil => cases hm
  | cons q rest ih =>
    simp only [scan_segments]
    rcases List.mem_cons.mp hm with rfl | hm'
    · refine Nat.le_trans ?_ (scan_align_ge_acc rest (i + 1) _)
      simp only [scan_step, if_pos hl]
      exact le_MAX_right _ _
    · exact ih (i + 1) _ hm'

theorem extent_align_ge (l : List Elf32_Phdr) : 4 ≤ (extent l).max_align :=
  scan_align_ge_acc l 0 ⟨0, 0, sizeof_voidp⟩

/-! ## Lemmas: traces -/

theorem memcpys_append (l₁ l₂ : List Event) : memcpys (l₁ ++ l₂) = memcpys l₁ ++ memcpys l₂ := by
  induction l₁ with
  | nil => rfl
  | cons e rest ih => cases e <;> simp [memcpys, ih]

theorem requests_append (l₁ l₂ : List Event) :
    requests (l₁ ++ l₂) = requests l₁ ++ requests l₂ := by
  induction l₁ with
  | nil => rfl
  | cons e rest ih => cases e <;> simp [requests, ih]

theorem writes_append (l₁ l₂ : List Event) : writes (l₁ ++ l₂) = writes l₁ ++ writes l₂ := by
  induction l₁ with
  | nil => rfl
  | cons e rest ih => cases e <;> simp [writes, ih]

/-! ## Lemmas: the copy loop -/

theorem copy_segments_mem (image : ElfImage) (base : Nat) (l : List Elf32_Phdr) (env : Env)
    (a x : Nat)
    (hval : ∀ q ∈ l, q.p_type = PT_LOAD → in_copy_range base q a →
      image.bytes (q.p_offset + (a - add32 base q.p_vaddr)) = x)
    (hex : (∃ q ∈ l, q.p_type = PT_LOAD ∧ in_copy_range base q a) ∨ env.mem a = x) :
    (copy_segments image base l env).mem a = x := by
  induction l generalizing env with
  | nil =>
    rcases hex with ⟨q, hq, _⟩ | h
    · cases hq
    · exact h
  | cons q rest ih =>
    have hval' : ∀ q' ∈ rest, q'.p_type = PT_LOAD → in_copy_range base q' a →
        image.bytes (q'.p_offset + (a - add32 base q'.p_vaddr)) = x :=
      fun q' hq' => hval q' (List.mem_cons_of_mem _ hq')
    by_cases hl : q.p_type = PT_LOAD
    · simp only [copy_segments, if_pos hl]
      apply ih _ hval'
      by_cases hc : in_copy_range base q a
      · right
        have hv := hval q (List.mem_cons_self _ _) hl hc
        unfold in_copy_range at hc
        simp only [memcpy, if_pos hc]
        exact hv
      · rcases hex with ⟨q', hq', hl', hc'⟩ | h
        · rcases List.mem_cons.mp hq' with rfl | hq''
          · exact absurd hc' hc
          · exact Or.inl ⟨q', hq'', hl', hc'⟩
        · right
          unfold in_copy_range at hc
          simp only [memcpy, if_neg hc]
          exact h
    · simp only [copy_segments, if_neg hl]
      apply ih _ hval'
      rcases hex with ⟨q', hq', hl', hc'⟩ | h
      · rcases List.mem_cons.mp hq' with rfl | hq''
        · exact absurd hl' hl
        · exact Or.inl ⟨q', hq'', hl', hc'⟩
      · exact Or.inr h

theorem copy_segments_memcpys (image : ElfImage) (base : Nat) (l : List Elf32_Phdr)
    (env : Env) :
    memcpys (copy_segments image base l env).trace =
      memcpys env.trace ++
        (l.filter (fun q => decide (q.p_type = PT_LOAD))).map
          (fun q => (add32 base q.p_vaddr, q.p_offset, q.p_filesz)) := by
  induction l generalizing env with
  | nil => simp [copy_segments]
  | cons q rest ih =>
    by_cases hl : q.p_type = PT_LOAD
    · simp only [copy_segments, if_pos hl]
      rw [ih]
      simp [memcpys_append, memcpys, hl]
    · simp only [copy_segments, if_neg hl]
      rw [ih]
      simp [hl]

theorem copy_segments_requests (image : ElfImage) (base : Nat) (l : List Elf32_Phdr)
    (env : Env) :
    requests (copy_segments image base l env).trace = requests env.trace := by
  induction l generalizing env with
  | nil => simp [copy_segments]
  | cons q rest ih =>
    by_cases hl : q.p_type = PT_LOAD
    · simp only [copy_segments, if_pos hl]
      rw [ih]
      simp [requests_append, requests]
    · simp only [copy_segments, if_neg hl]
      rw [ih]

/-! ## Lemmas: the footprint -/

theorem footprint_bounds (l : List Elf32_Phdr) (ph : Elf32_Phdr) (hm : ph ∈ l)
    (hl : ph.p_type = PT_LOAD) (hnowrap : ph.p_vaddr + ph.p_memsz < 4294967296)
    (hfit : (extent l).max_addr + (extent l).max_align ≤ 4294967296) :
    min_alloc (extent l) ≤ ph.p_vaddr ∧
    ph.p_vaddr + ph.p_memsz ≤ max_alloc (extent l) ∧
    max_alloc (extent l) < 4294967296 ∧
    sub32 (max_alloc (extent l)) (min_alloc (extent l)) =
      max_alloc (extent l) - min_alloc (extent l) := by
  have h1 : (extent l).min_addr ≤ ph.p_vaddr := scan_min_le_of_mem l _ ph hm hl
  have h2 : add32 ph.p_vaddr ph.p_memsz ≤ (extent l).max_addr :=
    scan_max_ge_of_mem l 0 _ ph hm hl
  have h3 : 4 ≤ (extent l).max_align := extent_align_ge l
  have h4 : (extent l).min_addr % (extent l).max_align ≤ (extent l).min_addr :=
    Nat.mod_le _ _
  have h5 : (extent l).max_addr % (extent l).max_align ≤ (extent l).max_addr :=
    Nat.mod_le _ _
  have h6 : (extent l).max_addr % (extent l).max_align < (extent l).max_align :=
    Nat.mod_lt _ (by omega)
  unfold add32 at h2
  unfold min_alloc max_alloc sub32 add32
  generalize (extent l).min_addr % (extent l).max_align = r1 at *
  generalize (extent l).max_addr % (extent l).max_align = r2 at *
  generalize (extent l).min_addr = mn at *
  generalize (extent l).max_addr = mx at *
  generalize (extent l).max_align = al at *
  split_ifs <;> omega

theorem dest_eq (p lo v size : Nat) (hp : p + size ≤ 4294967296) (h1 : lo ≤ v)
    (h2 : v - lo < size) :
    add32 (sub32 (p % 4294967296) lo) v = p + (v - lo) := by
  unfold add32 sub32
  omega

/-! ## Lemmas: the outcomes of `load_segments` -/

theorem load_segments_empty (posix_memalign : Nat → Nat → Option Nat) (image : ElfImage)
    (module : elf_module) (env : Env)
    (h0 : sub32 (extent image.pht).max_addr (extent image.pht).min_addr = 0) :
    load_segments posix_memalign image module env =
      { ret := -1, module := module,
        env := { env with trace := env.trace ++
          [Event.stderr "No loadable segments found\n"] } } := by
  unfold load_segments
  simp only [if_pos h0]

theorem load_segments_refused (posix_memalign : Nat → Nat → Option Nat) (image : ElfImage)
    (module : elf_module) (env : Env)
    (h0 : sub32 (extent image.pht).max_addr (extent image.pht).min_addr ≠ 0)
    (hp : posix_memalign (extent image.pht).max_align
      (sub32 (max_alloc (extent image.pht)) (min_alloc (extent image.pht))) = none) :
    load_segments posix_memalign image module env =
      { ret := -1, module := module,
        env := { env with trace := env.trace ++
          [Event.posix_memalign (extent image.pht).max_align
             (sub32 (max_alloc (extent image.pht)) (min_alloc (extent image.pht))) none,
           Event.stderr "Could not allocate segments\n"] } } := by
  unfold load_segments
  simp only [if_neg h0, hp]

theorem load_segments_granted (posix_memalign : Nat → Nat → Option Nat) (image : ElfImage)
    (module : elf_module) (env : Env) (p : Nat)
    (h0 : sub32 (extent image.pht).max_addr (extent image.pht).min_addr ≠ 0)
    (hp : posix_memalign (extent image.pht).max_align
      (sub32 (max_alloc (extent image.pht)) (min_alloc (extent image.pht))) = some p) :
    (load_segments posix_memalign image module env).ret = 0 ∧
    (load_segments posix_memalign image module env).module =
      { module with
        module_addr := p
        base_addr := sub32 (p % 4294967296) (min_alloc (extent image.pht))
        module_size := sub32 (max_alloc (extent image.pht)) (min_alloc (extent image.pht)) } ∧
    (load_segments posix_memalign image module env).env.mem =
      (copy_segments image (sub32 (p % 4294967296) (min_alloc (extent image.pht))) image.pht
        { mem := memset env.mem p 0
            (sub32 (max_alloc (extent image.pht)) (min_alloc (extent image.pht)))
          trace := env.trace ++
            [Event.posix_memalign (extent image.pht).max_align
               (sub32 (max_alloc (extent image.pht)) (min_alloc (extent image.pht))) (some p),
             Event.memset p 0
               (sub32 (max_alloc (extent image.pht)) (min_alloc (extent image.pht)))] }).mem ∧
    (load_segments posix_memalign image module env).env.trace =
      (copy_segments image (sub32 (p % 4294967296) (min_alloc (extent image.pht))) image.pht
        { mem := memset env.mem p 0
            (sub32 (max_alloc (extent image.pht)) (min_alloc (extent image.pht)))
          trace := env.trace ++
            [Event.posix_memalign (extent image.pht).max_align
               (sub32 (max_alloc (extent image.pht)) (min_alloc (extent image.pht))) (some p),
             Event.memset p 0
               (sub32 (max_alloc (extent image.pht)) (min_alloc (extent image.pht)))] }).trace ++
        [Event.printf "Base address: 0x%08x, aligned at 0x%08x\n"
           [sub32 (p % 4294967296) (min_alloc (extent image.pht)),
            (extent image.pht).max_align],
         Event.printf "Module size: 0x%08x\n"
           [sub32 (max_alloc (extent image.pht)) (min_alloc (extent image.pht))]] := by
  unfold load_segments
  simp only [if_neg h0, hp]
  simp

theorem load_segments_ret_zero (posix_memalign : Nat → Nat → Option Nat) (image : ElfImage)
    (module : elf_module) (env : Env)
    (hok : (load_segments posix_memalign image module env).ret = 0) :
    sub32 (extent image.pht).max_addr (extent image.pht).min_addr ≠ 0 ∧
    ∃ p, posix_memalign (extent image.pht).max_align
      (sub32 (max_alloc (extent image.pht)) (min_alloc (extent image.pht))) = some p := by
  by_cases h0 : sub32 (extent image.pht).max_addr (extent image.pht).min_addr = 0
  · rw [load_segments_empty _ _ _ _ h0] at hok
    simp at hok
  · refine ⟨h0, ?_⟩
    cases hp : posix_memalign (extent image.pht).max_align
      (sub32 (max_alloc (extent image.pht)) (min_alloc (extent image.pht))) with
    | none =>
      rw [load_segments_refused _ _ _ _ h0 hp] at hok
      simp at hok
    | some p => exact ⟨p, rfl⟩

theorem load_segments_ret_zero_nonempty (posix_memalign : Nat → Nat → Option Nat)
    (image : ElfImage) (module : elf_module) (env : Env)
    (hok : (load_segments posix_memalign image module env).ret = 0) : image.pht ≠ [] := by
  intro h
  have h0 := (load_segments_ret_zero posix_memalign image module env hok).1
  rw [h] at h0
  exact h0 (by decide)

theorem load_segments_layout (l : List Elf32_Phdr) (p : Nat) (ph : Elf32_Phdr)
    (hm : ph ∈ l) (hl : ph.p_type = PT_LOAD) (hpos : 0 < ph.p_memsz)
    (hnowrap : ph.p_vaddr + ph.p_memsz < 4294967296)
    (hfit : (extent l).max_addr + (extent l).max_align ≤ 4294967296)
    (hp : p + sub32 (max_alloc (extent l)) (min_alloc (extent l)) ≤ 4294967296) :
    add32 (sub32 (p % 4294967296) (min_alloc (extent l))) ph.p_vaddr =
      p + (ph.p_vaddr - min_alloc (extent l)) ∧
    min_alloc (extent l) ≤ ph.p_vaddr ∧
    ph.p_vaddr + ph.p_memsz ≤ max_alloc (extent l) ∧
    sub32 (max_alloc (extent l)) (min_alloc (extent l)) =
      max_alloc (extent l) - min_alloc (extent l) := by
  obtain ⟨h1, h2, _, h4⟩ := footprint_bounds l ph hm hl hnowrap hfit
  refine ⟨?_, h1, h2, h4⟩
  rw [h4] at hp
  exact dest_eq p _ _ _ hp h1 (by omega)

theorem allocAt_in_range (b : Nat) :
    ∀ a s p, allocAt b a s = some p → p + s ≤ 4294967296 := by
  intro a s p h
  unfold allocAt at h
  split_ifs at h with hb
  cases h
  exact hb

/-! ## Theorems: `load_segments` -/

/-- C3: on the table `[PT_PHDR, PT_LOAD at 0x1000 of 0x100 bytes]`, whose
entry 0 is not loadable, `load_segments` succeeds and requests and records a
size of 0x1100 bytes, whereas `max_alloc - min_alloc` as §4.2 defines it (with
`min_addr` the smallest `p_vaddr` among the loadable entries, here 0x1000) is
0x100; with the same two entries in the other order it records 0x100. -/
theorem load_segments_size_when_first_entry_not_loadable :
    (sampleLoad tableLoadSecond 0x2000).ret = 0 ∧
    (sampleLoad tableLoadSecond 0x2000).module.module_size = 0x1100 ∧
    requests (sampleLoad tableLoadSecond 0x2000).env.trace = [(4, 0x1100)] ∧
    (extent tableLoadSecond).min_addr = 0 ∧
    spec_min_addr tableLoadSecond = 0x1000 ∧
    spec_module_size tableLoadSecond = 0x100 ∧
    (sampleLoad tableLoadFirst 0x2000).module.module_size = 0x100 ∧
    spec_module_size tableLoadFirst = 0x100 := by
  decide

/-- C4 (as stated, refuted): with a second loadable segment of `p_memsz = 0`
placed at the end of the first, `load_segments` succeeds and `base_addr +
p_vaddr` of that segment is `module_addr + module_size`, outside the half-open
range.  The range is also missed when `p_vaddr + p_memsz` of a segment wraps
past `2^32` (the segment is not counted in `max_addr`) and when `max_addr`
rounded up to `max_align` is `2^32` (`max_alloc` wraps to 0 and the size is
0). -/
theorem load_segments_bias_outside_range :
    ((sampleLoad tableEmptyLast 0x2000).ret = 0 ∧
      ¬ ∀ ph ∈ tableEmptyLast, ph.p_type = PT_LOAD →
        (sampleLoad tableEmptyLast 0x2000).module.module_addr ≤
          add32 (sampleLoad tableEmptyLast 0x2000).module.base_addr ph.p_vaddr ∧
        add32 (sampleLoad tableEmptyLast 0x2000).module.base_addr ph.p_vaddr <
          (sampleLoad tableEmptyLast 0x2000).module.module_addr +
          (sampleLoad tableEmptyLast 0x2000).module.module_size) ∧
    ((sampleLoad tableEmptyLast 0x2000).module.module_addr = 0x100000 ∧
      (sampleLoad tableEmptyLast 0x2000).module.module_size = 0x1000 ∧
      add32 (sampleLoad tableEmptyLast 0x2000).module.base_addr 0x1000 = 0x101000) ∧
    ((sampleLoad tableWrapping 0x2000).ret = 0 ∧
      (sampleLoad tableWrapping 0x2000).module.module_addr = 0x100000 ∧
      (sampleLoad tableWrapping 0x2000).module.module_size = 0x1000 ∧
      add32 (sampleLoad tableWrapping 0x2000).module.base_addr 0x2000 = 0x102000) ∧
    ((sampleLoad tableRoundWrap 0x2000).ret = 0 ∧
      (sampleLoad tableRoundWrap 0x2000).module.module_addr = 0x100000 ∧
      (sampleLoad tableRoundWrap 0x2000).module.module_size = 0 ∧
      add32 (sampleLoad tableRoundWrap 0x2000).module.base_addr 0 = 0x100000) := by
  decide

/-- C4 (amended): whenever `load_segments` succeeds with a block that lies
inside the 32-bit address space and the footprint does not wrap (every
`PT_LOAD` entry has `p_vaddr + p_memsz < 2^32`, and `max_addr + max_align ≤
2^32`), then `base_addr = module_addr - min_alloc` and for every `PT_LOAD`
segment with `p_memsz > 0` the address `base_addr + p_vaddr` lies in
`[module_addr, module_addr + module_size)`. -/
theorem load_segments_bias_in_range (posix_memalign : Nat → Nat → Option Nat)
    (image : ElfImage) (module : elf_module) (env : Env)
    (halloc : ∀ a s p, posix_memalign a s = some p → p + s ≤ 4294967296)
    (hnowrap : ∀ ph ∈ image.pht, ph.p_type = PT_LOAD →
      ph.p_vaddr + ph.p_memsz < 4294967296)
    (hfit : (extent image.pht).max_addr + (extent image.pht).max_align ≤ 4294967296)
    (hok : (load_segments posix_memalign image module env).ret = 0) :
    (load_segments posix_memalign image module env).module.base_addr =
      sub32 ((load_segments posix_memalign image module env).module.module_addr % 4294967296)
        (min_alloc (extent image.pht)) ∧
    ∀ ph ∈ image.pht, ph.p_type = PT_LOAD → 0 < ph.p_memsz →
      (load_segments posix_memalign image module env).module.module_addr ≤
        add32 (load_segments posix_memalign image module env).module.base_addr ph.p_vaddr ∧
      add32 (load_segments posix_memalign image module env).module.base_addr ph.p_vaddr <
        (load_segments posix_memalign image module env).module.module_addr +
        (load_segments posix_memalign image module env).module.module_size := by
  obtain ⟨h0, p, hp⟩ := load_segments_ret_zero _ _ _ _ hok
  obtain ⟨_, hmod, _, _⟩ := load_segments_granted _ _ module env p h0 hp
  rw [hmod]
  refine ⟨rfl, ?_⟩
  intro ph hm hl hpos
  obtain ⟨h1, h2, h3, h4⟩ := load_segments_layout image.pht p ph hm hl hpos
    (hnowrap ph hm hl) hfit (halloc _ _ _ hp)
  simp only [h1, h4]
  omega

/-- C4 (amended), witness: the two disjoint sample segments, loaded at
`0x100000`; the segment at `0x2000`. -/
theorem load_segments_bias_in_range_witness :
    (sampleLoad tableTwoSegments 0x2000).module.module_addr ≤
      add32 (sampleLoad tableTwoSegments 0x2000).module.base_addr
        (phdr PT_LOAD 0x10 0x2000 0x20 0x40 4).p_vaddr ∧
    add32 (sampleLoad tableTwoSegments 0x2000).module.base_addr
        (phdr PT_LOAD 0x10 0x2000 0x20 0x40 4).p_vaddr <
      (sampleLoad tableTwoSegments 0x2000).module.module_addr +
      (sampleLoad tableTwoSegments 0x2000).module.module_size :=
  (load_segments_bias_in_range (allocAt 0x100000) (sampleImage tableTwoSegments)
    (sampleModule 0x2000) dirtyEnv
    (allocAt_in_range 0x100000) (by decide) (by decide) (by decide)).2
    (phdr PT_LOAD 0x10 0x2000 0x20 0x40 4) (by decide) (by decide) (by decide)

/-- C5 (as stated, refuted): two loadable segments mapped to the same
addresses, the first all BSS (`p_filesz = 0`, `p_memsz = 0x10`), the second
all file bytes; `load_segments` succeeds and the byte at offset `k = 0` of the
first segment, inside its `[p_filesz, p_memsz)` range, is 1, not 0.  The law
also fails when a segment with `p_filesz > p_memsz` spills into the BSS of the
next one, when `p_vaddr + p_memsz` wraps past `2^32`, and when `max_alloc`
wraps to 0: the BSS byte then keeps a file byte or the old memory content
`0xAA`. -/
theorem load_segments_bss_overwritten :
    ((sampleLoad tableOverlapping 0x2000).ret = 0 ∧
      ¬ ∀ ph ∈ tableOverlapping, ph.p_type = PT_LOAD →
        ∀ k, ph.p_filesz ≤ k → k < ph.p_memsz →
        (sampleLoad tableOverlapping 0x2000).env.mem
          (add32 (sampleLoad tableOverlapping 0x2000).module.base_addr ph.p_vaddr + k)
          = 0) ∧
    (sampleLoad tableOverlapping 0x2000).env.mem
      (add32 (sampleLoad tableOverlapping 0x2000).module.base_addr
        (phdr PT_LOAD 0 0 0 0x10 4).p_vaddr + 0) = 1 ∧
    ((sampleLoad tableSpill 0x2000).ret = 0 ∧
      (sampleLoad tableSpill 0x2000).env.mem
        (add32 (sampleLoad tableSpill 0x2000).module.base_addr
          (phdr PT_LOAD 0 0x10 0 0x10 4).p_vaddr + 0) = 17) ∧
    ((sampleLoad tableWrapping 0x2000).ret = 0 ∧
      (sampleLoad tableWrapping 0x2000).env.mem
        (add32 (sampleLoad tableWrapping 0x2000).module.base_addr
          (phdr PT_LOAD 0x10 0x2000 0x10 0xFFFFE000 4).p_vaddr + 0x10) = 0xAA) ∧
    ((sampleLoad tableRoundWrap 0x2000).ret = 0 ∧
      (sampleLoad tableRoundWrap 0x2000).env.mem
        (add32 (sampleLoad tableRoundWrap 0x2000).module.base_addr
          (phdr PT_LOAD 0 0 0x10 0xFFFFFFFD 4).p_vaddr + 0x10) = 0xAA) := by
  refine ⟨⟨by decide, fun h => ?_⟩, by decide, by decide, by decide, by decide⟩
  exact absurd (h (phdr PT_LOAD 0 0 0 0x10 4) (by decide) (by decide) 0 (by decide)
    (by decide)) (by decide)

/-- C5 (amended): BSS zero-fill law.  Whenever `load_segments` succeeds with a
block inside the 32-bit address space, on `PT_LOAD` segments with `p_filesz ≤
p_memsz` whose ranges `[p_vaddr, p_vaddr + p_memsz)` are pairwise disjoint and
whose footprint does not wrap, for every `PT_LOAD` segment and every `k` with
`p_filesz ≤ k < p_memsz` the byte at `base_addr + p_vaddr + k` is zero after
mapping. -/
theorem load_segments_bss_zero (posix_memalign : Nat → Nat → Option Nat)
    (image : ElfImage) (module : elf_module) (env : Env)
    (halloc : ∀ a s p, posix_memalign a s = some p → p + s ≤ 4294967296)
    (hnowrap : ∀ ph ∈ image.pht, ph.p_type = PT_LOAD →
      ph.p_vaddr + ph.p_memsz < 4294967296)
    (hfit : (extent image.pht).max_addr + (extent image.pht).max_align ≤ 4294967296)
    (hfs : ∀ ph ∈ image.pht, ph.p_type = PT_LOAD → ph.p_filesz ≤ ph.p_memsz)
    (hdisj : ∀ q ∈ image.pht, q.p_type = PT_LOAD → ∀ q' ∈ image.pht, q'.p_type = PT_LOAD →
      q ≠ q' → q.p_vaddr + q.p_memsz ≤ q'.p_vaddr ∨ q'.p_vaddr + q'.p_memsz ≤ q.p_vaddr)
    (hok : (load_segments posix_memalign image module env).ret = 0) :
    ∀ ph ∈ image.pht, ph.p_type = PT_LOAD → ∀ k, ph.p_filesz ≤ k → k < ph.p_memsz →
      (load_segments posix_memalign image module env).env.mem
        (add32 (load_segments posix_memalign image module env).module.base_addr
          ph.p_vaddr + k) = 0 := by
  obtain ⟨h0, p, hp⟩ := load_segments_ret_zero _ _ _ _ hok
  obtain ⟨_, hmod, hmem, _⟩ := load_segments_granted _ _ module env p h0 hp
  have hb : (load_segments posix_memalign image module env).module.base_addr =
      sub32 (p % 4294967296) (min_alloc (extent image.pht)) := by rw [hmod]
  intro ph hm hl k hk1 hk2
  rw [hmem, hb]
  obtain ⟨h1, h2, h3, h4⟩ := load_segments_layout image.pht p ph hm hl (by omega)
    (hnowrap ph hm hl) hfit (halloc _ _ _ hp)
  apply copy_segments_mem
  · intro q hqm hql hc
    exfalso
    unfold in_copy_range at hc
    have hqf := hfs q hqm hql
    obtain ⟨g1, g2, g3, _⟩ := load_segments_layout image.pht p q hqm hql (by omega)
      (hnowrap q hqm hql) hfit (halloc _ _ _ hp)
    simp only [h1, g1] at hc
    by_cases hqe : q = ph
    · subst hqe
      omega
    · rcases hdisj q hqm hql ph hm hl hqe with hd | hd <;> omega
  · right
    simp only [memset, h1, h4]
    rw [if_pos (by omega)]

/-- C5 (amended), witness: the two disjoint sample segments, loaded at
`0x100000` into memory full of `0xAA`; the first BSS byte (`k = 0x10`) of the
segment at `0x1000` is zero. -/
theorem load_segments_bss_zero_witness :
    (sampleLoad tableTwoSegments 0x2000).env.mem
      (add32 (sampleLoad tableTwoSegments 0x2000).module.base_addr
        (phdr PT_LOAD 0 0x1000 0x10 0x100 4).p_vaddr + 0x10) = 0 :=
  load_segments_bss_zero (allocAt 0x100000) (sampleImage tableTwoSegments)
    (sampleModule 0x2000) dirtyEnv
    (allocAt_in_range 0x100000) (by decide) (by decide) (by decide) (by decide) (by decide)
    (phdr PT_LOAD 0 0x1000 0x10 0x100 4) (by decide) (by decide) 0x10 (by decide) (by decide)

/-- C6 (as stated, refuted): the two loadable segments of `tableSpillCopied`
have the disjoint ranges `[0, 0x10)` and `[0x10, 0x20)`, and `load_segments`
succeeds; but the first copies `p_filesz = 0x20` bytes, more than its
`p_memsz`, and the copy of the second segment then overwrites them: the byte at
`base_addr + p_vaddr + 0x10` of the first segment is 65 (the image byte at
offset `0x40`), not the image byte 17 at `p_offset + 0x10`.  The law also
fails, with `p_filesz ≤ p_memsz` everywhere, when `p_vaddr + p_memsz` of a
segment exceeds `2^32`: `base_addr + p_vaddr` wraps, and in `tableWrapCopied`
the second copy overwrites byte 0 of the first segment with 81. -/
theorem load_segments_copy_overwritten :
    ((sampleLoad tableSpillCopied 0x2000).ret = 0 ∧
      (∀ q ∈ tableSpillCopied, q.p_type = PT_LOAD → ∀ q' ∈ tableSpillCopied,
        q'.p_type = PT_LOAD → q ≠ q' →
        q.p_vaddr + q.p_memsz ≤ q'.p_vaddr ∨ q'.p_vaddr + q'.p_memsz ≤ q.p_vaddr) ∧
      ¬ ∀ ph ∈ tableSpillCopied, ph.p_type = PT_LOAD → ∀ k, k < ph.p_filesz →
        (sampleLoad tableSpillCopied 0x2000).env.mem
          (add32 (sampleLoad tableSpillCopied 0x2000).module.base_addr ph.p_vaddr + k) =
          (sampleImage tableSpillCopied).bytes (ph.p_offset + k)) ∧
    ((sampleLoad tableSpillCopied 0x2000).env.mem
        (add32 (sampleLoad tableSpillCopied 0x2000).module.base_addr
          (phdr PT_LOAD 0 0 0x20 0x10 4).p_vaddr + 0x10) = 65 ∧
      (sampleImage tableSpillCopied).bytes
        ((phdr PT_LOAD 0 0 0x20 0x10 4).p_offset + 0x10) = 17) ∧
    ((sampleLoad tableWrapCopied 0x2000).ret = 0 ∧
      (∀ q ∈ tableWrapCopied, q.p_type = PT_LOAD → q.p_filesz ≤ q.p_memsz) ∧
      (∀ q ∈ tableWrapCopied, q.p_type = PT_LOAD → ∀ q' ∈ tableWrapCopied,
        q'.p_type = PT_LOAD → q ≠ q' →
        q.p_vaddr + q.p_memsz ≤ q'.p_vaddr ∨ q'.p_vaddr + q'.p_memsz ≤ q.p_vaddr) ∧
      (sampleLoad tableWrapCopied 0x2000).env.mem
        (add32 (sampleLoad tableWrapCopied 0x2000).module.base_addr
          (phdr PT_LOAD 0 0 0x10 0x10 4).p_vaddr + 0) = 81 ∧
      (sampleImage tableWrapCopied).bytes
        ((phdr PT_LOAD 0 0 0x10 0x10 4).p_offset + 0) = 1) := by
  refine ⟨⟨by decide, by decide, fun h => ?_⟩, by decide, by decide⟩
  exact absurd (h (phdr PT_LOAD 0 0 0x20 0x10 4) (by decide) (by decide) 0x10 (by decide))
    (by decide)

/-- C6 (amended): whenever `load_segments` succeeds on `PT_LOAD` segments with
`p_filesz ≤ p_memsz` whose mapped ranges `[p_vaddr, p_vaddr + p_memsz)` lie in
the 32-bit address space (`p_vaddr + p_memsz ≤ 2^32`) and do not overlap, for
every `PT_LOAD` segment and every `k < p_filesz` the byte at `base_addr +
p_vaddr + k` equals the image byte at `p_offset + k`; and the copies made are,
in table order, one `memcpy` of exactly `p_filesz` bytes from `p_offset` to
`base_addr + p_vaddr` for each `PT_LOAD` segment. -/
theorem load_segments_copies_file_bytes (posix_memalign : Nat → Nat → Option Nat)
    (image : ElfImage) (module : elf_module) (env : Env)
    (hok : (load_segments posix_memalign image module env).ret = 0)
    (hfs : ∀ ph ∈ image.pht, ph.p_type = PT_LOAD → ph.p_filesz ≤ ph.p_memsz)
    (hnowrap : ∀ ph ∈ image.pht, ph.p_type = PT_LOAD →
      ph.p_vaddr + ph.p_memsz ≤ 4294967296)
    (hdisj : ∀ q ∈ image.pht, q.p_type = PT_LOAD → ∀ q' ∈ image.pht, q'.p_type = PT_LOAD →
      q ≠ q' → q.p_vaddr + q.p_memsz ≤ q'.p_vaddr ∨ q'.p_vaddr + q'.p_memsz ≤ q.p_vaddr) :
    (∀ ph ∈ image.pht, ph.p_type = PT_LOAD → ∀ k, k < ph.p_filesz →
      (load_segments posix_memalign image module env).env.mem
        (add32 (load_segments posix_memalign image module env).module.base_addr
          ph.p_vaddr + k) = image.bytes (ph.p_offset + k)) ∧
    memcpys (load_segments posix_memalign image module env).env.trace =
      memcpys env.trace ++
        (image.pht.filter (fun q => decide (q.p_type = PT_LOAD))).map
          (fun q =>
            (add32 (load_segments posix_memalign image module env).module.base_addr
              q.p_vaddr, q.p_offset, q.p_filesz)) := by
  obtain ⟨h0, p, hp⟩ := load_segments_ret_zero _ _ _ _ hok
  obtain ⟨_, hmod, hmem, htr⟩ := load_segments_granted _ _ module env p h0 hp
  have hb : (load_segments posix_memalign image module env).module.base_addr =
      sub32 (p % 4294967296) (min_alloc (extent image.pht)) := by rw [hmod]
  rw [hmem, htr, hb]
  constructor
  · intro ph hm hl k hk
    apply copy_segments_mem
    · intro q hqm hql hc
      by_cases hqe : q = ph
      · subst hqe
        rw [Nat.add_sub_cancel_left]
      · exfalso
        have f1 := hfs q hqm hql
        have f2 := hfs ph hm hl
        have w1 := hnowrap q hqm hql
        have w2 := hnowrap ph hm hl
        have hb32 : sub32 (p % 4294967296) (min_alloc (extent image.pht)) < 4294967296 :=
          Nat.mod_lt _ (by decide)
        unfold in_copy_range at hc
        generalize sub32 (p % 4294967296) (min_alloc (extent image.pht)) = b at hc hb32
        unfold add32 at hc
        rcases hdisj q hqm hql ph hm hl hqe with hd | hd <;> omega
    · left
      refine ⟨ph, hm, hl, ?_⟩
      unfold in_copy_range
      omega
  · rw [memcpys_append, copy_segments_memcpys]
    simp [memcpys_append, memcpys]

/-- C6 (amended), witness: the two disjoint sample segments, loaded at
`0x100000`; the byte of the sample image at offset `n` is `n % 251 + 1`, and
byte `k = 3` of the segment at `0x2000` comes from offset `0x13`. -/
theorem load_segments_copies_file_bytes_witness :
    (sampleLoad tableTwoSegments 0x2000).env.mem
      (add32 (sampleLoad tableTwoSegments 0x2000).module.base_addr
        (phdr PT_LOAD 0x10 0x2000 0x20 0x40 4).p_vaddr + 3) =
      (sampleImage tableTwoSegments).bytes
        ((phdr PT_LOAD 0x10 0x2000 0x20 0x40 4).p_offset + 3) ∧
    memcpys (sampleLoad tableTwoSegments 0x2000).env.trace =
      [(0x100000, 0, 0x10), (0x101000, 0x10, 0x20)] :=
  have h := load_segments_copies_file_bytes (allocAt 0x100000)
    (sampleImage tableTwoSegments) (sampleModule 0x2000) dirtyEnv (by decide)
    (by decide) (by decide) (by decide)
  ⟨h.1 (phdr PT_LOAD 0x10 0x2000 0x20 0x40 4) (by decide) (by decide) 3 (by decide), h.2⟩

/-- C7 (as stated, refuted): a single loadable segment with `p_filesz = 0x100`
and `p_memsz = 4` is given a block of 4 bytes, and `load_segments` copies
0x100 bytes into it: the destination of offset `k = 4` is `module_addr +
module_size`, and the byte there, outside the allocation, is overwritten.
Copies also leave the allocation, with `p_filesz ≤ p_memsz`, when `p_vaddr +
p_memsz` wraps past `2^32` and when `max_alloc` wraps to 0. -/
theorem load_segments_copy_outside_allocation :
    ((sampleLoad tableFileLarger 0x2000).ret = 0 ∧
      ¬ ∀ ph ∈ tableFileLarger, ph.p_type = PT_LOAD → ∀ k, k < ph.p_filesz →
        (sampleLoad tableFileLarger 0x2000).module.module_addr ≤
          add32 (sampleLoad tableFileLarger 0x2000).module.base_addr ph.p_vaddr + k ∧
        add32 (sampleLoad tableFileLarger 0x2000).module.base_addr ph.p_vaddr + k <
          (sampleLoad tableFileLarger 0x2000).module.module_addr +
          (sampleLoad tableFileLarger 0x2000).module.module_size) ∧
    ((sampleLoad tableFileLarger 0x2000).module.module_addr = 0x100000 ∧
      (sampleLoad tableFileLarger 0x2000).module.module_size = 4 ∧
      memcpys (sampleLoad tableFileLarger 0x2000).env.trace = [(0x100000, 0, 0x100)] ∧
      dirtyEnv.mem 0x100004 = 0xAA ∧
      (sampleLoad tableFileLarger 0x2000).env.mem 0x100004 = 5) ∧
    ((sampleLoad tableWrapping 0x2000).ret = 0 ∧
      (sampleLoad tableWrapping 0x2000).module.module_addr = 0x100000 ∧
      (sampleLoad tableWrapping 0x2000).module.module_size = 0x1000 ∧
      memcpys (sampleLoad tableWrapping 0x2000).env.trace =
        [(0x100000, 0, 0x10), (0x102000, 0x10, 0x10)]) ∧
    ((sampleLoad tableRoundWrap 0x2000).ret = 0 ∧
      (sampleLoad tableRoundWrap 0x2000).module.module_addr = 0x100000 ∧
      (sampleLoad tableRoundWrap 0x2000).module.module_size = 0 ∧
      memcpys (sampleLoad tableRoundWrap 0x2000).env.trace = [(0x100000, 0, 0x10)]) := by
  refine ⟨⟨by decide, fun h => ?_⟩, by decide, by decide, by decide⟩
  exact absurd (h (phdr PT_LOAD 0 0 0x100 4 4) (by decide) (by decide) 4 (by decide)).2
    (by decide)

/-- C7 (amended): whenever `load_segments` succeeds with a block inside the
32-bit address space, on `PT_LOAD` segments with `p_filesz ≤ p_memsz` whose
footprint does not wrap (`p_vaddr + p_memsz < 2^32` for each, `max_addr +
max_align ≤ 2^32`), every destination address `base_addr + p_vaddr + k` with
`k < p_filesz` lies in `[module_addr, module_addr + module_size)`, and the
copies made are exactly those of the `PT_LOAD` segments. -/
theorem load_segments_copies_inside_allocation (posix_memalign : Nat → Nat → Option Nat)
    (image : ElfImage) (module : elf_module) (env : Env)
    (halloc : ∀ a s p, posix_memalign a s = some p → p + s ≤ 4294967296)
    (hnowrap : ∀ ph ∈ image.pht, ph.p_type = PT_LOAD →
      ph.p_vaddr + ph.p_memsz < 4294967296)
    (hfit : (extent image.pht).max_addr + (extent image.pht).max_align ≤ 4294967296)
    (hfs : ∀ ph ∈ image.pht, ph.p_type = PT_LOAD → ph.p_filesz ≤ ph.p_memsz)
    (hok : (load_segments posix_memalign image module env).ret = 0) :
    (∀ ph ∈ image.pht, ph.p_type = PT_LOAD → ∀ k, k < ph.p_filesz →
      (load_segments posix_memalign image module env).module.module_addr ≤
        add32 (load_segments posix_memalign image module env).module.base_addr
          ph.p_vaddr + k ∧
      add32 (load_segments posix_memalign image module env).module.base_addr
          ph.p_vaddr + k <
        (load_segments posix_memalign image module env).module.module_addr +
        (load_segments posix_memalign image module env).module.module_size) ∧
    memcpys (load_segments posix_memalign image module env).env.trace =
      memcpys env.trace ++
        (image.pht.filter (fun q => decide (q.p_type = PT_LOAD))).map
          (fun q =>
            (add32 (load_segments posix_memalign image module env).module.base_addr
              q.p_vaddr, q.p_offset, q.p_filesz)) := by
  obtain ⟨h0, p, hp⟩ := load_segments_ret_zero _ _ _ _ hok
  obtain ⟨_, hmod, _, htr⟩ := load_segments_granted _ _ module env p h0 hp
  rw [htr, hmod]
  constructor
  · intro ph hm hl k hk
    have hf := hfs ph hm hl
    obtain ⟨h1, h2, h3, h4⟩ := load_segments_layout image.pht p ph hm hl (by omega)
      (hnowrap ph hm hl) hfit (halloc _ _ _ hp)
    simp only [h1, h4]
    omega
  · rw [memcpys_append, copy_segments_memcpys]
    simp [memcpys_append, memcpys]

/-- C7 (amended), witness: the two disjoint sample segments, loaded at
`0x100000`; the last copied byte (`k = 0x1f`) of the segment at `0x2000`. -/
theorem load_segments_copies_inside_allocation_witness :
    ((sampleLoad tableTwoSegments 0x2000).module.module_addr ≤
        add32 (sampleLoad tableTwoSegments 0x2000).module.base_addr
          (phdr PT_LOAD 0x10 0x2000 0x20 0x40 4).p_vaddr + 0x1f ∧
      add32 (sampleLoad tableTwoSegments 0x2000).module.base_addr
          (phdr PT_LOAD 0x10 0x2000 0x20 0x40 4).p_vaddr + 0x1f <
        (sampleLoad tableTwoSegments 0x2000).module.module_addr +
        (sampleLoad tableTwoSegments 0x2000).module.module_size) ∧
    memcpys (sampleLoad tableTwoSegments 0x2000).env.trace =
      [(0x100000, 0, 0x10), (0x101000, 0x10, 0x20)] :=
  have h := load_segments_copies_inside_allocation (allocAt 0x100000)
    (sampleImage tableTwoSegments) (sampleModule 0x2000) dirtyEnv
    (allocAt_in_range 0x100000) (by decide) (by decide) (by decide) (by decide)
  ⟨h.1 (phdr PT_LOAD 0x10 0x2000 0x20 0x40 4) (by decide) (by decide) 0x1f (by decide), h.2⟩

/-! ## Theorems: reads of the file image -/

theorem dyn_step_file_size (e : Elf32_Dyn) (module : elf_module) (n : Nat) :
    dyn_step e { module with _file_size := n } =
      { dyn_step e module with _file_size := n } := by
  unfold dyn_step
  split_ifs <;> rfl

theorem dyn_walk_file_size (fuel : Nat) (image : ElfImage) (off : Nat) (module : elf_module)
    (n : Nat) :
    dyn_walk fuel image off { module with _file_size := n } =
      (dyn_walk fuel image off module).map (fun m => { m with _file_size := n }) := by
  induction fuel generalizing off module with
  | zero => rfl
  | succ fuel ih =>
    unfold dyn_walk
    split_ifs
    · rfl
    · rw [dyn_step_file_size, ih]

theorem load_segments_file_size (posix_memalign : Nat → Nat → Option Nat)
    (image : ElfImage) (module : elf_module) (env : Env) (n : Nat) :
    (load_segments posix_memalign image { module with _file_size := n } env).ret =
      (load_segments posix_memalign image module env).ret ∧
    (load_segments posix_memalign image { module with _file_size := n } env).module =
      { (load_segments posix_memalign image module env).module with _file_size := n } ∧
    (load_segments posix_memalign image { module with _file_size := n } env).env.mem =
      (load_segments posix_memalign image module env).env.mem ∧
    (load_segments posix_memalign image { module with _file_size := n } env).env.trace =
      (load_segments posix_memalign image module env).env.trace := by
  by_cases h0 : sub32 (extent image.pht).max_addr (extent image.pht).min_addr = 0
  · rw [load_segments_empty _ _ _ _ h0, load_segments_empty _ _ _ _ h0]
    exact ⟨rfl, rfl, rfl, rfl⟩
  · cases hp : posix_memalign (extent image.pht).max_align
      (sub32 (max_alloc (extent image.pht)) (min_alloc (extent image.pht))) with
    | none =>
      rw [load_segments_refused _ _ _ _ h0 hp, load_segments_refused _ _ _ _ h0 hp]
      exact ⟨rfl, rfl, rfl, rfl⟩
    | some p =>
      obtain ⟨a1, a2, a3, a4⟩ :=
        load_segments_granted _ _ { module with _file_size := n } env p h0 hp
      obtain ⟨b1, b2, b3, b4⟩ := load_segments_granted _ _ module env p h0 hp
      rw [a1, a2, a3, a4, b1, b2, b3, b4]
      exact ⟨rfl, rfl, rfl, rfl⟩

theorem prepare_dynlinking_file_size (fuel : Nat) (image : ElfImage)
    (dyn_ph0 : Option Elf32_Phdr) (module : elf_module) (env : Env) (n : Nat) :
    (prepare_dynlinking fuel image dyn_ph0 { module with _file_size := n } env).map
        (fun r => (r.ret, r.module, r.env.trace)) =
      (prepare_dynlinking fuel image dyn_ph0 module env).map
        (fun r => (r.ret, { r.module with _file_size := n }, r.env.trace)) ∧
    (prepare_dynlinking fuel image dyn_ph0 { module with _file_size := n } env).map
        (fun r => r.env.mem) =
      (prepare_dynlinking fuel image dyn_ph0 module env).map (fun r => r.env.mem) := by
  unfold prepare_dynlinking
  cases find_dynamic image.pht dyn_ph0 with
  | none => exact ⟨rfl, rfl⟩
  | some dyn_ph =>
    simp only []
    have h := dyn_walk_file_size fuel image dyn_ph.p_offset
      { module with _dyn_info := dyn_ph.p_offset } n
    simp only [] at h
    rw [h]
    cases dyn_walk fuel image dyn_ph.p_offset { module with _dyn_info := dyn_ph.p_offset }
      <;> exact ⟨rfl, rfl⟩

/-- C8 (as stated, refuted): with an image buffer of 0x20 bytes, a `PT_LOAD`
entry whose file range is `[0x10, 0x50)` is not rejected: `load_segments`
returns 0 after a `memcpy` of 0x40 bytes from offset 0x10, and the mapped
memory holds the byte that lies at offset 0x40, past the end of the buffer.
Likewise `prepare_dynlinking` returns 0 on a `PT_DYNAMIC` entry whose array
starts at offset 0x40, and sets `hash_table` from the entry it reads there. -/
theorem loader_reads_past_image_end :
    (sampleModule 0x20)._file_size = 0x20 ∧
    (sampleLoad tablePastEnd 0x20).ret = 0 ∧
    memcpys (sampleLoad tablePastEnd 0x20).env.trace = [(0x100000, 0x10, 0x40)] ∧
    (sampleModule 0x20)._file_size < 0x10 + 0x40 ∧
    (sampleLoad tablePastEnd 0x20).env.mem (0x100000 + 0x30) =
      (sampleImage tablePastEnd).bytes 0x40 ∧
    (prepare_dynlinking 8 dynPastEndImage none
      { sampleModule 0x20 with base_addr := 0x100000 } dirtyEnv).map
      (fun r => (r.ret, r.module._dyn_info, r.module._file_size, r.module.hash_table)) =
      some (0, 0x40, 0x20, 0x100020) := by
  decide

/-- C8 (amended): the loader does not check its reads of the file image
against the image length: neither `load_segments` nor `prepare_dynlinking`
consults `_file_size`, so for every image their results are the same whatever
the length of the buffer is; in particular an image is never rejected because
a file range or the dynamic array extends past the end of the buffer. -/
theorem loader_ignores_file_size (posix_memalign : Nat → Nat → Option Nat)
    (image : ElfImage) (module : elf_module) (env : Env) (fuel : Nat)
    (dyn_ph0 : Option Elf32_Phdr) (n : Nat) :
    (load_segments posix_memalign image { module with _file_size := n } env).ret =
      (load_segments posix_memalign image module env).ret ∧
    (load_segments posix_memalign image { module with _file_size := n } env).module =
      { (load_segments posix_memalign image module env).module with _file_size := n } ∧
    (load_segments posix_memalign image { module with _file_size := n } env).env.mem =
      (load_segments posix_memalign image module env).env.mem ∧
    (load_segments posix_memalign image { module with _file_size := n } env).env.trace =
      (load_segments posix_memalign image module env).env.trace ∧
    (prepare_dynlinking fuel image dyn_ph0 { module with _file_size := n } env).map
        (fun r => (r.ret, r.module, r.env.trace)) =
      (prepare_dynlinking fuel image dyn_ph0 module env).map
        (fun r => (r.ret, { r.module with _file_size := n }, r.env.trace)) ∧
    (prepare_dynlinking fuel image dyn_ph0 { module with _file_size := n } env).map
        (fun r => r.env.mem) =
      (prepare_dynlinking fuel image dyn_ph0 module env).map (fun r => r.env.mem) :=
  ⟨(load_segments_file_size posix_memalign image module env n).1,
   (load_segments_file_size posix_memalign image module env n).2.1,
   (load_segments_file_size posix_memalign image module env n).2.2.1,
   (load_segments_file_size posix_memalign image module env n).2.2.2,
   (prepare_dynlinking_file_size fuel image dyn_ph0 module env n).1,
   (prepare_dynlinking_file_size fuel image dyn_ph0 module env n).2⟩

/-! ## Theorems: failures of `load_segments` -/

/-- C9: for every program-header table without a `PT_LOAD` entry,
`load_segments` returns -1, requests no allocation, writes no memory and
leaves the module (so `base_addr`, `module_size` and `module_addr`) as it
was. -/
theorem load_segments_no_loadable (posix_memalign : Nat → Nat → Option Nat)
    (image : ElfImage) (module : elf_module) (env : Env)
    (hnone : ∀ ph ∈ image.pht, ph.p_type ≠ PT_LOAD) :
    (load_segments posix_memalign image module env).ret = -1 ∧
    (load_segments posix_memalign image module env).module = module ∧
    requests (load_segments posix_memalign image module env).env.trace =
      requests env.trace ∧
    writes (load_segments posix_memalign image module env).env.trace = writes env.trace ∧
    (load_segments posix_memalign image module env).env.mem = env.mem ∧
    (load_segments posix_memalign image module env).env.trace =
      env.trace ++ [Event.stderr "No loadable segments found\n"] := by
  have he : extent image.pht = ⟨0, 0, sizeof_voidp⟩ :=
    scan_segments_no_load image.pht 0 _ hnone
  have h0 : sub32 (extent image.pht).max_addr (extent image.pht).min_addr = 0 := by
    rw [he]
    rfl
  rw [load_segments_empty _ _ _ _ h0]
  simp [requests_append, writes_append, requests, writes]

/-- C9, witness: the sample table `[PT_PHDR, PT_DYNAMIC]`. -/
theorem load_segments_no_loadable_witness :
    (sampleLoad tableNoLoad 0x2000).ret = -1 ∧
    (sampleLoad tableNoLoad 0x2000).module = sampleModule 0x2000 ∧
    requests (sampleLoad tableNoLoad 0x2000).env.trace = requests dirtyEnv.trace ∧
    writes (sampleLoad tableNoLoad 0x2000).env.trace = writes dirtyEnv.trace ∧
    (sampleLoad tableNoLoad 0x2000).env.mem = dirtyEnv.mem ∧
    (sampleLoad tableNoLoad 0x2000).env.trace =
      dirtyEnv.trace ++ [Event.stderr "No loadable segments found\n"] :=
  load_segments_no_loadable (allocAt 0x100000) (sampleImage tableNoLoad)
    (sampleModule 0x2000) dirtyEnv (by decide)

/-- C10: when the allocator refuses the request, `load_segments` returns -1,
has written nothing to memory (no `memset`, no `memcpy`, memory unchanged) and
leaves `base_addr` and `module_size` as they were; whenever a request is made,
the refused request is the only thing it did besides the diagnostic, so the
allocation is attempted before any zeroing or copying. -/
theorem load_segments_allocation_refused (posix_memalign : Nat → Nat → Option Nat)
    (image : ElfImage) (module : elf_module) (env : Env)
    (hrefuse : posix_memalign (extent image.pht).max_align
      (sub32 (max_alloc (extent image.pht)) (min_alloc (extent image.pht))) = none) :
    (load_segments posix_memalign image module env).ret = -1 ∧
    (load_segments posix_memalign image module env).module.base_addr = module.base_addr ∧
    (load_segments posix_memalign image module env).module.module_size =
      module.module_size ∧
    (load_segments posix_memalign image module env).env.mem = env.mem ∧
    writes (load_segments posix_memalign image module env).env.trace = writes env.trace ∧
    (sub32 (extent image.pht).max_addr (extent image.pht).min_addr ≠ 0 →
      (load_segments posix_memalign image module env).env.trace =
        env.trace ++
          [Event.posix_memalign (extent image.pht).max_align
             (sub32 (max_alloc (extent image.pht)) (min_alloc (extent image.pht))) none,
           Event.stderr "Could not allocate segments\n"]) := by
  by_cases h0 : sub32 (extent image.pht).max_addr (extent image.pht).min_addr = 0
  · rw [load_segments_empty _ _ _ _ h0]
    simp [writes_append, writes, h0]
  · rw [load_segments_refused _ _ _ _ h0 hrefuse]
    simp [writes_append, writes]

/-- C10, witness: the single sample segment with an allocator that refuses
every request; the trace shows the one refused request of 0x100 bytes. -/
theorem load_segments_allocation_refused_witness :
    allocNone 4 0x100 = none ∧
    (load_segments allocNone (sampleImage tableOne) (sampleModule 0x2000) dirtyEnv).env.trace =
      [Event.posix_memalign 4 0x100 none, Event.stderr "Could not allocate segments\n"] ∧
    (load_segments allocNone (sampleImage tableOne) (sampleModule 0x2000) dirtyEnv).ret = -1 ∧
    (load_segments allocNone (sampleImage tableOne) (sampleModule 0x2000)
      dirtyEnv).module.base_addr = (sampleModule 0x2000).base_addr ∧
    (load_segments allocNone (sampleImage tableOne) (sampleModule 0x2000)
      dirtyEnv).module.module_size = (sampleModule 0x2000).module_size ∧
    (load_segments allocNone (sampleImage tableOne) (sampleModule 0x2000) dirtyEnv).env.mem =
      dirtyEnv.mem ∧
    writes (load_segments allocNone (sampleImage tableOne) (sampleModule 0x2000)
      dirtyEnv).env.trace = writes dirtyEnv.trace :=
  ⟨rfl,
   (load_segments_allocation_refused allocNone (sampleImage tableOne) (sampleModule 0x2000)
      dirtyEnv rfl).2.2.2.2.2 (by decide),
   (load_segments_allocation_refused allocNone (sampleImage tableOne) (sampleModule 0x2000)
      dirtyEnv rfl).1,
   (load_segments_allocation_refused allocNone (sampleImage tableOne) (sampleModule 0x2000)
      dirtyEnv rfl).2.1,
   (load_segments_allocation_refused allocNone (sampleImage tableOne) (sampleModule 0x2000)
      dirtyEnv rfl).2.2.1,
   (load_segments_allocation_refused allocNone (sampleImage tableOne) (sampleModule 0x2000)
      dirtyEnv rfl).2.2.2.1,
   (load_segments_allocation_refused allocNone (sampleImage tableOne) (sampleModule 0x2000)
      dirtyEnv rfl).2.2.2.2.1⟩

/-! ## Lemmas: the walk over the dynamic entries -/

theorem dyn_walk_eq_foldl (fuel : Nat) (image : ElfImage) (off : Nat) (module : elf_module) :
    dyn_walk fuel image off module =
      (dyn_entries fuel image off).map
        (fun es => es.foldl (fun m e => dyn_step e m) module) := by
  induction fuel generalizing off module with
  | zero => rfl
  | succ fuel ih =>
    unfold dyn_walk dyn_entries
    split_ifs
    · rfl
    · rw [ih]
      cases dyn_entries fuel image (off + 8) <;> rfl

theorem resolved_cons (tag : Nat) (value : Elf32_Dyn → Nat) (old : Nat) (e : Elf32_Dyn)
    (es : List Elf32_Dyn) :
    resolved tag value old (e :: es) =
      resolved tag value (if e.d_tag = tag then value e else old) es := by
  unfold resolved
  simp only [last_entry]
  cases last_entry tag es with
  | some e' => rfl
  | none => split_ifs <;> rfl

theorem dyn_step_frame (e : Elf32_Dyn) (m : elf_module) :
    (dyn_step e m).name = m.name ∧ (dyn_step e m).base_addr = m.base_addr ∧
    (dyn_step e m).module_size = m.module_size ∧
    (dyn_step e m).module_addr = m.module_addr ∧
    (dyn_step e m)._file_image = m._file_image ∧
    (dyn_step e m)._file_size = m._file_size ∧ (dyn_step e m)._file_fd = m._file_fd ∧
    (dyn_step e m)._dyn_info = m._dyn_info ∧ (dyn_step e m).list = m.list ∧
    (dyn_step e m).deps = m.deps := by
  unfold dyn_step
  split_ifs <;> exact ⟨rfl, rfl, rfl, rfl, rfl, rfl, rfl, rfl, rfl, rfl⟩

theorem dyn_step_fields (e : Elf32_Dyn) (m : elf_module) :
    (dyn_step e m).hash_table =
      (if e.d_tag = DT_HASH then add32 e.d_un m.base_addr else m.hash_table) ∧
    (dyn_step e m).ghash_table =
      (if e.d_tag = DT_GNU_HASH then add32 e.d_un m.base_addr else m.ghash_table) ∧
    (dyn_step e m).str_table =
      (if e.d_tag = DT_STRTAB then add32 e.d_un m.base_addr else m.str_table) ∧
    (dyn_step e m).sym_table =
      (if e.d_tag = DT_SYMTAB then add32 e.d_un m.base_addr else m.sym_table) ∧
    (dyn_step e m).strtable_size =
      (if e.d_tag = DT_STRSZ then e.d_un else m.strtable_size) ∧
    (dyn_step e m).syment_size =
      (if e.d_tag = DT_SYMENT then e.d_un else m.syment_size) := by
  unfold dyn_step
  simp only [DT_NEEDED, DT_HASH, DT_GNU_HASH, DT_STRTAB, DT_SYMTAB, DT_STRSZ, DT_SYMENT]
  split_ifs <;> simp_all

theorem dyn_foldl_frame (es : List Elf32_Dyn) (m : elf_module) :
    (es.foldl (fun m e => dyn_step e m) m).name = m.name ∧
    (es.foldl (fun m e => dyn_step e m) m).base_addr = m.base_addr ∧
    (es.foldl (fun m e => dyn_step e m) m).module_size = m.module_size ∧
    (es.foldl (fun m e => dyn_step e m) m).module_addr = m.module_addr ∧
    (es.foldl (fun m e => dyn_step e m) m)._file_image = m._file_image ∧
    (es.foldl (fun m e => dyn_step e m) m)._file_size = m._file_size ∧
    (es.foldl (fun m e => dyn_step e m) m)._file_fd = m._file_fd ∧
    (es.foldl (fun m e => dyn_step e m) m)._dyn_info = m._dyn_info ∧
    (es.foldl (fun m e => dyn_step e m) m).list = m.list ∧
    (es.foldl (fun m e => dyn_step e m) m).deps = m.deps := by
  induction es generalizing m with
  | nil => exact ⟨rfl, rfl, rfl, rfl, rfl, rfl, rfl, rfl, rfl, rfl⟩
  | cons e es ih =>
    simp only [List.foldl_cons]
    obtain ⟨a1, a2, a3, a4, a5, a6, a7, a8, a9, a10⟩ := ih (dyn_step e m)
    obtain ⟨b1, b2, b3, b4, b5, b6, b7, b8, b9, b10⟩ := dyn_step_frame e m
    exact ⟨a1.trans b1, a2.trans b2, a3.trans b3, a4.trans b4, a5.trans b5, a6.trans b6,
      a7.trans b7, a8.trans b8, a9.trans b9, a10.trans b10⟩

theorem dyn_foldl_fields (es : List Elf32_Dyn) (m : elf_module) :
    (es.foldl (fun m e => dyn_step e m) m).hash_table =
      resolved DT_HASH (fun e => add32 e.d_un m.base_addr) m.hash_table es ∧
    (es.foldl (fun m e => dyn_step e m) m).ghash_table =
      resolved DT_GNU_HASH (fun e => add32 e.d_un m.base_addr) m.ghash_table es ∧
    (es.foldl (fun m e => dyn_step e m) m).str_table =
      resolved DT_STRTAB (fun e => add32 e.d_un m.base_addr) m.str_table es ∧
    (es.foldl (fun m e => dyn_step e m) m).sym_table =
      resolved DT_SYMTAB (fun e => add32 e.d_un m.base_addr) m.sym_table es ∧
    (es.foldl (fun m e => dyn_step e m) m).strtable_size =
      resolved DT_STRSZ (fun e => e.d_un) m.strtable_size es ∧
    (es.foldl (fun m e => dyn_step e m) m).syment_size =
      resolved DT_SYMENT (fun e => e.d_un) m.syment_size es := by
  induction es generalizing m with
  | nil => exact ⟨rfl, rfl, rfl, rfl, rfl, rfl⟩
  | cons e es ih =>
    simp only [List.foldl_cons, resolved_cons]
    obtain ⟨a1, a2, a3, a4, a5, a6⟩ := ih (dyn_step e m)
    obtain ⟨b1, b2, b3, b4, b5, b6⟩ := dyn_step_fields e m
    have hb := (dyn_step_frame e m).2.1
    rw [a1, a2, a3, a4, a5, a6, b1, b2, b3, b4, b5, b6, hb]
    exact ⟨rfl, rfl, rfl, rfl, rfl, rfl⟩

theorem dyn_step_unrecognized (e : Elf32_Dyn) (m : elf_module)
    (h : e.d_tag ∉ recognized_tags) : dyn_step e m = m := by
  simp only [recognized_tags, List.mem_cons, List.mem_singleton, List.not_mem_nil,
    not_or, or_false] at h
  obtain ⟨h1, h2, h3, h4, h5, h6⟩ := h
  unfold dyn_step
  simp only [if_neg h1, if_neg h2, if_neg h3, if_neg h4, if_neg h5, if_neg h6, ite_self]

theorem dyn_foldl_recognized (es : List Elf32_Dyn) (m : elf_module) :
    es.foldl (fun m e => dyn_step e m) m =
      (recognized es).foldl (fun m e => dyn_step e m) m := by
  induction es generalizing m with
  | nil => rfl
  | cons e es ih =>
    by_cases h : e.d_tag ∈ recognized_tags
    · simp only [recognized, List.filter_cons, h, decide_True, if_true, List.foldl_cons]
      exact ih _
    · simp only [recognized, List.filter_cons, h, decide_False, List.foldl_cons]
      rw [dyn_step_unrecognized e m h]
      exact ih _

theorem read32_agree (b1 b2 : Nat → Nat) (off : Nat)
    (h : ∀ k, k < 4 → b2 (off + k) = b1 (off + k)) : read32 b2 off = read32 b1 off := by
  unfold read32
  rw [show b2 off = b1 off from h 0 (by decide), h 1 (by decide), h 2 (by decide),
    h 3 (by decide)]

theorem dyn_at_agree (image1 image2 : ElfImage) (off : Nat)
    (h : ∀ k, k < 8 → image2.bytes (off + k) = image1.bytes (off + k)) :
    dyn_at image2 off = dyn_at image1 off := by
  unfold dyn_at
  rw [read32_agree image1.bytes image2.bytes off (fun k hk => h k (by omega)),
    read32_agree image1.bytes image2.bytes (off + 4)
      (fun k hk => by rw [Nat.add_assoc]; exact h (4 + k) (by omega))]

theorem dyn_entries_agree (fuel : Nat) (image1 image2 : ElfImage) (off : Nat)
    (es : List Elf32_Dyn) (h : dyn_entries fuel image1 off = some es)
    (hb : ∀ k, k < 8 * (es.length + 1) → image2.bytes (off + k) = image1.bytes (off + k)) :
    dyn_entries fuel image2 off = some es := by
  induction fuel generalizing off es with
  | zero => simp [dyn_entries] at h
  | succ fuel ih =>
    have hat : dyn_at image2 off = dyn_at image1 off :=
      dyn_at_agree image1 image2 off (fun k hk => hb k (by omega))
    unfold dyn_entries at h ⊢
    rw [hat]
    by_cases hn : (dyn_at image1 off).d_tag = DT_NULL
    · rw [if_pos hn] at h ⊢
      exact h
    · rw [if_neg hn] at h ⊢
      cases hrest : dyn_entries fuel image1 (off + 8) with
      | none => rw [hrest] at h; simp at h
      | some es' =>
        rw [hrest] at h
        simp only [Option.map_some', Option.some.injEq] at h
        subst h
        rw [ih (off + 8) es' hrest (fun k hk => by
          rw [Nat.add_assoc]
          exact hb (8 + k) (by simp only [List.length_cons]; omega))]
        rfl

theorem find_dynamic_absent (l : List Elf32_Phdr)
    (h : ∀ ph ∈ l, ph.p_type ≠ PT_DYNAMIC) : find_dynamic l none = none := by
  induction l with
  | nil => rfl
  | cons q rest ih =>
    simp only [find_dynamic, if_neg (h q (List.mem_cons_self _ _))]
    exact ih (fun ph hp => h ph (List.mem_cons_of_mem _ hp))

theorem find_dynamic_none (l : List Elf32_Phdr) (d0 : Option Elf32_Phdr) (hne : l ≠ [])
    (h : ∀ ph ∈ l, ph.p_type ≠ PT_DYNAMIC) : find_dynamic l d0 = none := by
  cases l with
  | nil => exact absurd rfl hne
  | cons q rest =>
    simp only [find_dynamic, if_neg (h q (List.mem_cons_self _ _))]
    exact find_dynamic_absent rest (fun ph hp => h ph (List.mem_cons_of_mem _ hp))

theorem find_dynamic_first (pre : List Elf32_Phdr) (d : Elf32_Phdr) (post : List Elf32_Phdr)
    (d0 : Option Elf32_Phdr) (hpre : ∀ ph ∈ pre, ph.p_type ≠ PT_DYNAMIC)
    (hd : d.p_type = PT_DYNAMIC) : find_dynamic (pre ++ d :: post) d0 = some d := by
  induction pre generalizing d0 with
  | nil => simp only [List.nil_append, find_dynamic, if_pos hd]
  | cons q rest ih =>
    simp only [List.cons_append, find_dynamic, if_neg (hpre q (List.mem_cons_self _ _))]
    exact ih none (fun ph hp => hpre ph (List.mem_cons_of_mem _ hp))

theorem prepare_dynlinking_reject (fuel : Nat) (image : ElfImage)
    (dyn_ph0 : Option Elf32_Phdr) (module : elf_module) (env : Env)
    (h : find_dynamic image.pht dyn_ph0 = none) :
    prepare_dynlinking fuel image dyn_ph0 module env =
      some { ret := -1, module := module,
             env := { env with trace := env.trace ++
               [Event.stderr "Dynamic relocation information not found\n"] } } := by
  unfold prepare_dynlinking
  rw [h]

theorem prepare_dynlinking_walk (fuel : Nat) (image : ElfImage)
    (dyn_ph0 : Option Elf32_Phdr) (module : elf_module) (env : Env) (d : Elf32_Phdr)
    (h : find_dynamic image.pht dyn_ph0 = some d) :
    prepare_dynlinking fuel image dyn_ph0 module env =
      (dyn_entries fuel image d.p_offset).map (fun es =>
        { ret := 0,
          module := es.foldl (fun m e => dyn_step e m) { module with _dyn_info := d.p_offset },
          env := env }) := by
  unfold prepare_dynlinking
  rw [h]
  simp only []
  rw [dyn_walk_eq_foldl]
  cases dyn_entries fuel image d.p_offset <;> rfl

/-! ## Theorems: `prepare_dynlinking` -/

/-- C11: `prepare_dynlinking` is called once, by `module_load`, on the module
on which `load_segments` has just succeeded (so the table has an entry and the
search loop assigns the local `dyn_ph`, whatever it held before).  For every
such image whose program-header table has no entry of type `PT_DYNAMIC`,
`prepare_dynlinking` returns -1 and leaves the module as it was (none of
`hash_table`, `ghash_table`, `str_table`, `sym_table`, `strtable_size`,
`syment_size` is set); when a `PT_DYNAMIC` entry exists, the first one in table
order is the one used: the walk starts at its `p_offset`, which is recorded in
`_dyn_info`. -/
theorem prepare_dynlinking_locates_dynamic (fuel : Nat)
    (posix_memalign : Nat → Nat → Option Nat) (image : ElfImage)
    (dyn_ph0 : Option Elf32_Phdr) (module : elf_module) (env : Env)
    (hseg : (load_segments posix_memalign image module env).ret = 0) :
    ((∀ ph ∈ image.pht, ph.p_type ≠ PT_DYNAMIC) →
      prepare_dynlinking fuel image dyn_ph0
          (load_segments posix_memalign image module env).module
          (load_segments posix_memalign image module env).env =
        some { ret := -1, module := (load_segments posix_memalign image module env).module,
               env := { (load_segments posix_memalign image module env).env with
                 trace := (load_segments posix_memalign image module env).env.trace ++
                   [Event.stderr "Dynamic relocation information not found\n"] } }) ∧
    (∀ pre d post, image.pht = pre ++ d :: post →
      (∀ ph ∈ pre, ph.p_type ≠ PT_DYNAMIC) → d.p_type = PT_DYNAMIC →
      prepare_dynlinking fuel image dyn_ph0
          (load_segments posix_memalign image module env).module
          (load_segments posix_memalign image module env).env =
        (dyn_walk fuel image d.p_offset
          { (load_segments posix_memalign image module env).module with
            _dyn_info := d.p_offset }).map
          (fun m => { ret := 0, module := m,
                      env := (load_segments posix_memalign image module env).env }) ∧
      ∀ r, prepare_dynlinking fuel image dyn_ph0
          (load_segments posix_memalign image module env).module
          (load_segments posix_memalign image module env).env = some r →
        r.ret = 0 ∧ r.module._dyn_info = d.p_offset) := by
  have hne := load_segments_ret_zero_nonempty posix_memalign image module env hseg
  generalize (load_segments posix_memalign image module env).module = m1
  generalize (load_segments posix_memalign image module env).env = e1
  constructor
  · intro hno
    exact prepare_dynlinking_reject fuel image dyn_ph0 m1 e1
      (find_dynamic_none image.pht dyn_ph0 hne hno)
  · intro pre d post hpht hpre hd
    have hf : find_dynamic image.pht dyn_ph0 = some d := by
      rw [hpht]
      exact find_dynamic_first pre d post dyn_ph0 hpre hd
    constructor
    · unfold prepare_dynlinking
      rw [hf]
    · intro r hr
      rw [prepare_dynlinking_walk fuel image dyn_ph0 m1 e1 d hf] at hr
      cases hes : dyn_entries fuel image d.p_offset with
      | none => rw [hes] at hr; simp at hr
      | some es =>
        rw [hes] at hr
        simp only [Option.map_some', Option.some.injEq] at hr
        subst hr
        exact ⟨rfl, (dyn_foldl_frame es _).2.2.2.2.2.2.2.1⟩

/-- C11, witness: `load_segments` succeeds on the table `[PT_PHDR, PT_LOAD]`,
and `prepare_dynlinking` then rejects it and sets none of the six fields, also
when the local `dyn_ph` held the address of a `PT_DYNAMIC` header before the
loop; of the two `PT_DYNAMIC` entries of the other table the one at offset
0x40 is used. -/
theorem prepare_dynlinking_locates_dynamic_witness :
    (load_segments (allocAt 0x100000) (dynImage tableLoadSecond dynArrayFull)
      (sampleModule 0x2000) dirtyEnv).ret = 0 ∧
    (prepare_dynlinking 16 (dynImage tableLoadSecond dynArrayFull)
        (some (phdr PT_DYNAMIC 0x40 0x40 0x40 0x40 4))
        (load_segments (allocAt 0x100000) (dynImage tableLoadSecond dynArrayFull)
          (sampleModule 0x2000) dirtyEnv).module
        (load_segments (allocAt 0x100000) (dynImage tableLoadSecond dynArrayFull)
          (sampleModule 0x2000) dirtyEnv).env).map
      (fun r => (r.ret, r.module.hash_table, r.module.ghash_table, r.module.str_table,
        r.module.sym_table, r.module.strtable_size, r.module.syment_size)) =
      some (-1, 0, 0, 0, 0, 0, 0) ∧
    (prepare_dynlinking 16 (dynImage tableTwoDynamic dynArrayFull) none
        (load_segments (allocAt 0x100000) (dynImage tableTwoDynamic dynArrayFull)
          (sampleModule 0x2000) dirtyEnv).module
        (load_segments (allocAt 0x100000) (dynImage tableTwoDynamic dynArrayFull)
          (sampleModule 0x2000) dirtyEnv).env).map
      (fun r => (r.ret, r.module._dyn_info)) = some (0, 0x40) :=
  ⟨by decide,
   by
    rw [(prepare_dynlinking_locates_dynamic 16 (allocAt 0x100000)
      (dynImage tableLoadSecond dynArrayFull) (some (phdr PT_DYNAMIC 0x40 0x40 0x40 0x40 4))
      (sampleModule 0x2000) dirtyEnv (by decide)).1 (by decide)]
    rfl,
   by
    rw [((prepare_dynlinking_locates_dynamic 16 (allocAt 0x100000)
      (dynImage tableTwoDynamic dynArrayFull) none (sampleModule 0x2000) dirtyEnv
      (by decide)).2 [phdr PT_LOAD 0 0 0x10 0x100 4]
      (phdr PT_DYNAMIC 0x40 0x40 0x40 0x40 4) [phdr PT_DYNAMIC 0x48 0x48 0x38 0x38 4]
      rfl (by decide) rfl).1]
    decide⟩

/-- C12: when the image has a `PT_DYNAMIC` entry whose array holds the entries
`es` before its first `DT_NULL`, `prepare_dynlinking` returns 0 and, for each
of `DT_HASH`, `DT_GNU_HASH`, `DT_STRTAB`, `DT_SYMTAB` that occurs in `es`, the
field `hash_table`, `ghash_table`, `str_table`, `sym_table` is `base_addr +
d_ptr` of the last such entry modulo `2^32`; for `DT_STRSZ` and `DT_SYMENT`
the fields `strtable_size` and `syment_size` are that entry's `d_val`, with
no `base_addr` added.  A field whose tag does not occur keeps its value, and
`base_addr` is not changed. -/
theorem prepare_dynlinking_fields (fuel : Nat) (image : ElfImage)
    (dyn_ph0 : Option Elf32_Phdr) (module : elf_module) (env : Env) (dyn_ph : Elf32_Phdr)
    (es : List Elf32_Dyn)
    (hd : find_dynamic image.pht dyn_ph0 = some dyn_ph)
    (hes : dyn_entries fuel image dyn_ph.p_offset = some es) :
    ∃ r, prepare_dynlinking fuel image dyn_ph0 module env = some r ∧ r.ret = 0 ∧
      r.module.base_addr = module.base_addr ∧
      (∀ e, last_entry DT_HASH es = some e →
        r.module.hash_table = (module.base_addr + e.d_un) % 4294967296) ∧
      (∀ e, last_entry DT_GNU_HASH es = some e →
        r.module.ghash_table = (module.base_addr + e.d_un) % 4294967296) ∧
      (∀ e, last_entry DT_STRTAB es = some e →
        r.module.str_table = (module.base_addr + e.d_un) % 4294967296) ∧
      (∀ e, last_entry DT_SYMTAB es = some e →
        r.module.sym_table = (module.base_addr + e.d_un) % 4294967296) ∧
      (∀ e, last_entry DT_STRSZ es = some e → r.module.strtable_size = e.d_un) ∧
      (∀ e, last_entry DT_SYMENT es = some e → r.module.syment_size = e.d_un) ∧
      (last_entry DT_HASH es = none → r.module.hash_table = module.hash_table) ∧
      (last_entry DT_GNU_HASH es = none → r.module.ghash_table = module.ghash_table) ∧
      (last_entry DT_STRTAB es = none → r.module.str_table = module.str_table) ∧
      (last_entry DT_SYMTAB es = none → r.module.sym_table = module.sym_table) ∧
      (last_entry DT_STRSZ es = none → r.module.strtable_size = module.strtable_size) ∧
      (last_entry DT_SYMENT es = none → r.module.syment_size = module.syment_size) := by
  rw [prepare_dynlinking_walk fuel image dyn_ph0 module env dyn_ph hd, hes]
  refine ⟨_, rfl, rfl, ?_⟩
  obtain ⟨f1, f2, f3, f4, f5, f6⟩ :=
    dyn_foldl_fields es { module with _dyn_info := dyn_ph.p_offset }
  have hb := (dyn_foldl_frame es { module with _dyn_info := dyn_ph.p_offset }).2.1
  simp only [] at hb f1 f2 f3 f4 f5 f6 ⊢
  rw [f1, f2, f3, f4, f5, f6, hb]
  unfold resolved add32
  refine ⟨rfl, ?_, ?_, ?_, ?_, ?_, ?_, ?_, ?_, ?_, ?_, ?_, ?_⟩
  · intro e h
    simp only [h, Nat.add_comm]
  · intro e h
    simp only [h, Nat.add_comm]
  · intro e h
    simp only [h, Nat.add_comm]
  · intro e h
    simp only [h, Nat.add_comm]
  · intro e h
    simp only [h]
  · intro e h
    simp only [h]
  · intro h
    simp only [h]
  · intro h
    simp only [h]
  · intro h
    simp only [h]
  · intro h
    simp only [h]
  · intro h
    simp only [h]
  · intro h
    simp only [h]

/-- C12, witness: the sample array in which `DT_HASH` occurs twice; the second
occurrence, `0x28`, is the one recorded. -/
theorem prepare_dynlinking_fields_witness :
    (prepare_dynlinking 16 (dynImage tableDynamic dynArrayFull) none mappedModule
      dirtyEnv).map (fun r => (r.ret, r.module.hash_table, r.module.str_table,
        r.module.sym_table, r.module.strtable_size, r.module.syment_size)) =
      some (0, 0x100028, 0x100030, 0x100040, 0x10, 0x10) := by
  obtain ⟨r, hr, h0, _, hh, _, hs, hy, hz, he, _⟩ :=
    prepare_dynlinking_fields 16 (dynImage tableDynamic dynArrayFull) none mappedModule
      dirtyEnv (phdr PT_DYNAMIC 0x40 0x40 0x40 0x40 4)
      [⟨4, 0x20⟩, ⟨5, 0x30⟩, ⟨4, 0x28⟩, ⟨6, 0x40⟩, ⟨10, 0x10⟩, ⟨11, 0x10⟩]
      (by decide) (by decide)
  rw [hr]
  simp only [Option.map_some', h0, hh ⟨4, 0x28⟩ (by decide), hs ⟨5, 0x30⟩ (by decide),
    hy ⟨6, 0x40⟩ (by decide), hz ⟨10, 0x10⟩ (by decide), he ⟨11, 0x10⟩ (by decide)]
  decide

/-- C13: the walk stops at the first `DT_NULL` entry and ignores the tags it
does not record.  Two dynamic arrays, at the same offset of two images, whose
entries before the first `DT_NULL` agree once the entries with other tags
(`DT_NEEDED` included) are left out, give the same result of
`prepare_dynlinking`: it returns 0, the module is the one obtained from the
recorded-tag entries alone, and the lists `deps` and `list` are as before.  An
image that agrees with the first one up to and including the terminator gives
the same result whatever follows the terminator. -/
theorem prepare_dynlinking_ignores_other_entries (fuel1 fuel2 : Nat)
    (image1 image2 : ElfImage) (dyn_ph1 dyn_ph2 : Option Elf32_Phdr) (module : elf_module)
    (env : Env) (d1 d2 : Elf32_Phdr) (es1 es2 : List Elf32_Dyn)
    (hd1 : find_dynamic image1.pht dyn_ph1 = some d1)
    (hd2 : find_dynamic image2.pht dyn_ph2 = some d2)
    (hoff : d1.p_offset = d2.p_offset)
    (hes1 : dyn_entries fuel1 image1 d1.p_offset = some es1)
    (hes2 : dyn_entries fuel2 image2 d2.p_offset = some es2)
    (hrec : recognized es1 = recognized es2) :
    prepare_dynlinking fuel1 image1 dyn_ph1 module env =
      prepare_dynlinking fuel2 image2 dyn_ph2 module env ∧
    (∃ r, prepare_dynlinking fuel1 image1 dyn_ph1 module env = some r ∧ r.ret = 0 ∧
      r.module = (recognized es1).foldl (fun m e => dyn_step e m)
        { module with _dyn_info := d1.p_offset } ∧
      r.module.deps = module.deps ∧ r.module.list = module.list ∧
      r.env.mem = env.mem ∧ r.env.trace = env.trace) ∧
    (∀ image3 : ElfImage, image3.pht = image1.pht →
      (∀ k, k < 8 * (es1.length + 1) →
        image3.bytes (d1.p_offset + k) = image1.bytes (d1.p_offset + k)) →
      prepare_dynlinking fuel1 image3 dyn_ph1 module env =
        prepare_dynlinking fuel1 image1 dyn_ph1 module env) := by
  have e1 := prepare_dynlinking_walk fuel1 image1 dyn_ph1 module env d1 hd1
  have e2 := prepare_dynlinking_walk fuel2 image2 dyn_ph2 module env d2 hd2
  rw [hes1, Option.map_some'] at e1
  rw [hes2, Option.map_some'] at e2
  refine ⟨?_, ⟨_, e1, rfl, ?_, ?_, ?_, rfl, rfl⟩, ?_⟩
  · rw [e1, e2, dyn_foldl_recognized es1, dyn_foldl_recognized es2, hrec, hoff]
  · exact dyn_foldl_recognized es1 _
  · exact (dyn_foldl_frame es1 _).2.2.2.2.2.2.2.2.2
  · exact (dyn_foldl_frame es1 _).2.2.2.2.2.2.2.2.1
  · intro image3 hpht hb
    have hd3 : find_dynamic image3.pht dyn_ph1 = some d1 := by rw [hpht]; exact hd1
    rw [e1, prepare_dynlinking_walk fuel1 image3 dyn_ph1 module env d1 hd3,
      dyn_entries_agree fuel1 image1 image3 d1.p_offset es1 hes1 hb, Option.map_some']

/-- C13, witness: the array `DT_HASH 0x20, DT_NEEDED, tag 21, DT_STRTAB 0x30,
DT_NULL, DT_HASH 0x99` gives the same result as `DT_HASH 0x20, DT_STRTAB 0x30,
DT_NULL`. -/
theorem prepare_dynlinking_ignores_other_entries_witness :
    prepare_dynlinking 16 (dynImage tableDynamic dynArrayNoisy) none mappedModule dirtyEnv =
      prepare_dynlinking 8 (dynImage tableDynamic dynArrayPlain) none mappedModule dirtyEnv ∧
    (prepare_dynlinking 8 (dynImage tableDynamic dynArrayPlain) none mappedModule
      dirtyEnv).map (fun r => (r.ret, r.module.hash_table, r.module.str_table,
        r.module.deps)) = some (0, 0x100020, 0x100030, []) :=
  ⟨(prepare_dynlinking_ignores_other_entries 16 8 (dynImage tableDynamic dynArrayNoisy)
      (dynImage tableDynamic dynArrayPlain) none none mappedModule dirtyEnv
      (phdr PT_DYNAMIC 0x40 0x40 0x40 0x40 4) (phdr PT_DYNAMIC 0x40 0x40 0x40 0x40 4)
      [⟨4, 0x20⟩, ⟨1, 1⟩, ⟨21, 7⟩, ⟨5, 0x30⟩] [⟨4, 0x20⟩, ⟨5, 0x30⟩]
      (by decide) (by decide) rfl (by decide) (by decide) (by decide)).1,
   by decide⟩

/-! ## Lemmas: `module_find_symbol` -/

theorem is_string_at_nil (mem : Nat → Nat) (s : Nat) :
    is_string_at mem s [] ↔ mem s % 256 = 0 := by
  unfold is_string_at
  simp

theorem is_string_at_cons (mem : Nat → Nat) (s c : Nat) (cs : List Nat) :
    is_string_at mem s (c :: cs) ↔ mem s % 256 = c ∧ is_string_at mem (s + 1) cs := by
  unfold is_string_at
  constructor
  · rintro ⟨h1, h2⟩
    refine ⟨by simpa using h1 0 (by simp), ?_, ?_⟩
    · intro i hi
      have := h1 (i + 1) (by simpa using hi)
      simpa [Nat.add_assoc, Nat.add_comm 1 i] using this
    · simpa [Nat.add_assoc, Nat.add_comm 1] using h2
  · rintro ⟨h0, h1, h2⟩
    refine ⟨?_, ?_⟩
    · intro i hi
      cases i with
      | zero => simpa using h0
      | succ i =>
        have := h1 i (by simpa using hi)
        simpa [Nat.add_assoc, Nat.add_comm 1 i] using this
    · simpa [Nat.add_assoc, Nat.add_comm 1] using h2

theorem strcmp_eq_zero_iff (mem : Nat → Nat) (name : List Nat) (s : Nat)
    (hname : ∀ c ∈ name, 0 < c ∧ c < 256) :
    strcmp mem name s = 0 ↔ is_string_at mem s name := by
  induction name generalizing s with
  | nil =>
    rw [is_string_at_nil]
    unfold strcmp
    omega
  | cons c cs ih =>
    rw [is_string_at_cons]
    unfold strcmp
    have hc := hname c (List.mem_cons_self _ _)
    by_cases h : c = mem s % 256
    · rw [if_pos h, ih (s + 1) (fun c' hc' => hname c' (List.mem_cons_of_mem _ hc'))]
      constructor
      · exact fun hs => ⟨h.symm, hs⟩
      · exact fun hs => hs.2
    · rw [if_neg h]
      constructor
      · intro hz
        omega
      · intro hs
        exact absurd hs.1.symm h

theorem chain_walk_find (mem : Nat → Nat) (name : List Nat) (module : elf_module)
    (chn : Nat) (hname : ∀ c ∈ name, 0 < c ∧ c < 256) (fuel : Nat) (i : Nat)
    (hsz : ∀ k, k < fuel →
      (fun j => read32 mem (chn + 4 * j))^[k] i * module.syment_size < 4294967296) :
    chain_walk mem name module chn fuel i =
      ((List.range fuel).find? (fun k =>
        decide ((fun j => read32 mem (chn + 4 * j))^[k] i = 0 ∨
          symbol_named mem module name ((fun j => read32 mem (chn + 4 * j))^[k] i)))).map
        (fun k =>
          if (fun j => read32 mem (chn + 4 * j))^[k] i = 0 then Lookup.not_found
          else Lookup.found
            (module.sym_table +
              (fun j => read32 mem (chn + 4 * j))^[k] i * module.syment_size)) := by
  induction fuel generalizing i with
  | zero => rfl
  | succ fuel ih =>
    have h0 : i * module.syment_size < 4294967296 := by
      simpa using hsz 0 (Nat.succ_pos _)
    have hmod : (i * module.syment_size) % 4294967296 = i * module.syment_size :=
      Nat.mod_eq_of_lt h0
    have hs : strcmp mem name
        (module.str_table + st_name mem (module.sym_table + i * module.syment_size)) = 0 ↔
        symbol_named mem module name i := strcmp_eq_zero_iff mem name _ hname
    rw [List.range_succ_eq_map]
    unfold chain_walk
    rw [hmod]
    by_cases hi : i = STN_UNDEF
    · have hi0 : i = 0 := hi
      rw [if_pos hi, List.find?_cons_of_pos _ (by simp [hi0])]
      simp [hi0]
    · have hi0 : ¬ i = 0 := hi
      rw [if_neg hi]
      by_cases hm : symbol_named mem module name i
      · rw [if_pos (hs.mpr hm), List.find?_cons_of_pos _ (by simp [hm])]
        simp [hi0]
      · rw [if_neg (fun h => hm (hs.mp h)), List.find?_cons_of_neg _ (by simp [hi0, hm])]
        rw [ih (read32 mem (chn + 4 * i)) (fun k hk => by
          have := hsz (k + 1) (Nat.succ_lt_succ hk)
          rwa [Function.iterate_succ_apply] at this)]
        rw [List.find?_map, Option.map_map]
        rfl

theorem find_range_eq_some (p : Nat → Bool) (n k : Nat) :
    (List.range n).find? p = some k ↔ k < n ∧ p k = true ∧ ∀ j, j < k → p j = false := by
  induction n generalizing k with
  | zero => simp
  | succ n ih =>
    rw [List.range_succ, List.find?_append]
    cases hf : (List.range n).find? p with
    | some k' =>
      obtain ⟨h1, h2, h3⟩ := (ih k').mp hf
      simp only [Option.or_some, Option.some.injEq]
      constructor
      · rintro rfl
        exact ⟨by omega, h2, h3⟩
      · rintro ⟨_, g2, g3⟩
        rcases Nat.lt_trichotomy k' k with h | h | h
        · have := g3 k' h
          rw [h2] at this
          cases this
        · exact h
        · have := h3 k h
          rw [g2] at this
          cases this
    | none =>
      have hnone : ∀ j, j < n → p j = false := by
        intro j hj
        have := List.find?_eq_none.mp hf j (List.mem_range.mpr hj)
        simpa using this
      simp only [Option.none_or]
      by_cases hp : p n = true
      · simp only [List.find?_cons_of_pos _ hp, Option.some.injEq]
        constructor
        · rintro rfl
          exact ⟨by omega, hp, hnone⟩
        · rintro ⟨g1, g2, _⟩
          by_cases hk : k < n
          · have := hnone k hk
            rw [g2] at this
            cases this
          · omega
      · have hp' : p n = false := by simpa using hp
        simp only [List.find?_cons_of_neg _ hp, List.find?_nil]
        constructor
        · intro h
          cases h
        · rintro ⟨g1, g2, _⟩
          by_cases hk : k < n
          · have := hnone k hk
            rw [g2] at this
            cases this
          · have hkn : k = n := by omega
            subst hkn
            rw [hp'] at g2
            cases g2

theorem module_find_symbol_fault (fuel : Nat) (hash : List Nat → Nat) (name : List Nat)
    (module : elf_module) (mem : Nat → Nat) (h : nbucket mem module = 0) :
    module_find_symbol fuel hash name module mem = some Lookup.fault := by
  have h' : read32 mem module.hash_table = 0 := by
    simpa [nbucket, hash_word] using h
  unfold module_find_symbol
  rw [if_pos h']

theorem module_find_symbol_eq_reference (fuel : Nat) (hash : List Nat → Nat)
    (name : List Nat) (module : elf_module) (mem : Nat → Nat)
    (hb : 0 < nbucket mem module) (hname : ∀ c ∈ name, 0 < c ∧ c < 256)
    (hsz : ∀ k, k < fuel →
      chain_index mem module (hash name % 4294967296) k * module.syment_size < 4294967296) :
    module_find_symbol fuel hash name module mem =
      reference_search fuel (hash name % 4294967296) name module mem := by
  have hn : nbucket mem module = read32 mem module.hash_table := by
    simp [nbucket, hash_word]
  have hnext : (fun j => read32 mem
      (module.hash_table + 4 * (2 + read32 mem module.hash_table) + 4 * j)) =
      chain mem module := by
    funext j
    unfold chain hash_word
    rw [hn]
    congr 1
    omega
  have hstart : read32 mem (module.hash_table + 4 * 2 +
      4 * (hash name % 4294967296 % read32 mem module.hash_table)) =
      bucket mem module (hash name % 4294967296 % nbucket mem module) := by
    unfold bucket hash_word
    rw [hn]
    congr 1
    omega
  unfold module_find_symbol
  rw [if_neg (by rw [← hn]; omega)]
  rw [chain_walk_find mem name module _ hname fuel _ (by
    rw [hnext, hstart]
    exact hsz)]
  rw [hnext, hstart]
  rfl

theorem reference_search_not_found_iff (fuel : Nat) (h : Nat) (name : List Nat)
    (module : elf_module) (mem : Nat → Nat) :
    reference_search fuel h name module mem = some Lookup.not_found ↔
      ∃ k, k < fuel ∧ chain_index mem module h k = 0 ∧
        ∀ j, j < k → chain_index mem module h j ≠ 0 ∧
          ¬ symbol_named mem module name (chain_index mem module h j) := by
  unfold reference_search
  constructor
  · intro hr
    cases hf : (List.range fuel).find? (fun k =>
        decide (chain_index mem module h k = 0 ∨
          symbol_named mem module name (chain_index mem module h k))) with
    | none => rw [hf] at hr; cases hr
    | some k =>
      rw [hf] at hr
      obtain ⟨h1, _, h3⟩ := (find_range_eq_some _ fuel k).mp hf
      refine ⟨k, h1, ?_, ?_⟩
      · by_cases hz : chain_index mem module h k = 0
        · exact hz
        · simp [hz] at hr
      · intro j hj
        have := h3 j hj
        simpa [not_or] using this
  · rintro ⟨k, h1, h2, h3⟩
    have hf : (List.range fuel).find? (fun k =>
        decide (chain_index mem module h k = 0 ∨
          symbol_named mem module name (chain_index mem module h k))) = some k := by
      rw [find_range_eq_some]
      refine ⟨h1, by simp [h2], ?_⟩
      intro j hj
      simpa [not_or] using h3 j hj
    rw [hf]
    simp [h2]

theorem reference_search_found_iff (fuel : Nat) (h : Nat) (name : List Nat)
    (module : elf_module) (mem : Nat → Nat) (a : Nat) :
    reference_search fuel h name module mem = some (Lookup.found a) ↔
      ∃ k, k < fuel ∧ chain_index mem module h k ≠ 0 ∧
        symbol_named mem module name (chain_index mem module h k) ∧
        a = module.sym_table + chain_index mem module h k * module.syment_size ∧
        ∀ j, j < k → chain_index mem module h j ≠ 0 ∧
          ¬ symbol_named mem module name (chain_index mem module h j) := by
  unfold reference_search
  constructor
  · intro hr
    cases hf : (List.range fuel).find? (fun k =>
        decide (chain_index mem module h k = 0 ∨
          symbol_named mem module name (chain_index mem module h k))) with
    | none => rw [hf] at hr; cases hr
    | some k =>
      rw [hf] at hr
      obtain ⟨h1, h2, h3⟩ := (find_range_eq_some _ fuel k).mp hf
      by_cases hz : chain_index mem module h k = 0
      · simp [hz] at hr
      · refine ⟨k, h1, hz, ?_, ?_, ?_⟩
        · simpa [hz] using h2
        · simp only [Option.map_some', if_neg hz, Option.some.injEq,
            Lookup.found.injEq] at hr
          exact hr.symm
        · intro j hj
          have := h3 j hj
          simpa [not_or] using this
  · rintro ⟨k, h1, h2, h3, h4, h5⟩
    have hf : (List.range fuel).find? (fun k =>
        decide (chain_index mem module h k = 0 ∨
          symbol_named mem module name (chain_index mem module h k))) = some k := by
      rw [find_range_eq_some]
      refine ⟨h1, by simp [h3], ?_⟩
      intro j hj
      simpa [not_or] using h5 j hj
    rw [hf]
    simp [h2, h4]

theorem chain_walk_mono (mem : Nat → Nat) (name : List Nat) (module : elf_module)
    (chn : Nat) (fuel d : Nat) (i : Nat) (r : Lookup)
    (h : chain_walk mem name module chn fuel i = some r) :
    chain_walk mem name module chn (fuel + d) i = some r := by
  induction fuel generalizing i with
  | zero => simp [chain_walk] at h
  | succ fuel ih =>
    rw [Nat.succ_add]
    unfold chain_walk at h ⊢
    split_ifs at h ⊢ with h1 h2
    · exact h
    · exact h
    · exact ih _ h

theorem module_find_symbol_mono (fuel fuel' : Nat) (hash : List Nat → Nat) (name : List Nat)
    (module : elf_module) (mem : Nat → Nat) (r : Lookup) (hle : fuel ≤ fuel')
    (h : module_find_symbol fuel hash name module mem = some r) :
    module_find_symbol fuel' hash name module mem = some r := by
  obtain ⟨d, rfl⟩ := Nat.exists_eq_add_of_le hle
  unfold module_find_symbol at h ⊢
  split_ifs at h ⊢ with h1
  · exact h
  · exact chain_walk_mono _ _ _ _ _ _ _ _ h

/-! ## Theorems: `module_find_symbol` -/

/-- C16: symbol round trip.  For a module whose hash table has a bucket count
above 0 and in which the chain of the bucket `elf_hash(name) mod
bucket_count` ends at index 0 after `n` symbol indices: when a symbol on that
chain is named `name`, `module_find_symbol` returns an entry of the chain
that carries that name (the entry of that very symbol, with its `st_value`,
when no other symbol on the chain has the same name), whatever other names
lie on the same chain; when no symbol on the chain is named `name`, it
returns not-found. -/
theorem module_find_symbol_round_trip (fuel : Nat) (hash : List Nat → Nat)
    (name : List Nat) (module : elf_module) (mem : Nat → Nat) (n : Nat)
    (hb : 0 < nbucket mem module) (hname : ∀ c ∈ name, 0 < c ∧ c < 256)
    (hend : chain_index mem module (hash name % 4294967296) n = 0)
    (hnz : ∀ j, j < n → chain_index mem module (hash name % 4294967296) j ≠ 0)
    (hsz : ∀ k, k < n + 1 →
      chain_index mem module (hash name % 4294967296) k * module.syment_size < 4294967296)
    (hfuel : n < fuel) :
    (∀ i, (∃ j, j < n ∧ chain_index mem module (hash name % 4294967296) j = i) →
      symbol_named mem module name i →
      ∃ i', (∃ j, j < n ∧ chain_index mem module (hash name % 4294967296) j = i') ∧
        symbol_named mem module name i' ∧
        module_find_symbol fuel hash name module mem =
          some (Lookup.found (module.sym_table + i' * module.syment_size)) ∧
        ((∀ i'', (∃ j, j < n ∧ chain_index mem module (hash name % 4294967296) j = i'') →
            symbol_named mem module name i'' → i'' = i) →
          i' = i ∧
          st_value mem (module.sym_table + i' * module.syment_size) =
            st_value mem (module.sym_table + i * module.syment_size))) ∧
    ((∀ j, j < n →
        ¬ symbol_named mem module name (chain_index mem module (hash name % 4294967296) j)) →
      module_find_symbol fuel hash name module mem = some Lookup.not_found) := by
  have href := module_find_symbol_eq_reference (n + 1) hash name module mem hb hname hsz
  constructor
  · rintro i ⟨j0, hj0, rfl⟩ hnamed
    have hex : ∃ j, symbol_named mem module name
        (chain_index mem module (hash name % 4294967296) j) := ⟨j0, hnamed⟩
    have hk := Nat.find_spec hex
    have hkle : Nat.find hex ≤ j0 := Nat.find_min' hex hnamed
    have hfound : reference_search (n + 1) (hash name % 4294967296) name module mem =
        some (Lookup.found (module.sym_table +
          chain_index mem module (hash name % 4294967296) (Nat.find hex) *
            module.syment_size)) := by
      rw [reference_search_found_iff]
      refine ⟨Nat.find hex, by omega, hnz _ (by omega), hk, rfl, ?_⟩
      intro j hj
      exact ⟨hnz j (by omega), Nat.find_min hex hj⟩
    refine ⟨_, ⟨Nat.find hex, by omega, rfl⟩, hk, ?_, ?_⟩
    · exact module_find_symbol_mono (n + 1) fuel hash name module mem _ hfuel
        (href.trans hfound)
    · intro huniq
      have := huniq _ ⟨Nat.find hex, by omega, rfl⟩ hk
      exact ⟨this, by rw [this]⟩
  · intro hno
    have hnf : reference_search (n + 1) (hash name % 4294967296) name module mem =
        some Lookup.not_found := by
      rw [reference_search_not_found_iff]
      exact ⟨n, Nat.lt_succ_self n, hend, fun j hj => ⟨hnz j hj, hno j hj⟩⟩
    exact module_find_symbol_mono (n + 1) fuel hash name module mem _ hfuel
      (href.trans hnf)

/-- C16, witness: in the sample module with `foo` (index 1, value `0x10`) and
`baz` (index 2) in the same bucket, whose chain is 2, 1, 0, the lookup of `foo`
passes over `baz` and returns the entry of index 1; with the single symbol
`foo` of value `0x10`, the lookup of `foo` returns a descriptor of value
`0x10` and the lookup of `bar` returns not-found. -/
theorem module_find_symbol_round_trip_witness :
    (∃ i', (∃ j, j < 2 ∧ chain_index symMemTwo symModule (elf_hash nameFoo % 4294967296) j
          = i') ∧
        symbol_named symMemTwo symModule nameFoo i' ∧
        module_find_symbol 8 elf_hash nameFoo symModule symMemTwo =
          some (Lookup.found (symModule.sym_table + i' * symModule.syment_size)) ∧
        ((∀ i'', (∃ j, j < 2 ∧
              chain_index symMemTwo symModule (elf_hash nameFoo % 4294967296) j = i'') →
            symbol_named symMemTwo symModule nameFoo i'' → i'' = 1) →
          i' = 1 ∧
          st_value symMemTwo (symModule.sym_table + i' * symModule.syment_size) =
            st_value symMemTwo (symModule.sym_table + 1 * symModule.syment_size))) ∧
    module_find_symbol 8 elf_hash nameFoo symModule symMemOne =
      some (Lookup.found 0x100030) ∧
    st_value symMemOne 0x100030 = 0x10 ∧
    module_find_symbol 8 elf_hash nameBar symModule symMemOne = some Lookup.not_found :=
  ⟨(module_find_symbol_round_trip 8 elf_hash nameFoo symModule symMemTwo 2
      (by decide) (by decide) (by decide) (by decide) (by decide) (by decide)).1 1
      ⟨1, by decide, by decide⟩ (by decide),
   by decide, by decide,
   (module_find_symbol_round_trip 8 elf_hash nameBar symModule symMemOne 1
      (by decide) (by decide) (by decide) (by decide) (by decide) (by decide)).2
      (by decide)⟩

/-- C17: when the bucket count is above 0, `module_find_symbol` is the
reference chain search: with `nbucket` word 0 of the hash table, `bucket[j]`
word `2 + j` and `chain[j]` word `2 + nbucket + j`, over the index sequence
`i0 = bucket[elf_hash(name) mod nbucket]`, `i(k+1) = chain[i(k)]` it returns
the entry at byte offset `i * syment_size` of `sym_table` for the first index
`i` whose name string at `str_table + st_name` is `name` followed by NUL, and
it returns not-found exactly when the sequence reaches index 0 before any
match. -/
theorem module_find_symbol_is_reference_search (fuel : Nat) (hash : List Nat → Nat)
    (name : List Nat) (module : elf_module) (mem : Nat → Nat)
    (hb : 0 < nbucket mem module) (hname : ∀ c ∈ name, 0 < c ∧ c < 256)
    (hsz : ∀ k, k < fuel →
      chain_index mem module (hash name % 4294967296) k * module.syment_size < 4294967296) :
    module_find_symbol fuel hash name module mem =
      reference_search fuel (hash name % 4294967296) name module mem ∧
    (module_find_symbol fuel hash name module mem = some Lookup.not_found ↔
      ∃ k, k < fuel ∧ chain_index mem module (hash name % 4294967296) k = 0 ∧
        ∀ j, j < k → chain_index mem module (hash name % 4294967296) j ≠ 0 ∧
          ¬ symbol_named mem module name
            (chain_index mem module (hash name % 4294967296) j)) ∧
    (∀ a, module_find_symbol fuel hash name module mem = some (Lookup.found a) ↔
      ∃ k, k < fuel ∧ chain_index mem module (hash name % 4294967296) k ≠ 0 ∧
        symbol_named mem module name (chain_index mem module (hash name % 4294967296) k) ∧
        a = module.sym_table +
          chain_index mem module (hash name % 4294967296) k * module.syment_size ∧
        ∀ j, j < k → chain_index mem module (hash name % 4294967296) j ≠ 0 ∧
          ¬ symbol_named mem module name
            (chain_index mem module (hash name % 4294967296) j)) ∧
    module_find_symbol fuel hash name module mem ≠ some Lookup.fault := by
  have href := module_find_symbol_eq_reference fuel hash name module mem hb hname hsz
  refine ⟨href, ?_, ?_, ?_⟩
  · rw [href]
    exact reference_search_not_found_iff _ _ _ _ _
  · intro a
    rw [href]
    exact reference_search_found_iff _ _ _ _ _ _
  · rw [href]
    unfold reference_search
    cases (List.range fuel).find? (fun k =>
        decide (chain_index mem module (hash name % 4294967296) k = 0 ∨
          symbol_named mem module name
            (chain_index mem module (hash name % 4294967296) k))) with
    | none => simp
    | some k =>
      simp only [Option.map_some', ne_eq, Option.some.injEq]
      split_ifs <;> simp

/-- C17, witness: the sample module with `foo` and `baz` in one bucket; the
lookup of `fo`, a prefix of `foo`, is not-found. -/
theorem module_find_symbol_is_reference_search_witness :
    module_find_symbol 8 elf_hash nameFoo symModule symMemTwo =
      reference_search 8 (elf_hash nameFoo % 4294967296) nameFoo symModule symMemTwo ∧
    reference_search 8 (elf_hash nameFoo % 4294967296) nameFoo symModule symMemTwo =
      some (Lookup.found 0x100030) ∧
    module_find_symbol 8 elf_hash [0x66, 0x6f] symModule symMemTwo =
      some Lookup.not_found :=
  ⟨(module_find_symbol_is_reference_search 8 elf_hash nameFoo symModule symMemTwo
      (by decide) (by decide) (by decide)).1,
   by decide, by decide⟩

/-- C18 (as stated, refuted): on the sample module whose hash table declares a
bucket count of 0, the lookup of `foo` does not return not-found: it divides
by zero. -/
theorem module_find_symbol_zero_buckets_faults :
    nbucket symMemZero symModule = 0 ∧
    module_find_symbol 8 elf_hash nameFoo symModule symMemZero = some Lookup.fault ∧
    module_find_symbol 8 elf_hash nameFoo symModule symMemZero ≠ some Lookup.not_found := by
  decide

/-- C18 (amended): `module_find_symbol` has no guard for a bucket count of 0:
for every module whose hash table declares 0 buckets and every name it
evaluates `h % hash_table[0]`, a division by zero, and returns neither an
entry nor not-found. -/
theorem module_find_symbol_zero_buckets (fuel : Nat) (hash : List Nat → Nat)
    (name : List Nat) (module : elf_module) (mem : Nat → Nat)
    (h : nbucket mem module = 0) :
    module_find_symbol fuel hash name module mem = some Lookup.fault ∧
    module_find_symbol fuel hash name module mem ≠ some Lookup.not_found ∧
    ∀ a, module_find_symbol fuel hash name module mem ≠ some (Lookup.found a) := by
  rw [module_find_symbol_fault fuel hash name module mem h]
  simp

/-- C18 (amended), witness: the sample module with a bucket count of 0 and the
name `bar`. -/
theorem module_find_symbol_zero_buckets_witness :
    module_find_symbol 4 elf_hash nameBar symModule symMemZero = some Lookup.fault :=
  (module_find_symbol_zero_buckets 4 elf_hash nameBar symModule symMemZero
    (by decide)).1

/-! ## Lemmas: `module_load` -/

theorem resolve_symbols_frame (fuel : Nat) (image : ElfImage) (module : elf_module)
    (env : Env) (r : Outcome) (h : resolve_symbols fuel image module env = some r) :
    r.ret = 0 ∧ r.module = module := by
  unfold resolve_symbols at h
  cases hw : resolve_walk fuel image module._dyn_info env with
  | none => rw [hw] at h; cases h
  | some e =>
    rw [hw] at h
    simp only [Option.map_some', Option.some.injEq] at h
    subst h
    exact ⟨rfl, rfl⟩

theorem module_load_unfold (fuel : Nat) (posix_memalign : Nat → Nat → Option Nat)
    (t : ModuleTarget) (src : ImageSource) (dyn_ph0 : Option Elf32_Phdr)
    (module : elf_module) (env : Env) :
    module_load fuel posix_memalign t src dyn_ph0 module env =
      if (load_image src { module with list := [], deps := [] } env).ret < 0 then
        some (load_image src { module with list := [], deps := [] } env)
      else if (check_header t src.image.hdr).1 < 0 then
        some (module_load_error (check_header t src.image.hdr).1
          (load_image src { module with list := [], deps := [] } env).module
          { mem := (load_image src { module with list := [], deps := [] } env).env.mem
            trace := (load_image src { module with list := [], deps := [] } env).env.trace ++
              (check_header t src.image.hdr).2.map Event.stderr })
      else if (segments_outcome posix_memalign t src module env).ret < 0 then
        some (module_load_error (segments_outcome posix_memalign t src module env).ret
          (segments_outcome posix_memalign t src module env).module
          (segments_outcome posix_memalign t src module env).env)
      else
        module_load_tail fuel src dyn_ph0 (segments_outcome posix_memalign t src module env) :=
  rfl

theorem module_load_tail_ok_inv (fuel : Nat) (src : ImageSource)
    (dyn_ph0 : Option Elf32_Phdr) (r3 r : Outcome)
    (h : module_load_tail fuel src dyn_ph0 r3 = some r) (hr : r.ret = 0) :
    ∃ r4, prepare_dynlinking fuel src.image dyn_ph0 r3.module r3.env = some r4 ∧
      ¬ r4.ret < 0 ∧
      ∃ r5, resolve_symbols fuel src.image r4.module r4.env = some r5 ∧
        r.module = { r4.module with _file_image := 0, _file_fd := 0 } ∧
        r.env = (unload_image r5.module r5.env).env := by
  have hneg : ∀ (res : Int) (m : elf_module) (e : Env), res < 0 →
      some (module_load_error res m e) = some r → False := by
    intro res m e hres heq
    simp only [Option.some.injEq] at heq
    subst heq
    simp only [module_load_error] at hr
    omega
  unfold module_load_tail at h
  cases h4 : prepare_dynlinking fuel src.image dyn_ph0 r3.module r3.env with
  | none => rw [h4] at h; cases h
  | some r4 =>
    rw [h4] at h
    simp only [] at h
    by_cases h5 : r4.ret < 0
    · rw [if_pos h5] at h
      exact absurd h (fun h => hneg _ _ _ h5 h)
    · rw [if_neg h5] at h
      refine ⟨r4, rfl, h5, ?_⟩
      cases h6 : resolve_symbols fuel src.image r4.module r4.env with
      | none => rw [h6] at h; cases h
      | some r5 =>
        rw [h6] at h
        simp only [] at h
        have hf := resolve_symbols_frame fuel src.image r4.module r4.env r5 h6
        have h7 : ¬ r5.ret < 0 := by rw [hf.1]; decide
        have h8 : ¬ (unload_image r5.module r5.env).ret < 0 := by
          simp [unload_image]
        rw [if_neg h7, if_neg h8] at h
        simp only [Option.some.injEq] at h
        subst h
        refine ⟨r5, rfl, ?_, rfl⟩
        rw [hf.2]
        rfl

theorem module_load_ok_inv (fuel : Nat) (posix_memalign : Nat → Nat → Option Nat)
    (t : ModuleTarget) (src : ImageSource) (dyn_ph0 : Option Elf32_Phdr)
    (module : elf_module) (env : Env) (r : Outcome)
    (h : module_load fuel posix_memalign t src dyn_ph0 module env = some r)
    (hr : r.ret = 0) :
    ¬ (load_image src { module with list := [], deps := [] } env).ret < 0 ∧
    ¬ (check_header t src.image.hdr).1 < 0 ∧
    ¬ (segments_outcome posix_memalign t src module env).ret < 0 ∧
    ∃ r4, prepare_dynlinking fuel src.image dyn_ph0
        (segments_outcome posix_memalign t src module env).module
        (segments_outcome posix_memalign t src module env).env = some r4 ∧
      ¬ r4.ret < 0 ∧
      ∃ r5, resolve_symbols fuel src.image r4.module r4.env = some r5 ∧
        r.module = { r4.module with _file_image := 0, _file_fd := 0 } ∧
        r.env = (unload_image r5.module r5.env).env := by
  have hneg : ∀ (res : Int) (m : elf_module) (e : Env), res < 0 →
      some (module_load_error res m e) = some r → False := by
    intro res m e hres heq
    simp only [Option.some.injEq] at heq
    subst heq
    simp only [module_load_error] at hr
    omega
  rw [module_load_unfold] at h
  by_cases h1 : (load_image src { module with list := [], deps := [] } env).ret < 0
  · rw [if_pos h1] at h
    simp only [Option.some.injEq] at h
    subst h
    omega
  · rw [if_neg h1] at h
    by_cases h2 : (check_header t src.image.hdr).1 < 0
    · rw [if_pos h2] at h
      exact absurd h (fun h => hneg _ _ _ h2 h)
    · rw [if_neg h2] at h
      by_cases h3 : (segments_outcome posix_memalign t src module env).ret < 0
      · rw [if_pos h3] at h
        exact absurd h (fun h => hneg _ _ _ h3 h)
      · rw [if_neg h3] at h
        exact ⟨h1, h2, h3, module_load_tail_ok_inv fuel src dyn_ph0 _ r h hr⟩

/-! ## Lemmas: what a successful `module_load` has done -/

theorem load_image_error_ret (module : elf_module) (env : Env) :
    (load_image_error module env).ret = -1 := rfl

theorem load_image_ok (src : ImageSource) (module : elf_module) (env : Env)
    (h : ¬ (load_image src module env).ret < 0) :
    ∃ size, load_image src module env =
      { ret := 0,
        module :=
          { module with _file_fd := src.fd, _file_size := size, _file_image := src.addr },
        env := { env with trace := env.trace ++ [Event.mmap size src.fd src.addr] } } := by
  unfold load_image at h ⊢
  by_cases h1 : src.fd < 0
  · rw [if_pos h1, load_image_error_ret] at h
    exact absurd (by decide) h
  · rw [if_neg h1] at h ⊢
    cases hs : src.st_size with
    | none =>
      rw [hs] at h
      simp only [load_image_error_ret] at h
      exact absurd (by decide) h
    | some size =>
      rw [hs] at h
      simp only [] at h ⊢
      by_cases h2 : src.addr = 0
      · rw [if_pos h2, load_image_error_ret] at h
        exact absurd (by decide) h
      · rw [if_neg h2]
        exact ⟨size, rfl⟩

theorem load_segments_nonneg (posix_memalign : Nat → Nat → Option Nat) (image : ElfImage)
    (module : elf_module) (env : Env)
    (h : ¬ (load_segments posix_memalign image module env).ret < 0) :
    (load_segments posix_memalign image module env).ret = 0 := by
  by_cases h0 : sub32 (extent image.pht).max_addr (extent image.pht).min_addr = 0
  · rw [load_segments_empty _ _ _ _ h0] at h
    exact absurd (show (-1 : Int) < 0 by decide) h
  · cases hp : posix_memalign (extent image.pht).max_align
      (sub32 (max_alloc (extent image.pht)) (min_alloc (extent image.pht))) with
    | none =>
      rw [load_segments_refused _ _ _ _ h0 hp] at h
      exact absurd (show (-1 : Int) < 0 by decide) h
    | some p => exact (load_segments_granted _ _ _ _ p h0 hp).1

theorem outstanding_append (l₁ l₂ : List Event) :
    outstanding (l₁ ++ l₂) = outstanding l₁ + outstanding l₂ := by
  induction l₁ with
  | nil => simp [outstanding]
  | cons e rest ih =>
    cases e with
    | posix_memalign a s res =>
      cases res with
      | none => simp [outstanding, ih]
      | some p =>
        show outstanding (rest ++ l₂) + 1 = outstanding rest + 1 + outstanding l₂
        rw [ih]
        omega
    | free p =>
      show outstanding (rest ++ l₂) - 1 = outstanding rest - 1 + outstanding l₂
      rw [ih]
      omega
    | _ => simp [outstanding, ih]

theorem outstanding_stderr (msgs : List String) :
    outstanding (msgs.map Event.stderr) = 0 := by
  induction msgs with
  | nil => rfl
  | cons m rest ih => simp [outstanding, ih]

theorem outstanding_print_elf_ehdr (ehdr : Elf32_Ehdr) :
    outstanding (print_elf_ehdr ehdr) = 0 := by
  have h : ∀ l : List (Fin 16),
      outstanding (l.map (fun i => Event.printf "%d " [ehdr.e_ident i])) = 0 := by
    intro l
    induction l with
    | nil => rfl
    | cons i rest ih => simp [outstanding, ih]
  unfold print_elf_ehdr
  simp only [outstanding_append, h, outstanding]

theorem copy_segments_outstanding (image : ElfImage) (base : Nat) (l : List Elf32_Phdr)
    (env : Env) :
    outstanding (copy_segments image base l env).trace = outstanding env.trace := by
  induction l generalizing env with
  | nil => simp [copy_segments]
  | cons q rest ih =>
    by_cases hl : q.p_type = PT_LOAD
    · simp only [copy_segments, if_pos hl]
      rw [ih]
      simp [outstanding_append, outstanding]
    · simp only [copy_segments, if_neg hl]
      rw [ih]

theorem load_segments_outstanding (posix_memalign : Nat → Nat → Option Nat)
    (image : ElfImage) (module : elf_module) (env : Env)
    (h : ¬ (load_segments posix_memalign image module env).ret < 0) :
    outstanding (load_segments posix_memalign image module env).env.trace =
      outstanding env.trace + 1 := by
  obtain ⟨h0, p, hp⟩ := load_segments_ret_zero _ _ _ _ (load_segments_nonneg _ _ _ _ h)
  rw [(load_segments_granted posix_memalign image module env p h0 hp).2.2.2]
  simp [outstanding_append, copy_segments_outstanding, outstanding]

theorem segments_outcome_outstanding (posix_memalign : Nat → Nat → Option Nat)
    (t : ModuleTarget) (src : ImageSource) (module : elf_module) (env : Env)
    (h1 : ¬ (load_image src { module with list := [], deps := [] } env).ret < 0)
    (h3 : ¬ (segments_outcome posix_memalign t src module env).ret < 0) :
    outstanding (segments_outcome posix_memalign t src module env).env.trace =
      outstanding env.trace + 1 := by
  unfold segments_outcome at h3 ⊢
  rw [load_segments_outstanding _ _ _ _ h3]
  obtain ⟨size, hl⟩ := load_image_ok _ _ _ h1
  rw [hl]
  simp [outstanding_append, outstanding_stderr, outstanding_print_elf_ehdr, outstanding]

theorem segments_outcome_module (posix_memalign : Nat → Nat → Option Nat)
    (t : ModuleTarget) (src : ImageSource) (module : elf_module) (env : Env)
    (h1 : ¬ (load_image src { module with list := [], deps := [] } env).ret < 0)
    (h3 : ¬ (segments_outcome posix_memalign t src module env).ret < 0) :
    (segments_outcome posix_memalign t src module env).module.hash_table =
      module.hash_table ∧
    (segments_outcome posix_memalign t src module env).module.ghash_table =
      module.ghash_table ∧
    (segments_outcome posix_memalign t src module env).module.str_table =
      module.str_table ∧
    (segments_outcome posix_memalign t src module env).module.sym_table =
      module.sym_table ∧
    (segments_outcome posix_memalign t src module env).module.strtable_size =
      module.strtable_size ∧
    (segments_outcome posix_memalign t src module env).module.syment_size =
      module.syment_size := by
  unfold segments_outcome at h3 ⊢
  obtain ⟨h0, p, hp⟩ := load_segments_ret_zero _ _ _ _ (load_segments_nonneg _ _ _ _ h3)
  rw [(load_segments_granted posix_memalign src.image _ _ p h0 hp).2.1]
  obtain ⟨size, hl⟩ := load_image_ok _ _ _ h1
  rw [hl]
  exact ⟨rfl, rfl, rfl, rfl, rfl, rfl⟩

theorem prepare_dynlinking_ok_inv (fuel : Nat) (image : ElfImage)
    (dyn_ph0 : Option Elf32_Phdr) (module : elf_module) (env : Env) (r : Outcome)
    (h : prepare_dynlinking fuel image dyn_ph0 module env = some r) (hr : ¬ r.ret < 0) :
    ∃ d es, find_dynamic image.pht dyn_ph0 = some d ∧
      dyn_entries fuel image d.p_offset = some es ∧
      r.module = es.foldl (fun m e => dyn_step e m) { module with _dyn_info := d.p_offset } ∧
      r.env = env := by
  cases hd : find_dynamic image.pht dyn_ph0 with
  | none =>
    rw [prepare_dynlinking_reject fuel image dyn_ph0 module env hd] at h
    simp only [Option.some.injEq] at h
    subst h
    exact absurd (show (-1 : Int) < 0 by decide) hr
  | some d =>
    rw [prepare_dynlinking_walk fuel image dyn_ph0 module env d hd] at h
    cases hes : dyn_entries fuel image d.p_offset with
    | none => rw [hes] at h; cases h
    | some es =>
      rw [hes] at h
      simp only [Option.map_some', Option.some.injEq] at h
      subst h
      exact ⟨d, es, rfl, hes, rfl, rfl⟩

theorem prepare_dynlinking_fail_inv (fuel : Nat) (image : ElfImage)
    (dyn_ph0 : Option Elf32_Phdr) (module : elf_module) (env : Env) (r : Outcome)
    (h : prepare_dynlinking fuel image dyn_ph0 module env = some r) (hr : r.ret < 0) :
    find_dynamic image.pht dyn_ph0 = none ∧
    r = { ret := -1, module := module,
          env := { env with trace := env.trace ++
            [Event.stderr "Dynamic relocation information not found\n"] } } := by
  cases hd : find_dynamic image.pht dyn_ph0 with
  | none =>
    rw [prepare_dynlinking_reject fuel image dyn_ph0 module env hd] at h
    simp only [Option.some.injEq] at h
    exact ⟨rfl, h.symm⟩
  | some d =>
    rw [prepare_dynlinking_walk fuel image dyn_ph0 module env d hd] at h
    cases hes : dyn_entries fuel image d.p_offset with
    | none => rw [hes] at h; cases h
    | some es =>
      rw [hes] at h
      simp only [Option.map_some', Option.some.injEq] at h
      subst h
      exact absurd hr (show ¬ ((0 : Int) < 0) by decide)

theorem module_load_ok_fields (fuel : Nat) (posix_memalign : Nat → Nat → Option Nat)
    (t : ModuleTarget) (src : ImageSource) (dyn_ph0 : Option Elf32_Phdr)
    (module : elf_module) (env : Env) (r : Outcome)
    (h : module_load fuel posix_memalign t src dyn_ph0 module env = some r)
    (hr : r.ret = 0) :
    ∃ d es, find_dynamic src.image.pht dyn_ph0 = some d ∧
      dyn_entries fuel src.image d.p_offset = some es ∧
      r.module.base_addr = (segments_outcome posix_memalign t src module env).module.base_addr ∧
      r.module.module_size =
        (segments_outcome posix_memalign t src module env).module.module_size ∧
      r.module.hash_table =
        resolved DT_HASH (fun e => add32 e.d_un r.module.base_addr) module.hash_table es ∧
      r.module.str_table =
        resolved DT_STRTAB (fun e => add32 e.d_un r.module.base_addr) module.str_table es ∧
      r.module.sym_table =
        resolved DT_SYMTAB (fun e => add32 e.d_un r.module.base_addr) module.sym_table es ∧
      r.module.syment_size = resolved DT_SYMENT (fun e => e.d_un) module.syment_size es := by
  obtain ⟨h1, _, h3, r4, h4, h5, r5, _, hm, _⟩ :=
    module_load_ok_inv fuel posix_memalign t src dyn_ph0 module env r h hr
  obtain ⟨d, es, hd, hes, hm4, _⟩ := prepare_dynlinking_ok_inv _ _ _ _ _ r4 h4 h5
  obtain ⟨s1, _, s3, s4, _, s6⟩ := segments_outcome_module posix_memalign t src module env h1 h3
  obtain ⟨f1, _, f3, f4, _, f6⟩ := dyn_foldl_fields es
    { (segments_outcome posix_memalign t src module env).module with _dyn_info := d.p_offset }
  obtain ⟨_, g2, g3, _⟩ := dyn_foldl_frame es
    { (segments_outcome posix_memalign t src module env).module with _dyn_info := d.p_offset }
  refine ⟨d, es, hd, hes, ?_⟩
  rw [hm, hm4]
  simp only [] at f1 f3 f4 f6 g2 g3 ⊢
  rw [f1, f3, f4, f6, g2, g3, s1, s3, s4, s6]
  exact ⟨rfl, rfl, rfl, rfl, rfl, rfl⟩

/-- C14 (as stated, refuted): the sample image whose `DT_HASH` value is
`0x8000` loads successfully (`module_load` returns 0) although the module
occupies `[0x100000, 0x100100)` and the pointer `hash_table` is `0x108000`,
outside that range. -/
theorem module_load_accepts_table_outside_module :
    (sampleModuleLoad tableDynamic dynArrayWild).map
      (fun r => (r.ret, r.module.base_addr, r.module.module_size, r.module.hash_table,
        decide (r.module.base_addr ≤ r.module.hash_table ∧
          r.module.hash_table < r.module.base_addr + r.module.module_size))) =
      some (0, 0x100000, 0x100, 0x108000, false) := by
  decide

/-- C14 (amended): when `module_load` returns 0, the image has a `PT_DYNAMIC`
entry whose array has the entries `es` before its `DT_NULL`, and each of
`hash_table`, `str_table`, `sym_table` whose tag occurs in `es` is `base_addr
+ d_ptr` of the last such entry modulo `2^32`.  No range check is made: the
pointer lies in `[base_addr, base_addr + module_size)` when `d_ptr <
module_size` and the module does not reach beyond `2^32`. -/
theorem module_load_table_pointers (fuel : Nat) (posix_memalign : Nat → Nat → Option Nat)
    (t : ModuleTarget) (src : ImageSource) (dyn_ph0 : Option Elf32_Phdr)
    (module : elf_module) (env : Env) (r : Outcome)
    (h : module_load fuel posix_memalign t src dyn_ph0 module env = some r)
    (hr : r.ret = 0) :
    ∃ d es, find_dynamic src.image.pht dyn_ph0 = some d ∧
      dyn_entries fuel src.image d.p_offset = some es ∧
      (∀ e, last_entry DT_HASH es = some e →
        r.module.hash_table = (r.module.base_addr + e.d_un) % 4294967296 ∧
        (e.d_un < r.module.module_size →
          r.module.base_addr + r.module.module_size ≤ 4294967296 →
          r.module.base_addr ≤ r.module.hash_table ∧
          r.module.hash_table < r.module.base_addr + r.module.module_size)) ∧
      (∀ e, last_entry DT_STRTAB es = some e →
        r.module.str_table = (r.module.base_addr + e.d_un) % 4294967296 ∧
        (e.d_un < r.module.module_size →
          r.module.base_addr + r.module.module_size ≤ 4294967296 →
          r.module.base_addr ≤ r.module.str_table ∧
          r.module.str_table < r.module.base_addr + r.module.module_size)) ∧
      (∀ e, last_entry DT_SYMTAB es = some e →
        r.module.sym_table = (r.module.base_addr + e.d_un) % 4294967296 ∧
        (e.d_un < r.module.module_size →
          r.module.base_addr + r.module.module_size ≤ 4294967296 →
          r.module.base_addr ≤ r.module.sym_table ∧
          r.module.sym_table < r.module.base_addr + r.module.module_size)) := by
  obtain ⟨d, es, hd, hes, _, _, f1, f3, f4, _⟩ :=
    module_load_ok_fields fuel posix_memalign t src dyn_ph0 module env r h hr
  have key : ∀ (tag old ptr : Nat),
      ptr = resolved tag (fun e => add32 e.d_un r.module.base_addr) old es →
      ∀ e, last_entry tag es = some e →
        ptr = (r.module.base_addr + e.d_un) % 4294967296 ∧
        (e.d_un < r.module.module_size →
          r.module.base_addr + r.module.module_size ≤ 4294967296 →
          r.module.base_addr ≤ ptr ∧ ptr < r.module.base_addr + r.module.module_size) := by
    intro tag old ptr hp e he
    have hv : ptr = (r.module.base_addr + e.d_un) % 4294967296 := by
      rw [hp]
      unfold resolved add32
      simp only [he, Nat.add_comm]
    refine ⟨hv, ?_⟩
    intro h1 h2
    omega
  exact ⟨d, es, hd, hes, key _ _ _ f1, key _ _ _ f3, key _ _ _ f4⟩

/-- C14, witness: the sample image whose array has `DT_HASH` twice loads
successfully; `hash_table` is `0x100028`, inside the module. -/
theorem module_load_table_pointers_witness :
    ∃ r, sampleModuleLoad tableDynamic dynArrayFull = some r ∧ r.ret = 0 ∧
      r.module.hash_table = 0x100028 ∧
      r.module.base_addr ≤ r.module.hash_table ∧
      r.module.hash_table < r.module.base_addr + r.module.module_size := by
  have hv : (sampleModuleLoad tableDynamic dynArrayFull).map
      (fun r => (r.ret, r.module.base_addr, r.module.module_size)) =
      some (0, 0x100000, 0x100) := by decide
  obtain ⟨r, hr⟩ := Option.isSome_iff_exists.mp
    (show (sampleModuleLoad tableDynamic dynArrayFull).isSome = true by decide)
  rw [hr] at hv
  simp only [Option.map_some', Option.some.injEq, Prod.mk.injEq] at hv
  obtain ⟨h0, hb, hs⟩ := hv
  obtain ⟨d, es, hd, hes, hh, _, _⟩ :=
    module_load_table_pointers 16 (allocAt 0x100000) i386
      (sampleSource (dynImage tableDynamic dynArrayFull)) none freshModule dirtyEnv r hr h0
  have hd1 : find_dynamic (sampleSource (dynImage tableDynamic dynArrayFull)).image.pht none =
      some (phdr PT_DYNAMIC 0x40 0x40 0x40 0x40 4) := by decide
  rw [hd1, Option.some.injEq] at hd
  subst hd
  have hes1 : dyn_entries 16 (sampleSource (dynImage tableDynamic dynArrayFull)).image
      (phdr PT_DYNAMIC 0x40 0x40 0x40 0x40 4).p_offset =
      some [⟨4, 0x20⟩, ⟨5, 0x30⟩, ⟨4, 0x28⟩, ⟨6, 0x40⟩, ⟨10, 0x10⟩, ⟨11, 0x10⟩] := by decide
  rw [hes1, Option.some.injEq] at hes
  subst hes
  obtain ⟨e1, e2⟩ := hh ⟨4, 0x28⟩ (by decide)
  rw [hb, hs] at e2
  rw [hb] at e1
  exact ⟨r, hr, h0, e1, by rw [hb, hs]; exact e2 (by decide) (by decide)⟩

/-- C15 (as stated, refuted): the sample image whose dynamic array has no entry
before its `DT_NULL` (so no `DT_HASH`, `DT_STRTAB`, `DT_SYMTAB`) loads
successfully: `module_load` returns 0, and `hash_table`, `str_table`,
`sym_table`, `syment_size` are the zeros that the module held before. -/
theorem module_load_accepts_missing_tables :
    dyn_entries 16 (dynImage tableDynamic dynArrayEmpty) 0x40 = some [] ∧
    (sampleModuleLoad tableDynamic dynArrayEmpty).map
      (fun r => (r.ret, r.module.hash_table, r.module.str_table, r.module.sym_table,
        r.module.syment_size)) = some (0, 0, 0, 0, 0) := by
  decide

/-- C15 (amended): when `module_load` returns 0, the image has a `PT_DYNAMIC`
entry whose array has the entries `es` before its `DT_NULL`, and each of
`hash_table`, `str_table`, `sym_table`, `syment_size` is resolved from the
last entry of `es` with its tag when there is one, and otherwise keeps the
value that the module had before the call: the presence of `DT_HASH`,
`DT_STRTAB`, `DT_SYMTAB`, `DT_SYMENT` is not checked. -/
theorem module_load_tables_resolved_or_kept (fuel : Nat)
    (posix_memalign : Nat → Nat → Option Nat) (t : ModuleTarget) (src : ImageSource)
    (dyn_ph0 : Option Elf32_Phdr) (module : elf_module) (env : Env) (r : Outcome)
    (h : module_load fuel posix_memalign t src dyn_ph0 module env = some r)
    (hr : r.ret = 0) :
    ∃ d es, find_dynamic src.image.pht dyn_ph0 = some d ∧
      dyn_entries fuel src.image d.p_offset = some es ∧
      r.module.hash_table =
        resolved DT_HASH (fun e => add32 e.d_un r.module.base_addr) module.hash_table es ∧
      r.module.str_table =
        resolved DT_STRTAB (fun e => add32 e.d_un r.module.base_addr) module.str_table es ∧
      r.module.sym_table =
        resolved DT_SYMTAB (fun e => add32 e.d_un r.module.base_addr) module.sym_table es ∧
      r.module.syment_size = resolved DT_SYMENT (fun e => e.d_un) module.syment_size es := by
  obtain ⟨d, es, hd, hes, _, _, f1, f3, f4, f6⟩ :=
    module_load_ok_fields fuel posix_memalign t src dyn_ph0 module env r h hr
  exact ⟨d, es, hd, hes, f1, f3, f4, f6⟩

/-- C15, witness: the sample image whose array has `DT_HASH` and `DT_STRTAB`
but no `DT_SYMTAB` loads successfully; `hash_table` is resolved to `0x100020`
and `sym_table` keeps the 0 it had. -/
theorem module_load_tables_resolved_or_kept_witness :
    ∃ r, sampleModuleLoad tableDynamic dynArrayNoisy = some r ∧ r.ret = 0 ∧
      r.module.hash_table = 0x100020 ∧ r.module.sym_table = 0 := by
  have hv : (sampleModuleLoad tableDynamic dynArrayNoisy).map
      (fun r => (r.ret, r.module.base_addr)) = some (0, 0x100000) := by decide
  obtain ⟨r, hr⟩ := Option.isSome_iff_exists.mp
    (show (sampleModuleLoad tableDynamic dynArrayNoisy).isSome = true by decide)
  rw [hr] at hv
  simp only [Option.map_some', Option.some.injEq, Prod.mk.injEq] at hv
  obtain ⟨h0, hb⟩ := hv
  obtain ⟨d, es, hd, hes, f1, _, f4, _⟩ :=
    module_load_tables_resolved_or_kept 16 (allocAt 0x100000) i386
      (sampleSource (dynImage tableDynamic dynArrayNoisy)) none freshModule dirtyEnv r hr h0
  have hd1 : find_dynamic (sampleSource (dynImage tableDynamic dynArrayNoisy)).image.pht none =
      some (phdr PT_DYNAMIC 0x40 0x40 0x40 0x40 4) := by decide
  rw [hd1, Option.some.injEq] at hd
  subst hd
  have hes1 : dyn_entries 16 (sampleSource (dynImage tableDynamic dynArrayNoisy)).image
      (phdr PT_DYNAMIC 0x40 0x40 0x40 0x40 4).p_offset =
      some [⟨4, 0x20⟩, ⟨1, 1⟩, ⟨21, 7⟩, ⟨5, 0x30⟩] := by decide
  rw [hes1, Option.some.injEq] at hes
  subst hes
  rw [hb] at f1 f4
  exact ⟨r, hr, h0, f1.trans (by decide), f4.trans (by decide)⟩

/-- C20 (as stated, refuted): the sample image with one loadable segment and
no `PT_DYNAMIC` entry.  `load_segments` succeeds, `prepare_dynlinking`
returns -1 and so does `module_load`; the block at `0x100000` is still in
`module_addr` and has not been freed: one allocation is outstanding after the
call, none before. -/
theorem module_load_dynamic_failure_leaks :
    outstanding dirtyEnv.trace = 0 ∧
    (segments_outcome (allocAt 0x100000) i386 (sampleSource (dynImage tableOne dynArrayFull))
      freshModule dirtyEnv).ret = 0 ∧
    (prepare_dynlinking 16 (dynImage tableOne dynArrayFull) none
      (segments_outcome (allocAt 0x100000) i386 (sampleSource (dynImage tableOne dynArrayFull))
        freshModule dirtyEnv).module
      (segments_outcome (allocAt 0x100000) i386 (sampleSource (dynImage tableOne dynArrayFull))
        freshModule dirtyEnv).env).map (fun r => r.ret) = some (-1) ∧
    (sampleModuleLoad tableOne dynArrayFull).map
      (fun r => (r.ret, r.module.module_addr, outstanding r.env.trace)) =
      some (-1, 0x100000, 1) := by
  decide

/-- C20 (amended): a load that fails at `prepare_dynlinking` releases the image
but not the memory that `load_segments` allocated.  When the image is
acquired, the header accepted, `load_segments` succeeds and
`prepare_dynlinking` returns a negative result, `module_load` returns -1; the
image has been unmapped and its descriptor closed, the block stays in
`module_addr`, no `free` is called, and the count of outstanding allocations
is one more than before the call. -/
theorem module_load_dynamic_failure_keeps_allocation (fuel : Nat)
    (posix_memalign : Nat → Nat → Option Nat) (t : ModuleTarget) (src : ImageSource)
    (dyn_ph0 : Option Elf32_Phdr) (module : elf_module) (env : Env) (r4 : Outcome)
    (h1 : ¬ (load_image src { module with list := [], deps := [] } env).ret < 0)
    (h2 : ¬ (check_header t src.image.hdr).1 < 0)
    (h3 : ¬ (segments_outcome posix_memalign t src module env).ret < 0)
    (h4 : prepare_dynlinking fuel src.image dyn_ph0
      (segments_outcome posix_memalign t src module env).module
      (segments_outcome posix_memalign t src module env).env = some r4)
    (h5 : r4.ret < 0) :
    ∃ r, module_load fuel posix_memalign t src dyn_ph0 module env = some r ∧
      r.ret = -1 ∧
      r.module.module_addr =
        (segments_outcome posix_memalign t src module env).module.module_addr ∧
      r.module._file_image = 0 ∧ r.module._file_fd = 0 ∧
      r.env.trace = (segments_outcome posix_memalign t src module env).env.trace ++
        [Event.stderr "Dynamic relocation information not found\n",
         Event.munmap (segments_outcome posix_memalign t src module env).module._file_image
           (segments_outcome posix_memalign t src module env).module._file_size,
         Event.close (segments_outcome posix_memalign t src module env).module._file_fd] ∧
      outstanding r.env.trace = outstanding env.trace + 1 := by
  obtain ⟨_, hr4⟩ := prepare_dynlinking_fail_inv _ _ _ _ _ r4 h4 h5
  rw [module_load_unfold, if_neg h1, if_neg h2, if_neg h3]
  unfold module_load_tail
  rw [h4]
  simp only [if_pos h5]
  subst hr4
  refine ⟨_, rfl, rfl, rfl, rfl, rfl, ?_, ?_⟩
  · simp [module_load_error, unload_image]
  · simp [module_load_error, unload_image, outstanding_append, outstanding,
      segments_outcome_outstanding posix_memalign t src module env h1 h3]

/-- C20, witness: the sample image with one loadable segment and no
`PT_DYNAMIC` entry. -/
theorem module_load_dynamic_failure_keeps_allocation_witness :
    ∃ r, sampleModuleLoad tableOne dynArrayFull = some r ∧ r.ret = -1 ∧
      r.module.module_addr = 0x100000 ∧ r.module._file_image = 0 ∧
      outstanding r.env.trace = outstanding dirtyEnv.trace + 1 := by
  obtain ⟨r, hr, h0, hm, hi, _, _, ho⟩ :=
    module_load_dynamic_failure_keeps_allocation 16 (allocAt 0x100000) i386
      (sampleSource (dynImage tableOne dynArrayFull)) none freshModule dirtyEnv
      { ret := -1,
        module := (segments_outcome (allocAt 0x100000) i386
          (sampleSource (dynImage tableOne dynArrayFull)) freshModule dirtyEnv).module,
        env := { (segments_outcome (allocAt 0x100000) i386
            (sampleSource (dynImage tableOne dynArrayFull)) freshModule dirtyEnv).env with
          trace := (segments_outcome (allocAt 0x100000) i386
            (sampleSource (dynImage tableOne dynArrayFull)) freshModule dirtyEnv).env.trace ++
            [Event.stderr "Dynamic relocation information not found\n"] } }
      (by decide) (by decide) (by decide)
      (prepare_dynlinking_reject 16 _ none _ _ (by decide)) (by decide)
  exact ⟨r, hr, h0, hm.trans (by decide), hi, ho⟩

/-! ## Lemmas: the exits of `module_load` -/

theorem resolve_step_eq (e : Elf32_Dyn) (env : Env) :
    resolve_step e env =
      { mem := env.mem, trace := env.trace ++ diagnostics [e] } := by
  unfold resolve_step diagnostics reloc_tags
  by_cases h : e.d_tag = DT_RELA ∨ e.d_tag = DT_RELASZ ∨ e.d_tag = DT_RELAENT ∨
      e.d_tag = DT_PLTRELSZ ∨ e.d_tag = DT_PLTGOT ∨ e.d_tag = DT_INIT ∨ e.d_tag = DT_FINI ∨
      e.d_tag = DT_REL ∨ e.d_tag = DT_RELSZ ∨ e.d_tag = DT_RELENT ∨ e.d_tag = DT_PLTREL ∨
      e.d_tag = DT_JMPREL
  · rw [if_pos h]
    simp [List.filter_cons, h]
  · rw [if_neg h]
    simp [List.filter_cons, h]

theorem diagnostics_cons (e : Elf32_Dyn) (es : List Elf32_Dyn) :
    diagnostics (e :: es) = diagnostics [e] ++ diagnostics es := by
  unfold diagnostics
  rw [← List.map_append, ← List.filter_append]
  rfl

theorem resolve_walk_entries (fuel : Nat) (image : ElfImage) (off : Nat) (env : Env)
    (es : List Elf32_Dyn) (hes : dyn_entries fuel image off = some es) :
    resolve_walk fuel image off env =
      some { mem := env.mem, trace := env.trace ++ diagnostics es } := by
  induction fuel generalizing off env es with
  | zero => simp [dyn_entries] at hes
  | succ fuel ih =>
    unfold dyn_entries at hes
    unfold resolve_walk
    by_cases h0 : (dyn_at image off).d_tag = DT_NULL
    · rw [if_pos h0] at hes ⊢
      simp only [Option.some.injEq] at hes
      subst hes
      simp [diagnostics]
    · rw [if_neg h0] at hes ⊢
      cases hrest : dyn_entries fuel image (off + 8) with
      | none => rw [hrest] at hes; cases hes
      | some rest =>
        rw [hrest] at hes
        simp only [Option.map_some', Option.some.injEq] at hes
        subst hes
        rw [ih (off + 8) _ rest hrest, resolve_step_eq,
          diagnostics_cons (dyn_at image off) rest]
        simp only [List.append_assoc]

theorem frees_append (l₁ l₂ : List Event) : frees (l₁ ++ l₂) = frees l₁ ++ frees l₂ := by
  unfold frees
  exact List.filterMap_append _ _ _

theorem frees_stderr (msgs : List String) : frees (msgs.map Event.stderr) = [] := by
  induction msgs with
  | nil => rfl
  | cons m rest ih =>
    unfold frees at ih ⊢
    simp only [List.map_cons, List.filterMap_cons, ih]

theorem frees_print_elf_ehdr (ehdr : Elf32_Ehdr) : frees (print_elf_ehdr ehdr) = [] := by
  have h : ∀ l : List (Fin 16),
      frees (l.map (fun i => Event.printf "%d " [ehdr.e_ident i])) = [] := by
    intro l
    induction l with
    | nil => rfl
    | cons i rest ih =>
      unfold frees at ih ⊢
      simp only [List.map_cons, List.filterMap_cons, ih]
  unfold print_elf_ehdr
  simp only [frees_append, h]
  rfl

theorem frees_diagnostics (es : List Elf32_Dyn) : frees (diagnostics es) = [] := by
  unfold diagnostics
  induction es.filter (fun e => decide (e.d_tag ∈ reloc_tags)) with
  | nil => rfl
  | cons e rest ih =>
    unfold frees at ih ⊢
    simp only [List.map_cons, List.filterMap_cons, ih]

theorem copy_segments_frees (image : ElfImage) (base : Nat) (l : List Elf32_Phdr)
    (env : Env) :
    frees (copy_segments image base l env).trace = frees env.trace := by
  induction l generalizing env with
  | nil => simp [copy_segments]
  | cons q rest ih =>
    by_cases hl : q.p_type = PT_LOAD
    · simp only [copy_segments, if_pos hl]
      rw [ih]
      simp [frees_append, frees]
    · simp only [copy_segments, if_neg hl]
      rw [ih]

theorem load_segments_frame (posix_memalign : Nat → Nat → Option Nat) (image : ElfImage)
    (module : elf_module) (env : Env) :
    (load_segments posix_memalign image module env).module.list = module.list ∧
    (load_segments posix_memalign image module env).module.deps = module.deps ∧
    (load_segments posix_memalign image module env).module._file_image =
      module._file_image ∧
    (load_segments posix_memalign image module env).module._file_size =
      module._file_size ∧
    (load_segments posix_memalign image module env).module._file_fd = module._file_fd ∧
    frees (load_segments posix_memalign image module env).env.trace = frees env.trace := by
  by_cases h0 : sub32 (extent image.pht).max_addr (extent image.pht).min_addr = 0
  · rw [load_segments_empty _ _ _ _ h0]
    simp [frees_append, frees]
  · cases hp : posix_memalign (extent image.pht).max_align
      (sub32 (max_alloc (extent image.pht)) (min_alloc (extent image.pht))) with
    | none =>
      rw [load_segments_refused _ _ _ _ h0 hp]
      simp [frees_append, frees]
    | some p =>
      obtain ⟨_, hm, _, ht⟩ := load_segments_granted posix_memalign image module env p h0 hp
      rw [hm, ht]
      refine ⟨rfl, rfl, rfl, rfl, rfl, ?_⟩
      rw [frees_append, copy_segments_frees, frees_append]
      simp [frees]

theorem module_load_exit (fuel : Nat) (posix_memalign : Nat → Nat → Option Nat)
    (t : ModuleTarget) (src : ImageSource) (dyn_ph0 : Option Elf32_Phdr)
    (module : elf_module) (env : Env) (r : Outcome)
    (h1 : ¬ (load_image src { module with list := [], deps := [] } env).ret < 0)
    (h : module_load fuel posix_memalign t src dyn_ph0 module env = some r) :
    ∃ size m e, src.st_size = some size ∧
      r.module = (unload_image m e).module ∧ r.env = (unload_image m e).env ∧
      m.list = [] ∧ m.deps = [] ∧ m._file_image = src.addr ∧ m._file_size = size ∧
      m._file_fd = src.fd ∧ frees e.trace = frees env.trace := by
  obtain ⟨size, hl⟩ := load_image_ok _ _ _ h1
  have hsize : src.st_size = some size := by
    unfold load_image at hl
    by_cases hfd : src.fd < 0
    · rw [if_pos hfd] at hl
      have := congrArg Outcome.ret hl
      rw [load_image_error_ret] at this
      simp at this
    · rw [if_neg hfd] at hl
      cases hs : src.st_size with
      | none =>
        rw [hs] at hl
        have := congrArg Outcome.ret hl
        simp [load_image_error_ret] at this
      | some size' =>
        rw [hs] at hl
        simp only [] at hl
        by_cases h2 : src.addr = 0
        · rw [if_pos h2] at hl
          have := congrArg Outcome.ret hl
          rw [load_image_error_ret] at this
          simp at this
        · rw [if_neg h2] at hl
          have := congrArg (fun o => o.module._file_size) hl
          simp only [] at this
          rw [this]
  have hL1 : (load_image src { module with list := [], deps := [] } env).module.list = [] := by
    rw [hl]
  have hL2 : (load_image src { module with list := [], deps := [] } env).module.deps = [] := by
    rw [hl]
  have hL3 : (load_image src { module with list := [], deps := [] } env).module._file_image =
      src.addr := by rw [hl]
  have hL4 : (load_image src { module with list := [], deps := [] } env).module._file_size =
      size := by rw [hl]
  have hL5 : (load_image src { module with list := [], deps := [] } env).module._file_fd =
      src.fd := by rw [hl]
  have hL6 : frees (load_image src { module with list := [], deps := [] } env).env.trace =
      frees env.trace := by
    rw [hl]
    simp [frees_append, frees]
  have f := load_segments_frame posix_memalign src.image
    (load_image src { module with list := [], deps := [] } env).module
    { mem := (load_image src { module with list := [], deps := [] } env).env.mem
      trace := (load_image src { module with list := [], deps := [] } env).env.trace ++
        (check_header t src.image.hdr).2.map Event.stderr ++ print_elf_ehdr src.image.hdr }
  have s1 : (segments_outcome posix_memalign t src module env).module.list = [] :=
    f.1.trans hL1
  have s2 : (segments_outcome posix_memalign t src module env).module.deps = [] :=
    f.2.1.trans hL2
  have s3 : (segments_outcome posix_memalign t src module env).module._file_image =
      src.addr := f.2.2.1.trans hL3
  have s4 : (segments_outcome posix_memalign t src module env).module._file_size = size :=
    f.2.2.2.1.trans hL4
  have s5 : (segments_outcome posix_memalign t src module env).module._file_fd = src.fd :=
    f.2.2.2.2.1.trans hL5
  have s6' : frees (segments_outcome posix_memalign t src module env).env.trace =
      frees env.trace := by
    refine f.2.2.2.2.2.trans ?_
    simp only [frees_append, frees_stderr, frees_print_elf_ehdr, List.append_nil]
    exact hL6
  rw [module_load_unfold, if_neg h1] at h
  by_cases h2 : (check_header t src.image.hdr).1 < 0
  · rw [if_pos h2, Option.some.injEq] at h
    subst h
    refine ⟨size, _, _, hsize, rfl, rfl, hL1, hL2, hL3, hL4, hL5, ?_⟩
    simp only [frees_append, frees_stderr, List.append_nil]
    exact hL6
  · rw [if_neg h2] at h
    by_cases h3 : (segments_outcome posix_memalign t src module env).ret < 0
    · rw [if_pos h3, Option.some.injEq] at h
      subst h
      exact ⟨size, _, _, hsize, rfl, rfl, s1, s2, s3, s4, s5, s6'⟩
    · rw [if_neg h3] at h
      unfold module_load_tail at h
      cases h4 : prepare_dynlinking fuel src.image dyn_ph0
          (segments_outcome posix_memalign t src module env).module
          (segments_outcome posix_memalign t src module env).env with
      | none => rw [h4] at h; cases h
      | some r4 =>
        rw [h4] at h
        simp only [] at h
        by_cases h5 : r4.ret < 0
        · rw [if_pos h5, Option.some.injEq] at h
          subst h
          obtain ⟨_, hr4⟩ := prepare_dynlinking_fail_inv _ _ _ _ _ r4 h4 h5
          subst hr4
          refine ⟨size, _, _, hsize, rfl, rfl, s1, s2, s3, s4, s5, ?_⟩
          simp only [frees_append, s6']
          simp [frees]
        · rw [if_neg h5] at h
          obtain ⟨d, es, hd, hes, hm4, he4⟩ := prepare_dynlinking_ok_inv _ _ _ _ _ r4 h4 h5
          have hdi : r4.module._dyn_info = d.p_offset := by
            rw [hm4]
            exact (dyn_foldl_frame es _).2.2.2.2.2.2.2.1
          have h6 : resolve_symbols fuel src.image r4.module r4.env =
              some { ret := 0, module := r4.module,
                     env := { mem := r4.env.mem,
                              trace := r4.env.trace ++ diagnostics es } } := by
            unfold resolve_symbols
            rw [hdi, resolve_walk_entries fuel src.image d.p_offset r4.env es hes]
            rfl
          rw [h6] at h
          simp only [] at h
          have h7 : ¬ ((0 : Int) < 0) := by decide
          have h8 : ¬ (unload_image r4.module
              { mem := r4.env.mem, trace := r4.env.trace ++ diagnostics es }).ret < 0 := by
            simp [unload_image]
          rw [if_neg h7, if_neg h8, Option.some.injEq] at h
          subst h
          obtain ⟨_, _, _, _, g5, g6, g7, _, g9, g10⟩ := dyn_foldl_frame es
            { (segments_outcome posix_memalign t src module env).module with
              _dyn_info := d.p_offset }
          refine ⟨size, _, _, hsize, rfl, rfl, ?_, ?_, ?_, ?_, ?_, ?_⟩
          · rw [hm4, g9]; exact s1
          · rw [hm4, g10]; exact s2
          · rw [hm4, g5]; exact s3
          · rw [hm4, g6]; exact s4
          · rw [hm4, g7]; exact s5
          · simp only [frees_append, frees_diagnostics, List.append_nil]
            rw [he4]
            exact s6'

theorem load_image_list (src : ImageSource) (module : elf_module) (env : Env) :
    (load_image src module env).module.list = module.list := by
  unfold load_image load_image_error
  by_cases h1 : src.fd < 0
  · simp only [if_pos h1]
    split_ifs <;> rfl
  · simp only [if_neg h1]
    cases src.st_size with
    | none =>
      simp only []
      split_ifs <;> rfl
    | some size =>
      simp only []
      split_ifs <;> rfl

theorem requests_stderr (msgs : List String) : requests (msgs.map Event.stderr) = [] := by
  induction msgs with
  | nil => rfl
  | cons m rest ih => simp [requests, ih]

theorem module_load_total (fuel : Nat) (posix_memalign : Nat → Nat → Option Nat)
    (t : ModuleTarget) (src : ImageSource) (dyn_ph0 : Option Elf32_Phdr)
    (module : elf_module) (env : Env)
    (hfuel : ∀ d, find_dynamic src.image.pht dyn_ph0 = some d →
      ∃ es, dyn_entries fuel src.image d.p_offset = some es) :
    ∃ r, module_load fuel posix_memalign t src dyn_ph0 module env = some r := by
  rw [module_load_unfold]
  by_cases h1 : (load_image src { module with list := [], deps := [] } env).ret < 0
  · rw [if_pos h1]
    exact ⟨_, rfl⟩
  · rw [if_neg h1]
    by_cases h2 : (check_header t src.image.hdr).1 < 0
    · rw [if_pos h2]
      exact ⟨_, rfl⟩
    · rw [if_neg h2]
      by_cases h3 : (segments_outcome posix_memalign t src module env).ret < 0
      · rw [if_pos h3]
        exact ⟨_, rfl⟩
      · rw [if_neg h3]
        unfold module_load_tail
        cases hd : find_dynamic src.image.pht dyn_ph0 with
        | none =>
          rw [prepare_dynlinking_reject fuel src.image dyn_ph0 _ _ hd]
          simp only []
          rw [if_pos (show (-1 : Int) < 0 by decide)]
          exact ⟨_, rfl⟩
        | some d =>
          obtain ⟨es, hes⟩ := hfuel d hd
          rw [prepare_dynlinking_walk fuel src.image dyn_ph0 _ _ d hd, hes]
          simp only [Option.map_some']
          rw [if_neg (show ¬ ((0 : Int) < 0) by decide)]
          have hdi : (es.foldl (fun m e => dyn_step e m)
              { (segments_outcome posix_memalign t src module env).module with
                _dyn_info := d.p_offset })._dyn_info = d.p_offset :=
            (dyn_foldl_frame es _).2.2.2.2.2.2.2.1
          unfold resolve_symbols
          rw [hdi, resolve_walk_entries fuel src.image d.p_offset _ es hes]
          simp only [Option.map_some']
          rw [if_neg (show ¬ ((0 : Int) < 0) by decide)]
          split_ifs
          · exact ⟨_, rfl⟩
          · exact ⟨_, rfl⟩

/-! ## Theorems: the exits of `module_load` -/

/-- C21: when the image is acquired and `check_header` rejects its header,
`module_load` returns the negative result of `check_header`; no allocation
is requested, the memory is not written, and `base_addr`, `module_size`,
`module_addr`, `hash_table`, `ghash_table`, `str_table`, `sym_table`,
`strtable_size`, `syment_size` are as before the call. -/
theorem module_load_header_failure_no_partial_state (fuel : Nat)
    (posix_memalign : Nat → Nat → Option Nat) (t : ModuleTarget) (src : ImageSource)
    (dyn_ph0 : Option Elf32_Phdr) (module : elf_module) (env : Env)
    (h1 : ¬ (load_image src { module with list := [], deps := [] } env).ret < 0)
    (h2 : (check_header t src.image.hdr).1 < 0) :
    ∃ r, module_load fuel posix_memalign t src dyn_ph0 module env = some r ∧
      r.ret = (check_header t src.image.hdr).1 ∧ r.ret < 0 ∧
      requests r.env.trace = requests env.trace ∧
      r.env.mem = env.mem ∧
      r.module.base_addr = module.base_addr ∧
      r.module.module_size = module.module_size ∧
      r.module.module_addr = module.module_addr ∧
      r.module.hash_table = module.hash_table ∧
      r.module.ghash_table = module.ghash_table ∧
      r.module.str_table = module.str_table ∧
      r.module.sym_table = module.sym_table ∧
      r.module.strtable_size = module.strtable_size ∧
      r.module.syment_size = module.syment_size := by
  obtain ⟨size, hl⟩ := load_image_ok _ _ _ h1
  rw [module_load_unfold, if_neg h1, if_pos h2]
  refine ⟨_, rfl, rfl, h2, ?_⟩
  rw [hl]
  refine ⟨?_, rfl, rfl, rfl, rfl, rfl, rfl, rfl, rfl, rfl, rfl⟩
  simp [module_load_error, unload_image, requests_append, requests_stderr, requests]

/-- C21, witness: the sample image with `e_type = ET_EXEC`. -/
theorem module_load_header_failure_no_partial_state_witness :
    ∃ r, module_load 16 (allocAt 0x100000) i386 badHeaderSource none mappedModule dirtyEnv =
        some r ∧
      r.ret = -1 ∧ requests r.env.trace = [] ∧ r.module.base_addr = 0x100000 ∧
      r.module.module_addr = 0x100000 ∧ r.module.hash_table = 0 := by
  obtain ⟨r, hr, h0, _, hq, _, hb, _, ha, hh, _⟩ :=
    module_load_header_failure_no_partial_state 16 (allocAt 0x100000) i386 badHeaderSource
      none mappedModule dirtyEnv (by decide) (by decide)
  exact ⟨r, hr, h0.trans (by decide), hq, hb, ha, hh⟩

/-- C22 (as stated, refuted): the sample image loads successfully
(`module_load` returns 0), and afterwards the module is not a member of the
list of loaded modules (head at `0x5000`): its node `list` is linked to
nothing. -/
theorem module_load_success_not_registered :
    (sampleModuleLoad tableDynamic dynArrayFull).map
      (fun r => (r.ret, r.module.list, decide (in_registry 0x5000 r.module))) =
      some (0, [], false) := by
  decide

/-- C22 (amended): `module_load` never inserts the module into the list of
loaded modules.  After `module_load`, successful or failed, the node `list` of
the module is the empty list that `INIT_LIST_HEAD` made at the start of the
call, so the module is not a member of the registry, whatever the address of
its head. -/
theorem module_load_never_registers (fuel : Nat) (posix_memalign : Nat → Nat → Option Nat)
    (t : ModuleTarget) (src : ImageSource) (dyn_ph0 : Option Elf32_Phdr)
    (module : elf_module) (env : Env) (r : Outcome)
    (h : module_load fuel posix_memalign t src dyn_ph0 module env = some r) :
    r.module.list = [] ∧ ∀ modules, ¬ in_registry modules r.module := by
  have hlist : r.module.list = [] := by
    by_cases h1 : (load_image src { module with list := [], deps := [] } env).ret < 0
    · rw [module_load_unfold, if_pos h1, Option.some.injEq] at h
      subst h
      exact load_image_list src _ env
    · obtain ⟨size, m, e, _, hm, _, hl, _⟩ :=
        module_load_exit fuel posix_memalign t src dyn_ph0 module env r h1 h
      rw [hm]
      exact hl
  refine ⟨hlist, ?_⟩
  intro modules hin
  unfold in_registry at hin
  rw [hlist] at hin
  cases hin

/-- C22 (amended), witness: the sample image without a `PT_DYNAMIC` entry,
whose load fails, starting from a module whose node was linked to the head at
`0x5000`. -/
theorem module_load_never_registers_witness :
    ∃ r, module_load 16 (allocAt 0x100000) i386
        (sampleSource (dynImage tableOne dynArrayFull)) none
        { freshModule with list := [0x5000] } dirtyEnv = some r ∧
      r.ret = -1 ∧ r.module.list = [] ∧ ¬ in_registry 0x5000 r.module := by
  have hv : (module_load 16 (allocAt 0x100000) i386
      (sampleSource (dynImage tableOne dynArrayFull)) none
      { freshModule with list := [0x5000] } dirtyEnv).map (fun r => r.ret) = some (-1) := by
    decide
  obtain ⟨r, hr⟩ := Option.isSome_iff_exists.mp
    (show (module_load 16 (allocAt 0x100000) i386
      (sampleSource (dynImage tableOne dynArrayFull)) none
      { freshModule with list := [0x5000] } dirtyEnv).isSome = true by decide)
  rw [hr] at hv
  simp only [Option.map_some', Option.some.injEq] at hv
  obtain ⟨hl, hn⟩ := module_load_never_registers 16 (allocAt 0x100000) i386
    (sampleSource (dynImage tableOne dynArrayFull)) none
    { freshModule with list := [0x5000] } dirtyEnv r hr
  exact ⟨r, hr, hv, hl, hn 0x5000⟩

/-- C23: once the image has been acquired, `module_load` releases it on every
exit path.  When the dynamic array (if the image has one) ends within `fuel`
entries, `module_load` returns; and whatever it returns (0, or the failure of
`check_header`, `load_segments` or `prepare_dynlinking`), the image has been
unmapped and its descriptor closed (the last two events of the trace),
`_file_image` and `_file_fd` are cleared, and no block is freed: the structure
of the module is left to the caller. -/
theorem module_load_releases_image (fuel : Nat) (posix_memalign : Nat → Nat → Option Nat)
    (t : ModuleTarget) (src : ImageSource) (dyn_ph0 : Option Elf32_Phdr)
    (module : elf_module) (env : Env)
    (h1 : ¬ (load_image src { module with list := [], deps := [] } env).ret < 0)
    (hfuel : ∀ d, find_dynamic src.image.pht dyn_ph0 = some d →
      ∃ es, dyn_entries fuel src.image d.p_offset = some es) :
    ∃ r size, module_load fuel posix_memalign t src dyn_ph0 module env = some r ∧
      src.st_size = some size ∧
      r.module._file_image = 0 ∧ r.module._file_fd = 0 ∧
      (∃ before, r.env.trace =
        before ++ [Event.munmap src.addr size, Event.close src.fd]) ∧
      frees r.env.trace = frees env.trace := by
  obtain ⟨r, hr⟩ := module_load_total fuel posix_memalign t src dyn_ph0 module env hfuel
  obtain ⟨size, m, e, hs, hm, he, _, _, hi, hz, hf, hfr⟩ :=
    module_load_exit fuel posix_memalign t src dyn_ph0 module env r h1 hr
  refine ⟨r, size, hr, hs, ?_, ?_, ⟨e.trace, ?_⟩, ?_⟩
  · rw [hm]; rfl
  · rw [hm]; rfl
  · rw [he]
    simp only [unload_image, hi, hz, hf]
  · rw [he]
    simp only [unload_image, frees_append, hfr]
    simp [frees]

/-- C23, witness: the sample image whose array has `DT_HASH` twice, which loads
successfully. -/
theorem module_load_releases_image_witness :
    ∃ r, sampleModuleLoad tableDynamic dynArrayFull = some r ∧
      r.module._file_image = 0 ∧ r.module._file_fd = 0 ∧
      (∃ before, r.env.trace = before ++ [Event.munmap 0x8000 0x2000, Event.close 3]) ∧
      frees r.env.trace = [] := by
  obtain ⟨r, size, hr, hs, hi, hf, ht, hfr⟩ :=
    module_load_releases_image 16 (allocAt 0x100000) i386
      (sampleSource (dynImage tableDynamic dynArrayFull)) none freshModule dirtyEnv
      (by decide)
      (fun d hd => by
        rw [show find_dynamic (sampleSource (dynImage tableDynamic dynArrayFull)).image.pht
          none = some (phdr PT_DYNAMIC 0x40 0x40 0x40 0x40 4) by decide,
          Option.some.injEq] at hd
        subst hd
        exact ⟨[⟨4, 0x20⟩, ⟨5, 0x30⟩, ⟨4, 0x28⟩, ⟨6, 0x40⟩, ⟨10, 0x10⟩, ⟨11, 0x10⟩],
          by decide⟩)
  have hsz : size = 0x2000 := by
    have : (sampleSource (dynImage tableDynamic dynArrayFull)).st_size = some 0x2000 := rfl
    rw [this, Option.some.injEq] at hs
    exact hs.symm
  subst hsz
  exact ⟨r, hr, hi, hf, ht, hfr⟩

/-- C24: `resolve_symbols` performs no fix-up.  When the dynamic array at
`_dyn_info` has the entries `es` before its first `DT_NULL`, it returns 0,
leaves the module (every field, `base_addr` included) and the memory as they
were, and prints one diagnostic for each entry of `es` whose tag is one of
the twelve relocation tags, in order, and nothing else. -/
theorem resolve_symbols_no_fixup (fuel : Nat) (image : ElfImage) (module : elf_module)
    (env : Env) (es : List Elf32_Dyn)
    (hes : dyn_entries fuel image module._dyn_info = some es) :
    resolve_symbols fuel image module env =
      some { ret := 0, module := module,
             env := { mem := env.mem,
                      trace := env.trace ++
                        (es.filter (fun e => decide (e.d_tag ∈ reloc_tags))).map
                          (fun e => Event.printf "Recognized DYN tag: %d\n" [e.d_tag]) } } := by
  unfold resolve_symbols
  rw [resolve_walk_entries fuel image module._dyn_info env es hes]
  rfl

/-- C24, witness: the sample array with `DT_REL`, `DT_RELSZ`, `DT_REL` among
other entries and `DT_JMPREL` after the terminator: three diagnostics. -/
theorem resolve_symbols_no_fixup_witness :
    (resolve_symbols 16 (dynImage tableDynamic dynArrayReloc)
      { mappedModule with _dyn_info := 0x40 } dirtyEnv).map
      (fun r => (r.ret, r.module.base_addr, r.env.trace)) =
      some (0, 0x100000,
        [Event.printf "Recognized DYN tag: %d\n" [17],
         Event.printf "Recognized DYN tag: %d\n" [18],
         Event.printf "Recognized DYN tag: %d\n" [17]]) := by
  rw [resolve_symbols_no_fixup 16 (dynImage tableDynamic dynArrayReloc)
    { mappedModule with _dyn_info := 0x40 } dirtyEnv
    [⟨4, 0x20⟩, ⟨17, 0x50⟩, ⟨1, 1⟩, ⟨18, 0x10⟩, ⟨17, 0x60⟩] (by decide)]
  rfl

/-! ## Theorems: `module_alloc` -/

/-- C25: when `malloc` gives a block, `module_alloc(name)` returns it with
every field zero except the name; the name field has `MODULE_NAME_SIZE`
bytes, the first `min(length of name, MODULE_NAME_SIZE)` of which are the
leading bytes of the given name and the others zero; the node `list` is
linked to nothing, so the module is not in the registry. -/
theorem module_alloc_zeroed_with_name (MODULE_NAME_SIZE : Nat) (malloc : Option Nat)
    (name : List Nat) (result : Nat) (hm : malloc = some result) :
    ∃ m, module_alloc MODULE_NAME_SIZE malloc name = some (result, m) ∧
      { m with name := [] } = freshModule ∧
      m.name.length = MODULE_NAME_SIZE ∧
      (∀ i, i < min name.length MODULE_NAME_SIZE → m.name.getD i 0 = name.getD i 0) ∧
      (∀ i, min name.length MODULE_NAME_SIZE ≤ i → i < MODULE_NAME_SIZE →
        m.name.getD i 0 = 0) ∧
      ∀ modules, ¬ in_registry modules m := by
  subst hm
  refine ⟨_, rfl, rfl, ?_, ?_, ?_, ?_⟩
  · simp only [strncpy, zeroed_module, List.length_append, List.length_take,
      List.length_replicate, List.length_drop]
    omega
  · intro i hi
    have h1 : i < (List.take MODULE_NAME_SIZE name).length := by
      rw [List.length_take]
      omega
    simp only [strncpy, zeroed_module, List.append_assoc, List.getD_eq_getElem?_getD]
    rw [List.getElem?_append_left h1, List.getElem?_take_of_lt (by omega)]
  · intro i hi hlt
    have h1 : (List.take MODULE_NAME_SIZE name).length ≤ i := by
      rw [List.length_take]
      omega
    simp only [strncpy, zeroed_module, List.append_assoc, List.getD_eq_getElem?_getD]
    rw [List.getElem?_append_right h1]
    have h2 : i - (List.take MODULE_NAME_SIZE name).length <
        (List.replicate (MODULE_NAME_SIZE - name.length) 0).length := by
      rw [List.length_replicate, List.length_take]
      omega
    rw [List.getElem?_append_left h2, List.getElem?_replicate]
    split_ifs <;> rfl
  · intro modules hin
    cases hin

/-- C25, witness: the name `foo` in a field of 8 bytes. -/
theorem module_alloc_zeroed_with_name_witness :
    ∃ m, module_alloc 8 (some 0x9000) nameFoo = some (0x9000, m) ∧
      m.name.length = 8 ∧ m.name.getD 1 0 = 0x6f ∧ m.name.getD 5 0 = 0 ∧
      { m with name := [] } = freshModule ∧ ¬ in_registry 0x5000 m := by
  obtain ⟨m, hm, hz, hl, hpre, hpost, hreg⟩ :=
    module_alloc_zeroed_with_name 8 (some 0x9000) nameFoo 0x9000 rfl
  exact ⟨m, hm, hl, (hpre 1 (by decide)).trans rfl, hpost 5 (by decide) (by decide), hz,
    hreg 0x5000⟩

/-- C26 (the defect): for a name of `MODULE_NAME_SIZE` characters (here the
character `a` repeated), `strncpy` fills the whole name field and writes no
NUL: the field that `module_alloc` returns holds no zero byte. -/
theorem module_alloc_name_not_terminated (MODULE_NAME_SIZE result : Nat) :
    (module_alloc MODULE_NAME_SIZE (some result)
      (List.replicate MODULE_NAME_SIZE 0x61)).map (fun r => r.2.name) =
      some (List.replicate MODULE_NAME_SIZE 0x61) ∧
    (0 : Nat) ∉ List.replicate MODULE_NAME_SIZE 0x61 := by
  constructor
  · simp [module_alloc, strncpy, zeroed_module]
  · intro h
    have := List.eq_of_mem_replicate h
    exact absurd this (by decide)

/-! ## Lemmas: termination of the chain walk -/

theorem range_succ_map_iterate (f : Nat → Nat) (i n : Nat) :
    (List.range (n + 1)).map (fun j => f^[j] i) =
      i :: (List.range n).map (fun j => f^[j] (f i)) := by
  rw [List.range_succ_eq_map, List.map_cons, List.map_map]
  rfl

theorem chain_visits_prefix (mem : Nat → Nat) (name : List Nat) (module : elf_module)
    (chn : Nat) (fuel i n : Nat)
    (hz : (fun j => read32 mem (chn + 4 * j))^[n] i = 0)
    (hnz : ∀ j, j < n → (fun j => read32 mem (chn + 4 * j))^[j] i ≠ 0) :
    chain_visits mem name module chn fuel i <+:
      (List.range n).map (fun j => (fun j => read32 mem (chn + 4 * j))^[j] i) := by
  induction fuel generalizing i n with
  | zero => exact List.nil_prefix
  | succ fuel ih =>
    unfold chain_visits
    by_cases h0 : i = STN_UNDEF
    · rw [if_pos h0]
      exact List.nil_prefix
    · rw [if_neg h0]
      cases n with
      | zero => exact absurd hz h0
      | succ n =>
        rw [range_succ_map_iterate]
        split_ifs with hm
        · exact (List.prefix_cons_inj i).mpr List.nil_prefix
        · refine (List.prefix_cons_inj i).mpr (ih _ n ?_ ?_)
          · exact hz
          · intro j hj
            exact hnz (j + 1) (by omega)

theorem chain_walk_ends (mem : Nat → Nat) (name : List Nat) (module : elf_module)
    (chn : Nat) (fuel i n : Nat)
    (hz : (fun j => read32 mem (chn + 4 * j))^[n] i = 0)
    (hnz : ∀ j, j < n → (fun j => read32 mem (chn + 4 * j))^[j] i ≠ 0)
    (hfuel : n < fuel) :
    ∃ r, chain_walk mem name module chn fuel i = some r ∧ r ≠ Lookup.fault ∧
      (r = Lookup.not_found ↔
        ∀ j, j < n →
          ¬ name_matches mem name module ((fun j => read32 mem (chn + 4 * j))^[j] i)) := by
  induction fuel generalizing i n with
  | zero => omega
  | succ fuel ih =>
    unfold chain_walk
    by_cases h0 : i = STN_UNDEF
    · rw [if_pos h0]
      refine ⟨_, rfl, by simp, ?_⟩
      have hn : n = 0 := by
        by_contra hne
        exact hnz 0 (by omega) h0
      subst hn
      simp
    · rw [if_neg h0]
      cases n with
      | zero => exact absurd hz h0
      | succ n =>
        by_cases hm : name_matches mem name module i
        · have hm1 := hm
          unfold name_matches at hm1
          rw [if_pos hm1]
          refine ⟨_, rfl, by simp, ?_⟩
          constructor
          · intro h
            cases h
          · intro h
            exact absurd hm (h 0 (by omega))
        · have hm1 := hm
          unfold name_matches at hm1
          rw [if_neg hm1]
          obtain ⟨r, hr, hf, hiff⟩ := ih (read32 mem (chn + 4 * i)) n hz
            (fun j hj => hnz (j + 1) (by omega)) (by omega)
          refine ⟨r, hr, hf, ?_⟩
          rw [hiff]
          constructor
          · intro h j hj
            cases j with
            | zero => exact hm
            | succ j => exact h j (by omega)
          · intro h j hj
            exact h (j + 1) (by omega)

/-! ## Theorems: termination of `module_find_symbol` -/

/-- C27: if the hash table has buckets and the chain that starts at every
bucket reaches the sentinel index 0 without repeating an index, then for every
name `module_find_symbol` terminates: with `n` the number of indices on the
chain of the name's bucket, every run with more than `n` tests of the loop
condition returns, with an entry or with not-found and without a division by
zero; the indices it examines are indices of that chain and none is examined
twice; and it returns not-found exactly when no index of the chain passes the
name test, that is, when the chain is exhausted. -/
theorem module_find_symbol_terminates (hash : List Nat → Nat) (name : List Nat)
    (module : elf_module) (mem : Nat → Nat)
    (hb : 0 < nbucket mem module)
    (hchain : ∀ b, b < nbucket mem module →
      ∃ n, (chain mem module)^[n] (bucket mem module b) = 0 ∧
        (∀ j, j < n → (chain mem module)^[j] (bucket mem module b) ≠ 0) ∧
        ∀ k, k < n → ∀ j, j < k →
          (chain mem module)^[j] (bucket mem module b) ≠
            (chain mem module)^[k] (bucket mem module b)) :
    ∃ n, chain_index mem module (hash name % 4294967296) n = 0 ∧
      ∀ fuel, n < fuel →
        ∃ r, module_find_symbol fuel hash name module mem = some r ∧
          r ≠ Lookup.fault ∧
          (module_find_symbol_visits fuel hash name module mem).Nodup ∧
          (∀ i ∈ module_find_symbol_visits fuel hash name module mem,
            ∃ j, j < n ∧ chain_index mem module (hash name % 4294967296) j = i) ∧
          (r = Lookup.not_found ↔
            ∀ j, j < n →
              ¬ name_matches mem name module
                (chain_index mem module (hash name % 4294967296) j)) := by
  have hn : nbucket mem module = read32 mem module.hash_table := by
    simp [nbucket, hash_word]
  have hnext : (fun j => read32 mem
      (module.hash_table + 4 * (2 + read32 mem module.hash_table) + 4 * j)) =
      chain mem module := by
    funext j
    unfold chain hash_word
    rw [hn]
    congr 1
    omega
  have hstart : read32 mem (module.hash_table + 4 * 2 +
      4 * (hash name % 4294967296 % read32 mem module.hash_table)) =
      bucket mem module (hash name % 4294967296 % nbucket mem module) := by
    unfold bucket hash_word
    rw [hn]
    congr 1
    omega
  obtain ⟨n, hz, hnz, hdist⟩ :=
    hchain (hash name % 4294967296 % nbucket mem module) (Nat.mod_lt _ hb)
  refine ⟨n, hz, ?_⟩
  intro fuel hfuel
  have hz1 : (fun j => read32 mem
      (module.hash_table + 4 * (2 + read32 mem module.hash_table) + 4 * j))^[n]
      (read32 mem (module.hash_table + 4 * 2 +
        4 * (hash name % 4294967296 % read32 mem module.hash_table))) = 0 := by
    rw [hnext, hstart]
    exact hz
  have hnz1 : ∀ j, j < n → (fun j => read32 mem
      (module.hash_table + 4 * (2 + read32 mem module.hash_table) + 4 * j))^[j]
      (read32 mem (module.hash_table + 4 * 2 +
        4 * (hash name % 4294967296 % read32 mem module.hash_table))) ≠ 0 := by
    rw [hnext, hstart]
    exact hnz
  obtain ⟨r, hr, hf, hiff⟩ := chain_walk_ends mem name module _ fuel _ n hz1 hnz1 hfuel
  have hpre := chain_visits_prefix mem name module _ fuel _ n hz1 hnz1
  rw [hnext, hstart] at hiff hpre
  have hne : ¬ read32 mem module.hash_table = 0 := by
    rw [← hn]
    omega
  have hv : module_find_symbol_visits fuel hash name module mem =
      chain_visits mem name module
        (module.hash_table + 4 * (2 + read32 mem module.hash_table)) fuel
        (read32 mem (module.hash_table + 4 * 2 +
          4 * (hash name % 4294967296 % read32 mem module.hash_table))) := by
    unfold module_find_symbol_visits
    rw [if_neg hne]
  have hnodup : ((List.range n).map (fun j => (chain mem module)^[j]
      (bucket mem module (hash name % 4294967296 % nbucket mem module)))).Nodup := by
    rw [List.nodup_map_iff_inj_on (List.nodup_range n)]
    intro j hj k hk hjk
    rw [List.mem_range] at hj hk
    by_contra hne
    rcases Nat.lt_or_gt_of_ne hne with h | h
    · exact hdist k hk j h hjk
    · exact hdist j hj k h hjk.symm
  refine ⟨r, ?_, hf, ?_, ?_, hiff⟩
  · unfold module_find_symbol
    rw [if_neg hne]
    exact hr
  · rw [hv, hstart]
    exact hnodup.sublist hpre.sublist
  · intro i hi
    rw [hv, hstart] at hi
    have := hpre.subset hi
    rw [List.mem_map] at this
    obtain ⟨j, hj, hji⟩ := this
    exact ⟨j, List.mem_range.mp hj, hji⟩

/-- C27, witness: the sample module with `baz` and `foo` on one chain
(`2 → 1 → 0`) and the name `bar`, which is on no chain. -/
theorem module_find_symbol_terminates_witness :
    ∃ n, chain_index symMemTwo symModule (elf_hash nameBar % 4294967296) n = 0 ∧
      ∀ fuel, n < fuel →
        ∃ r, module_find_symbol fuel elf_hash nameBar symModule symMemTwo = some r ∧
          r ≠ Lookup.fault ∧
          (module_find_symbol_visits fuel elf_hash nameBar symModule symMemTwo).Nodup ∧
          (∀ i ∈ module_find_symbol_visits fuel elf_hash nameBar symModule symMemTwo,
            ∃ j, j < n ∧
              chain_index symMemTwo symModule (elf_hash nameBar % 4294967296) j = i) ∧
          (r = Lookup.not_found ↔
            ∀ j, j < n →
              ¬ name_matches symMemTwo nameBar symModule
                (chain_index symMemTwo symModule (elf_hash nameBar % 4294967296) j)) :=
  module_find_symbol_terminates elf_hash nameBar symModule symMemTwo (by decide)
    (fun b hb => by
      have h1 : nbucket symMemTwo symModule = 1 := by decide
      rw [h1] at hb
      have h0 : b = 0 := by omega
      subst h0
      exact ⟨2, by decide, by decide, by decide⟩)

/-! ## Lemmas: the running minimum of `load_segments` -/

theorem scan_max_lt (l : List Elf32_Phdr) (i : Nat) (acc : Extent)
    (h : acc.max_addr < 4294967296) : (scan_segments i l acc).max_addr < 4294967296 := by
  induction l generalizing i acc with
  | nil => exact h
  | cons q rest ih =>
    unfold scan_segments
    apply ih
    by_cases hl : q.p_type = PT_LOAD
    · simp only [scan_step, if_pos hl, MAX, add32]
      split_ifs <;> omega
    · simp only [scan_step, if_neg hl]
      exact h

theorem max_alloc_round_up (e : Extent) (hx : e.max_addr < 4294967296)
    (ha : 0 < e.max_align) :
    max_alloc e =
      ((e.max_addr + e.max_align - 1) / e.max_align * e.max_align) % 4294967296 := by
  have hdm := Nat.div_add_mod e.max_addr e.max_align
  have hr := Nat.mod_lt e.max_addr ha
  have hle := Nat.mod_le e.max_addr e.max_align
  by_cases h0 : e.max_addr % e.max_align = 0
  · have hq : (e.max_addr + e.max_align - 1) / e.max_align * e.max_align = e.max_addr := by
      have h1 : e.max_addr + e.max_align - 1 =
          e.max_align * (e.max_addr / e.max_align) + (e.max_align - 1) := by omega
      rw [h1, Nat.mul_add_div ha,
        Nat.div_eq_of_lt (show e.max_align - 1 < e.max_align by omega), Nat.add_zero,
        Nat.mul_comm]
      omega
    rw [hq]
    unfold max_alloc sub32
    rw [if_neg (by omega), h0]
    omega
  · have hq : (e.max_addr + e.max_align - 1) / e.max_align * e.max_align =
        e.max_addr - e.max_addr % e.max_align + e.max_align := by
      have h1 : e.max_addr + e.max_align - 1 =
          e.max_align * (e.max_addr / e.max_align) +
            (e.max_addr % e.max_align + e.max_align - 1) := by omega
      have h2 : (e.max_addr % e.max_align + e.max_align - 1) / e.max_align = 1 :=
        Nat.div_eq_of_lt_le (by omega) (by omega)
      rw [h1, Nat.mul_add_div ha, h2, Nat.add_mul, Nat.one_mul, Nat.mul_comm]
      omega
    rw [hq]
    unfold max_alloc sub32 add32
    rw [if_pos (by omega)]
    generalize e.max_addr % e.max_align = r at *
    omega

/-! ## Theorems: the running minimum of `load_segments` -/

/-- C31 (as stated, refuted): the table with the single loadable segment
`[0, 0xFFFFFFFD)`, `p_filesz = 0x10`, satisfies `p_filesz <= p_memsz` and
`p_vaddr + p_memsz < 2^32`, and `load_segments` succeeds on it; but
`max_addr` rounded up to `max_align = 4` is `2^32`, which wraps to
`max_alloc = 0`: `p_vaddr + p_filesz <= max_alloc` fails and `module_size` is
0, not positive. -/
theorem load_segments_round_up_wraps :
    (∀ ph ∈ tableRoundWrap, ph.p_type = PT_LOAD →
      ph.p_filesz ≤ ph.p_memsz ∧ ph.p_vaddr + ph.p_memsz < 4294967296) ∧
    (sampleLoad tableRoundWrap 0x2000).ret = 0 ∧
    max_alloc (extent tableRoundWrap) = 0 ∧
    (¬ ∀ ph ∈ tableRoundWrap, ph.p_type = PT_LOAD →
      ph.p_vaddr + ph.p_filesz ≤ max_alloc (extent tableRoundWrap)) ∧
    (sampleLoad tableRoundWrap 0x2000).module.module_size = 0 := by
  decide

/-- C31 (amended): for every program-header table in which each `PT_LOAD`
entry has `p_filesz <= p_memsz` and `p_vaddr + p_memsz < 2^32`, and whose
`max_addr` rounded up to `max_align` does not pass `2^32` (`max_addr +
max_align <= 2^32`), a successful `load_segments` keeps every copy inside the
allocation: for each `PT_LOAD` entry `min_alloc <= p_vaddr` and `p_vaddr +
p_filesz <= max_alloc`; `max_align` is at least the pointer width; and
`module_size` is `max_alloc - min_alloc`, a positive multiple of
`max_align`. -/
theorem load_segments_copies_within_footprint (posix_memalign : Nat → Nat → Option Nat)
    (image : ElfImage) (module : elf_module) (env : Env)
    (hseg : ∀ ph ∈ image.pht, ph.p_type = PT_LOAD →
      ph.p_filesz ≤ ph.p_memsz ∧ ph.p_vaddr + ph.p_memsz < 4294967296)
    (hfit : (extent image.pht).max_addr + (extent image.pht).max_align ≤ 4294967296)
    (hret : (load_segments posix_memalign image module env).ret = 0) :
    (∀ ph ∈ image.pht, ph.p_type = PT_LOAD →
      min_alloc (extent image.pht) ≤ ph.p_vaddr ∧
      ph.p_vaddr + ph.p_filesz ≤ max_alloc (extent image.pht)) ∧
    sizeof_voidp ≤ (extent image.pht).max_align ∧
    (load_segments posix_memalign image module env).module.module_size =
      max_alloc (extent image.pht) - min_alloc (extent image.pht) ∧
    0 < (load_segments posix_memalign image module env).module.module_size ∧
    (extent image.pht).max_align ∣
      (load_segments posix_memalign image module env).module.module_size := by
  obtain ⟨hne, p, hp⟩ := load_segments_ret_zero posix_memalign image module env hret
  have hsize : (load_segments posix_memalign image module env).module.module_size =
      sub32 (max_alloc (extent image.pht)) (min_alloc (extent image.pht)) := by
    rw [(load_segments_granted posix_memalign image module env p hne hp).2.1]
  have halign := extent_align_ge image.pht
  have hex : ∃ ph ∈ image.pht, ph.p_type = PT_LOAD := by
    by_contra hno
    have hno1 : ∀ ph ∈ image.pht, ph.p_type ≠ PT_LOAD := fun ph hm hl => hno ⟨ph, hm, hl⟩
    apply hne
    unfold extent
    rw [scan_segments_no_load image.pht 0 _ hno1]
    rfl
  obtain ⟨ph0, hm0, hl0⟩ := hex
  obtain ⟨hf0, hw0⟩ := hseg ph0 hm0 hl0
  obtain ⟨b1, b2, b3, b4⟩ := footprint_bounds image.pht ph0 hm0 hl0 hw0 hfit
  have hmin : (extent image.pht).min_addr ≤ ph0.p_vaddr :=
    scan_min_le_of_mem image.pht _ ph0 hm0 hl0
  have hmax : (extent image.pht).max_addr < 4294967296 := scan_max_lt image.pht 0 _ (by decide)
  have hround := max_alloc_round_up (extent image.pht) hmax (by omega)
  have hdm1 := Nat.div_add_mod ((extent image.pht).max_addr + (extent image.pht).max_align - 1)
    (extent image.pht).max_align
  have hlt1 := Nat.mod_lt ((extent image.pht).max_addr + (extent image.pht).max_align - 1)
    (show 0 < (extent image.pht).max_align by omega)
  have hq : ((extent image.pht).max_addr + (extent image.pht).max_align - 1) /
      (extent image.pht).max_align * (extent image.pht).max_align =
      (extent image.pht).max_align *
        (((extent image.pht).max_addr + (extent image.pht).max_align - 1) /
          (extent image.pht).max_align) := Nat.mul_comm _ _
  have hmaxalloc : max_alloc (extent image.pht) =
      (extent image.pht).max_align *
        (((extent image.pht).max_addr + (extent image.pht).max_align - 1) /
          (extent image.pht).max_align) := by
    rw [hround, hq]
    apply Nat.mod_eq_of_lt
    omega
  have hdm2 := Nat.div_add_mod (extent image.pht).min_addr (extent image.pht).max_align
  have hminalloc : min_alloc (extent image.pht) =
      (extent image.pht).max_align *
        ((extent image.pht).min_addr / (extent image.pht).max_align) := by
    unfold min_alloc sub32
    have := Nat.mod_le (extent image.pht).min_addr (extent image.pht).max_align
    generalize (extent image.pht).min_addr % (extent image.pht).max_align = r at *
    omega
  have hne1 : (extent image.pht).max_addr ≠ (extent image.pht).min_addr := by
    intro heq
    apply hne
    rw [heq]
    unfold sub32
    omega
  have hge : ph0.p_vaddr + ph0.p_memsz ≤ (extent image.pht).max_addr := by
    have := scan_max_ge_of_mem image.pht 0 ⟨0, 0, sizeof_voidp⟩ ph0 hm0 hl0
    unfold add32 at this
    rw [Nat.mod_eq_of_lt hw0] at this
    exact this
  refine ⟨?_, halign, ?_, ?_, ?_⟩
  · intro ph hm hl
    obtain ⟨hf, hw⟩ := hseg ph hm hl
    obtain ⟨c1, c2, _, _⟩ := footprint_bounds image.pht ph hm hl hw hfit
    exact ⟨c1, by omega⟩
  · rw [hsize, b4]
  · rw [hsize, b4]
    have h1 : min_alloc (extent image.pht) ≤ (extent image.pht).min_addr := by
      rw [hminalloc]
      omega
    have h2 : (extent image.pht).max_addr ≤ max_alloc (extent image.pht) := by
      rw [hmaxalloc]
      omega
    omega
  · rw [hsize, b4, hmaxalloc, hminalloc]
    exact Nat.dvd_sub' (Nat.dvd_mul_right _ _) (Nat.dvd_mul_right _ _)

/-- C31 (amended), witness: the table with loadable segments at `0x1000` and
`0x3000`; `module_size` is `0x3000`. -/
theorem load_segments_copies_within_footprint_witness :
    (∀ ph ∈ tableTwoSegments, ph.p_type = PT_LOAD →
      min_alloc (extent tableTwoSegments) ≤ ph.p_vaddr ∧
      ph.p_vaddr + ph.p_filesz ≤ max_alloc (extent tableTwoSegments)) ∧
    sizeof_voidp ≤ (extent tableTwoSegments).max_align ∧
    (sampleLoad tableTwoSegments 0x2000).module.module_size =
      max_alloc (extent tableTwoSegments) - min_alloc (extent tableTwoSegments) ∧
    0 < (sampleLoad tableTwoSegments 0x2000).module.module_size ∧
    (extent tableTwoSegments).max_align ∣
      (sampleLoad tableTwoSegments 0x2000).module.module_size :=
  load_segments_copies_within_footprint (allocAt 0x100000) (sampleImage tableTwoSegments)
    (sampleModule 0x2000) dirtyEnv (by decide) (by decide) (by decide)

end ElfModule

namespace EfiMain

/-! ## Lemmas: `efi_setcwd` -/

theorem to_int_length (n : Nat) (h : n < 2147483648) :
    to_int (n + 4294967295) = (n : Int) - 1 := by
  unfold to_int
  split_ifs with h1 <;> omega

theorem scan_back_none (dp : List Nat) (k : Nat) (hk : k ≤ dp.length)
    (h : ∀ c ∈ dp, c ≠ 0x5c ∧ c ≠ 0x2f) : scan_back dp k = -1 := by
  induction k with
  | zero => rfl
  | succ k ih =>
    unfold scan_back
    have hm : dp.getD k 0 ∈ dp := by
      rw [List.getD_eq_getElem dp 0 (by omega)]
      exact List.getElem_mem _
    rw [if_neg (by
      intro hc
      have := h _ hm
      rcases hc with hc | hc
      · exact this.1 hc
      · exact this.2 hc)]
    exact ih (by omega)

theorem scan_back_last (dir : List Nat) (s : Nat) (file : List Nat)
    (hs : s = 0x5c ∨ s = 0x2f) (hfile : ∀ c ∈ file, c ≠ 0x5c ∧ c ≠ 0x2f) (k : Nat)
    (hk : k ≤ file.length) :
    scan_back (dir ++ s :: file) (dir.length + 1 + k) = (dir.length : Int) := by
  induction k with
  | zero =>
    show scan_back (dir ++ s :: file) (dir.length + 1) = _
    unfold scan_back
    have : (dir ++ s :: file).getD dir.length 0 = s := by
      simp only [List.getD_eq_getElem?_getD]
      rw [List.getElem?_append_right (Nat.le_refl _), Nat.sub_self]
      simp
    rw [this, if_pos hs]
  | succ k ih =>
    show scan_back (dir ++ s :: file) ((dir.length + 1 + k) + 1) = _
    unfold scan_back
    have hg : (dir ++ s :: file).getD (dir.length + 1 + k) 0 = file.getD k 0 := by
      simp only [List.getD_eq_getElem?_getD]
      rw [List.getElem?_append_right (by omega)]
      have : dir.length + 1 + k - dir.length = k + 1 := by omega
      rw [this, List.getElem?_cons_succ]
    have hm : file.getD k 0 ∈ file := by
      rw [List.getD_eq_getElem file 0 (by omega)]
      exact List.getElem_mem _
    rw [hg, if_neg (by
      intro hc
      have := hfile _ hm
      rcases hc with hc | hc
      · exact this.1 hc
      · exact this.2 hc)]
    exact ih (by omega)

theorem copy_path_take (dp : List Nat) (n : Nat) (hn : n ≤ dp.length) :
    copy_path dp n = (dp.take n).map (fun c => if c = 0x5c then 0x2f else c % 256) := by
  induction n generalizing dp with
  | zero => simp [copy_path]
  | succ n ih =>
    cases dp with
    | nil => simp at hn
    | cons c rest =>
      unfold copy_path
      rw [List.tail_cons, ih rest (by simpa using hn)]
      simp

theorem efi_setcwd_fallback (CURRENTDIR_MAX : Nat) (dp : List Nat) (i : Int)
    (hi : (if to_int (dp.length + 4294967295) < 0 then to_int (dp.length + 4294967295)
      else scan_back dp ((to_int (dp.length + 4294967295)).toNat + 1)) = i)
    (h : i < 0 ∨ i > (CURRENTDIR_MAX : Int)) :
    efi_setcwd CURRENTDIR_MAX dp = [0x2f, 0] := by
  unfold efi_setcwd
  simp only [hi, if_pos h]
  rfl

theorem efi_setcwd_copy (CURRENTDIR_MAX : Nat) (dp : List Nat) (i : Int)
    (hi : (if to_int (dp.length + 4294967295) < 0 then to_int (dp.length + 4294967295)
      else scan_back dp ((to_int (dp.length + 4294967295)).toNat + 1)) = i)
    (h : ¬ (i < 0 ∨ i > (CURRENTDIR_MAX : Int))) :
    efi_setcwd CURRENTDIR_MAX dp = copy_path dp i.toNat ++ [0] := by
  unfold efi_setcwd
  simp only [hi, if_neg h]

theorem c_string_terminated (l : List Nat) (h : ∀ c ∈ l, c ≠ 0) :
    c_string (l ++ [0]) = l := by
  unfold c_string
  induction l with
  | nil => simp
  | cons c rest ih =>
    have hc : c ≠ 0 := h c (List.mem_cons_self _ _)
    simp only [List.cons_append, List.takeWhile_cons, hc, ne_eq, not_false_eq_true,
      decide_True, if_true]
    rw [ih (fun d hd => h d (List.mem_cons_of_mem _ hd))]

/-! ## Theorems: `efi_setcwd` -/

/-- C28 (as stated, refuted): for the path `\syslinux.efi` of a file in the
root directory, `efi_setcwd` stores a single NUL: `CurrentDirName` is the
empty string, not `/`. -/
theorem efi_setcwd_root_file_gives_empty_string :
    efi_setcwd 256 pathRoot = [0] ∧
    c_string (efi_setcwd 256 pathRoot) = [] ∧
    c_string (efi_setcwd 256 pathRoot) ≠ [0x2f] := by
  decide

/-- C28 (amended): for a path of fewer than `2^31` characters.  When the last
separator (`'\\'` or `'/'`) is at an index `i` below `CURRENTDIR_MAX`, that
is, the path is `dir`, a separator, and a last component without separators,
with `dir` of `i` characters, `efi_setcwd` stores the `i` characters of
`dir`, each `'\\'` written as `'/'` (another character as its low byte), and
a NUL: for 8-bit characters the string is `dir` so converted, and it is
empty when `i = 0`.  When `i` is above `CURRENTDIR_MAX`, and when the path
has no separator, it stores `/`. -/
theorem efi_setcwd_directory (CURRENTDIR_MAX : Nat) (dp : List Nat)
    (hlen : dp.length < 2147483648) :
    (∀ dir s file, dp = dir ++ s :: file → (s = 0x5c ∨ s = 0x2f) →
      (∀ c ∈ file, c ≠ 0x5c ∧ c ≠ 0x2f) →
      (dir.length < CURRENTDIR_MAX →
        efi_setcwd CURRENTDIR_MAX dp =
          dir.map (fun c => if c = 0x5c then 0x2f else c % 256) ++ [0] ∧
        ((∀ c ∈ dir, 0 < c ∧ c < 256) →
          c_string (efi_setcwd CURRENTDIR_MAX dp) =
            dir.map (fun c => if c = 0x5c then 0x2f else c))) ∧
      (CURRENTDIR_MAX < dir.length →
        efi_setcwd CURRENTDIR_MAX dp = [0x2f, 0] ∧
        c_string (efi_setcwd CURRENTDIR_MAX dp) = [0x2f])) ∧
    ((∀ c ∈ dp, c ≠ 0x5c ∧ c ≠ 0x2f) →
      efi_setcwd CURRENTDIR_MAX dp = [0x2f, 0] ∧
      c_string (efi_setcwd CURRENTDIR_MAX dp) = [0x2f]) := by
  constructor
  · intro dir s file hdp hs hfile
    have hl : dp.length = dir.length + 1 + file.length := by
      rw [hdp]
      simp only [List.length_append, List.length_cons]
      omega
    have hi : (if to_int (dp.length + 4294967295) < 0 then to_int (dp.length + 4294967295)
        else scan_back dp ((to_int (dp.length + 4294967295)).toNat + 1)) =
        (dir.length : Int) := by
      rw [to_int_length dp.length hlen, if_neg (by omega)]
      have h1 : ((dp.length : Int) - 1).toNat + 1 = dir.length + 1 + file.length := by
        omega
      rw [h1, hdp]
      exact scan_back_last dir s file hs hfile file.length (Nat.le_refl _)
    constructor
    · intro hlt
      have hcopy : efi_setcwd CURRENTDIR_MAX dp =
          dir.map (fun c => if c = 0x5c then 0x2f else c % 256) ++ [0] := by
        rw [efi_setcwd_copy CURRENTDIR_MAX dp _ hi (by omega), Int.toNat_ofNat,
          copy_path_take dp dir.length (by omega), hdp, List.take_left]
      refine ⟨hcopy, ?_⟩
      intro h8
      rw [hcopy]
      have hmap : dir.map (fun c => if c = 0x5c then 0x2f else c % 256) =
          dir.map (fun c => if c = 0x5c then 0x2f else c) := by
        apply List.map_congr_left
        intro c hc
        have := h8 c hc
        rw [Nat.mod_eq_of_lt this.2]
      rw [hmap]
      apply c_string_terminated
      intro c hc
      rw [List.mem_map] at hc
      obtain ⟨d, hd, hdc⟩ := hc
      have := h8 d hd
      rw [← hdc]
      split_ifs <;> omega
    · intro hgt
      have := efi_setcwd_fallback CURRENTDIR_MAX dp _ hi (Or.inr (by omega))
      rw [this]
      exact ⟨rfl, by decide⟩
  · intro hno
    have hi : (if to_int (dp.length + 4294967295) < 0 then to_int (dp.length + 4294967295)
        else scan_back dp ((to_int (dp.length + 4294967295)).toNat + 1)) = -1 := by
      rw [to_int_length dp.length hlen]
      by_cases h0 : dp.length = 0
      · rw [if_pos (by omega)]
        omega
      · rw [if_neg (by omega)]
        exact scan_back_none dp _ (by omega) hno
    have := efi_setcwd_fallback CURRENTDIR_MAX dp _ hi (Or.inl (by decide))
    rw [this]
    exact ⟨rfl, by decide⟩

/-- C28 (amended), witness: `\EFI\BOOT\syslinux.efi` gives `/EFI/BOOT`. -/
theorem efi_setcwd_directory_witness :
    efi_setcwd 256 pathBoot = [0x2f, 0x45, 0x46, 0x49, 0x2f, 0x42, 0x4f, 0x4f, 0x54, 0] ∧
    c_string (efi_setcwd 256 pathBoot) =
      [0x2f, 0x45, 0x46, 0x49, 0x2f, 0x42, 0x4f, 0x4f, 0x54] ∧
    efi_setcwd 256 pathBare = [0x2f, 0] := by
  have h := (efi_setcwd_directory 256 pathBoot (by decide)).1
    [0x5c, 0x45, 0x46, 0x49, 0x5c, 0x42, 0x4f, 0x4f, 0x54] 0x5c
    [0x73, 0x79, 0x73, 0x6c, 0x69, 0x6e, 0x75, 0x78, 0x2e, 0x65, 0x66, 0x69]
    rfl (Or.inl rfl) (by decide)
  obtain ⟨h1, h2⟩ := h.1 (by decide)
  exact ⟨h1, h2 (by decide), ((efi_setcwd_directory 256 pathBare (by decide)).2 (by decide)).1⟩

/-! ## Theorems: `emalloc` -/

/-- C29 (the defect): on a 64-bit build, with the memory map `mapStraddling`
and a firmware that grants exactly the free pages of that map, the call
`emalloc(0x2000, 0x200000, &addr)` returns `EFI_SUCCESS` and stores
`0x200000`.  The request needs 2 pages; the first entry has them, but the
statement `size -= (1 << 20) - start` has reduced `size` below zero (modulo
`2^64`), so the test `(aligned + size) <= end` passes for `aligned = end`;
the address lies in no entry of conventional memory that has 2 pages. -/
theorem emalloc_address_outside_descriptor :
    emalloc 64 (some mapStraddling) (firmwareOf mapStraddling) 0 0x2000 0x200000 =
      (EFI_SUCCESS, some 0x200000) ∧
    EFI_SIZE_TO_PAGES 0x2000 = 2 ∧
    ¬ ∃ desc ∈ mapStraddling, desc.MemoryType = EfiConventionalMemory ∧
        EFI_SIZE_TO_PAGES 0x2000 ≤ desc.NumberOfPages ∧ inside desc 0x200000 := by
  decide

/-! ## Lemmas: the e820 map -/

theorem efi_boot_linux_e820_example :
    efi_boot_linux_e820 (fun _ => ⟨0, 0, 0⟩) mapMixed =
      [⟨0x100000, 0x40000, 1⟩, ⟨0x140000, 0x2000, 3⟩] := by
  decide

theorem merge_step_nil (map : EFI_MEMORY_DESCRIPTOR) :
    merge_step [] map =
      match e820_type_of map.MemoryType with
      | none => []
      | some ty => [⟨map.PhysicalStart, map.NumberOfPages * 2 ^ EFI_PAGE_SHIFT % 2 ^ 64, ty⟩] := by
  unfold merge_step
  cases e820_type_of map.MemoryType <;> rfl

theorem merge_step_concat (init : List e820_entry) (prev : e820_entry)
    (map : EFI_MEMORY_DESCRIPTOR) :
    merge_step (init ++ [prev]) map =
      match e820_type_of map.MemoryType with
      | none => init ++ [prev]
      | some ty =>
        if (prev.start + prev.len) % 2 ^ 64 = map.PhysicalStart ∧ prev.type = ty then
          init ++
            [{ prev with
               len := (prev.len + map.NumberOfPages * 2 ^ EFI_PAGE_SHIFT % 2 ^ 64) % 2 ^ 64 }]
        else
          init ++ [prev] ++
            [⟨map.PhysicalStart, map.NumberOfPages * 2 ^ EFI_PAGE_SHIFT % 2 ^ 64, ty⟩] := by
  unfold merge_step
  cases e820_type_of map.MemoryType with
  | none => rfl
  | some ty =>
    simp only [List.getLast?_append, List.getLast?_singleton, Option.or_some,
      List.dropLast_concat]

theorem entries_zero (f : Nat → e820_entry) : entries ⟨f, 0⟩ = [] := rfl

theorem entries_succ (f : Nat → e820_entry) (n : Nat) :
    entries ⟨f, n + 1⟩ = entries ⟨f, n⟩ ++ [f n] := by
  unfold entries
  simp only [List.range_succ, List.map_append, List.map_cons, List.map_nil]

theorem entries_update_ge (f : Nat → e820_entry) (n k : Nat) (x : e820_entry) (h : n ≤ k) :
    entries ⟨Function.update f k x, n⟩ = entries ⟨f, n⟩ := by
  unfold entries
  apply List.map_congr_left
  intro i hi
  have hi1 : i < n := List.mem_range.mp hi
  exact Function.update_noteq (by omega) _ _

theorem entries_step (st : E820State) (map : EFI_MEMORY_DESCRIPTOR) :
    entries (e820_step st map) = merge_step (entries st) map := by
  obtain ⟨f, e⟩ := st
  unfold e820_step
  cases e with
  | zero =>
    rw [entries_zero, merge_step_nil]
    cases e820_type_of map.MemoryType with
    | none => rfl
    | some ty =>
      simp only [Nat.lt_irrefl, false_and, if_false]
      rw [entries_succ, entries_update_ge _ _ _ _ (Nat.le_refl _), entries_zero]
      simp
  | succ n =>
    rw [entries_succ, merge_step_concat]
    cases e820_type_of map.MemoryType with
    | none =>
      simp only []
      rw [entries_succ, entries_update_ge _ _ _ _ (by omega),
        Function.update_noteq (by omega)]
    | some ty =>
      simp only [Nat.add_sub_cancel, Nat.succ_pos, true_and]
      by_cases hc : ((f n).start + (f n).len) % 2 ^ 64 = map.PhysicalStart ∧ (f n).type = ty
      · rw [if_pos hc, if_pos hc, entries_succ, entries_update_ge _ _ _ _ (Nat.le_refl _),
          entries_update_ge _ _ _ _ (by omega), Function.update_same]
      · rw [if_neg hc, if_neg hc, entries_succ, entries_update_ge _ _ _ _ (by omega),
          Function.update_same, entries_succ]

theorem entries_foldl (l : List EFI_MEMORY_DESCRIPTOR) (st : E820State) :
    entries (l.foldl e820_step st) = l.foldl merge_step (entries st) := by
  induction l generalizing st with
  | nil => rfl
  | cons d rest ih => rw [List.foldl_cons, List.foldl_cons, ih, entries_step]

theorem merge_step_length (acc : List e820_entry) (map : EFI_MEMORY_DESCRIPTOR) :
    (merge_step acc map).length ≤ acc.length + 1 := by
  rcases List.eq_nil_or_concat acc with h | ⟨init, prev, h⟩
  · subst h
    rw [merge_step_nil]
    cases e820_type_of map.MemoryType <;> simp
  · rw [List.concat_eq_append] at h
    subst h
    rw [merge_step_concat]
    cases e820_type_of map.MemoryType with
    | none => simp
    | some ty =>
      simp only []
      split_ifs <;> simp

theorem merge_foldl_length (l : List EFI_MEMORY_DESCRIPTOR) (acc : List e820_entry) :
    (l.foldl merge_step acc).length ≤ acc.length + l.length := by
  induction l generalizing acc with
  | nil => simp
  | cons d rest ih =>
    rw [List.foldl_cons]
    have h1 := ih (merge_step acc d)
    have h2 := merge_step_length acc d
    simp only [List.length_cons]
    omega

theorem merge_foldl_filter (l : List EFI_MEMORY_DESCRIPTOR) (acc : List e820_entry) :
    l.foldl merge_step acc =
      (l.filter (fun d => (e820_type_of d.MemoryType).isSome)).foldl merge_step acc := by
  induction l generalizing acc with
  | nil => rfl
  | cons d rest ih =>
    cases hd : e820_type_of d.MemoryType with
    | none =>
      have hstep : merge_step acc d = acc := by
        unfold merge_step
        rw [hd]
      simp only [List.foldl_cons, List.filter_cons, hd, Option.isSome_none, hstep]
      exact ih acc
    | some ty =>
      simp only [List.foldl_cons, List.filter_cons, hd, Option.isSome_some, if_true]
      exact ih _

theorem merge_step_origin (acc : List e820_entry) (map : EFI_MEMORY_DESCRIPTOR)
    (x : e820_entry) (hx : x ∈ merge_step acc map) :
    (∃ y ∈ acc, x.start = y.start ∧ x.type = y.type) ∨
    (e820_type_of map.MemoryType = some x.type ∧ x.start = map.PhysicalStart) := by
  rcases List.eq_nil_or_concat acc with h | ⟨init, prev, h⟩
  · subst h
    rw [merge_step_nil] at hx
    cases hd : e820_type_of map.MemoryType with
    | none => rw [hd] at hx; cases hx
    | some ty =>
      rw [hd] at hx
      simp only [List.mem_singleton] at hx
      subst hx
      exact Or.inr ⟨rfl, rfl⟩
  · rw [List.concat_eq_append] at h
    subst h
    rw [merge_step_concat] at hx
    cases hd : e820_type_of map.MemoryType with
    | none =>
      rw [hd] at hx
      exact Or.inl ⟨x, hx, rfl, rfl⟩
    | some ty =>
      rw [hd] at hx
      simp only [] at hx
      split_ifs at hx with hc
      · rw [List.mem_append, List.mem_singleton] at hx
        rcases hx with hx | hx
        · exact Or.inl ⟨x, List.mem_append_left _ hx, rfl, rfl⟩
        · subst hx
          exact Or.inl ⟨prev, List.mem_append_right _ (List.mem_singleton_self _), rfl, rfl⟩
      · rw [List.mem_append, List.mem_singleton] at hx
        rcases hx with hx | hx
        · exact Or.inl ⟨x, hx, rfl, rfl⟩
        · subst hx
          exact Or.inr ⟨rfl, rfl⟩

theorem merge_foldl_origin (l : List EFI_MEMORY_DESCRIPTOR) (acc : List e820_entry)
    (x : e820_entry) (hx : x ∈ l.foldl merge_step acc) :
    (∃ y ∈ acc, x.start = y.start ∧ x.type = y.type) ∨
    ∃ d ∈ l, e820_type_of d.MemoryType = some x.type ∧ x.start = d.PhysicalStart := by
  induction l generalizing acc with
  | nil => exact Or.inl ⟨x, hx, rfl, rfl⟩
  | cons d rest ih =>
    rw [List.foldl_cons] at hx
    rcases ih (merge_step acc d) hx with ⟨y, hy, h1, h2⟩ | ⟨d1, hd1, h⟩
    · rcases merge_step_origin acc d y hy with ⟨z, hz, h3, h4⟩ | ⟨h3, h4⟩
      · exact Or.inl ⟨z, hz, h1.trans h3, h2.trans h4⟩
      · exact Or.inr ⟨d, List.mem_cons_self _ _, by rw [h2]; exact h3, h1.trans h4⟩
    · exact Or.inr ⟨d1, List.mem_cons_of_mem _ hd1, h⟩

theorem merge_step_chain (acc : List e820_entry) (map : EFI_MEMORY_DESCRIPTOR)
    (h : acc.Chain' (fun a b => ¬ mergeable a b)) :
    (merge_step acc map).Chain' (fun a b => ¬ mergeable a b) := by
  rcases List.eq_nil_or_concat acc with h0 | ⟨init, prev, h0⟩
  · subst h0
    rw [merge_step_nil]
    cases e820_type_of map.MemoryType <;> simp
  · rw [List.concat_eq_append] at h0
    subst h0
    rw [merge_step_concat]
    cases e820_type_of map.MemoryType with
    | none => exact h
    | some ty =>
      simp only []
      rw [List.chain'_append] at h
      obtain ⟨h1, _, h3⟩ := h
      split_ifs with hc
      · rw [List.chain'_append]
        refine ⟨h1, List.chain'_singleton _, ?_⟩
        intro x hx y hy
        simp only [List.head?_cons, Option.mem_def, Option.some.injEq] at hy
        subst hy
        have := h3 x hx prev (by simp)
        unfold mergeable at this ⊢
        exact this
      · rw [List.chain'_append]
        refine ⟨?_, List.chain'_singleton _, ?_⟩
        · rw [List.chain'_append]
          exact ⟨h1, List.chain'_singleton _, h3⟩
        · intro x hx y hy
          simp only [List.head?_cons, Option.mem_def, Option.some.injEq] at hy
          subst hy
          simp only [List.getLast?_append, List.getLast?_singleton, Option.or_some,
            Option.mem_def, Option.some.injEq] at hx
          subst hx
          unfold mergeable
          exact hc

theorem merge_foldl_chain (l : List EFI_MEMORY_DESCRIPTOR) (acc : List e820_entry)
    (h : acc.Chain' (fun a b => ¬ mergeable a b)) :
    (l.foldl merge_step acc).Chain' (fun a b => ¬ mergeable a b) := by
  induction l generalizing acc with
  | nil => exact h
  | cons d rest ih =>
    rw [List.foldl_cons]
    exact ih _ (merge_step_chain acc d h)

theorem merge_step_sum (acc : List e820_entry) (map : EFI_MEMORY_DESCRIPTOR) :
    ((merge_step acc map).map (fun x => x.len)).sum % 2 ^ 64 =
      ((acc.map (fun x => x.len)).sum +
        (if (e820_type_of map.MemoryType).isSome then
          map.NumberOfPages * 2 ^ EFI_PAGE_SHIFT % 2 ^ 64 else 0)) % 2 ^ 64 := by
  rcases List.eq_nil_or_concat acc with h0 | ⟨init, prev, h0⟩
  · subst h0
    rw [merge_step_nil]
    cases e820_type_of map.MemoryType <;> simp
  · rw [List.concat_eq_append] at h0
    subst h0
    rw [merge_step_concat]
    cases e820_type_of map.MemoryType with
    | none => simp
    | some ty =>
      simp only [Option.isSome_some, if_true]
      split_ifs with hc
      · simp only [List.map_append, List.map_cons, List.map_nil, List.sum_append,
          List.sum_cons, List.sum_nil, Nat.add_zero]
        omega
      · simp only [List.map_append, List.map_cons, List.map_nil, List.sum_append,
          List.sum_cons, List.sum_nil, Nat.add_zero]

theorem merge_foldl_sum (l : List EFI_MEMORY_DESCRIPTOR) (acc : List e820_entry) :
    ((l.foldl merge_step acc).map (fun x => x.len)).sum % 2 ^ 64 =
      ((acc.map (fun x => x.len)).sum +
        ((l.filter (fun d => (e820_type_of d.MemoryType).isSome)).map
          (fun d => d.NumberOfPages * 2 ^ EFI_PAGE_SHIFT % 2 ^ 64)).sum) % 2 ^ 64 := by
  induction l generalizing acc with
  | nil => simp
  | cons d rest ih =>
    rw [List.foldl_cons, ih (merge_step acc d)]
    have h := merge_step_sum acc d
    by_cases hd : (e820_type_of d.MemoryType).isSome = true
    · rw [if_pos hd] at h
      simp only [List.filter_cons, hd, if_true, List.map_cons, List.sum_cons]
      omega
    · rw [if_neg hd] at h
      simp only [List.filter_cons, hd, Bool.false_eq_true, if_false]
      omega

/-! ## Theorems: the e820 map -/

/-- C32: the e820 map that `efi_boot_linux` builds is the list obtained from
the first `E820MAX = 128` descriptors of the memory map, those of
unrecognized type left out, by adding them one by one, a descriptor that
starts where the last entry ends and has its e820 type being merged into
that entry with the lengths added (modulo `2^64`).  It has at most
`min(nr_entries, 128)` entries; each entry starts at a descriptor of
recognized type and has that descriptor's e820 type; no two consecutive
entries are contiguous and of the same type; and the lengths of its entries
add up to the lengths of the recognized descriptors (modulo `2^64`). -/
theorem efi_boot_linux_e820_merged (e820_map0 : Nat → e820_entry)
    (map : List EFI_MEMORY_DESCRIPTOR) :
    efi_boot_linux_e820 e820_map0 map =
      ((map.take E820MAX).filter
        (fun d => (e820_type_of d.MemoryType).isSome)).foldl merge_step [] ∧
    (efi_boot_linux_e820 e820_map0 map).length ≤ min map.length 128 ∧
    (∀ x ∈ efi_boot_linux_e820 e820_map0 map,
      ∃ d ∈ map.take E820MAX,
        e820_type_of d.MemoryType = some x.type ∧ x.start = d.PhysicalStart) ∧
    (efi_boot_linux_e820 e820_map0 map).Chain' (fun a b => ¬ mergeable a b) ∧
    ((efi_boot_linux_e820 e820_map0 map).map (fun x => x.len)).sum % 2 ^ 64 =
      (((map.take E820MAX).filter (fun d => (e820_type_of d.MemoryType).isSome)).map
        (fun d => d.NumberOfPages * 2 ^ EFI_PAGE_SHIFT % 2 ^ 64)).sum % 2 ^ 64 := by
  have href : efi_boot_linux_e820 e820_map0 map =
      (map.take E820MAX).foldl merge_step [] := by
    unfold efi_boot_linux_e820 e820_loop
    rw [entries_foldl, entries_zero]
  refine ⟨?_, ?_, ?_, ?_, ?_⟩
  · rw [href]
    exact merge_foldl_filter _ _
  · rw [href]
    have := merge_foldl_length (map.take E820MAX) []
    have hE : E820MAX = 128 := rfl
    rw [hE] at this ⊢
    simp only [List.length_nil, List.length_take, Nat.zero_add] at this
    omega
  · intro x hx
    rw [href] at hx
    rcases merge_foldl_origin _ _ x hx with ⟨y, hy, _⟩ | h
    · cases hy
    · exact h
  · rw [href]
    exact merge_foldl_chain _ _ List.chain'_nil
  · rw [href, merge_foldl_sum]
    simp

/-! ## Lemmas: the bytes that `efi_setcwd` stores -/

theorem efi_setcwd_stores (CURRENTDIR_MAX : Nat) (dp dir : List Nat) (s : Nat)
    (file : List Nat) (hlen : dp.length < 2147483648) (hdp : dp = dir ++ s :: file)
    (hs : s = 0x5c ∨ s = 0x2f) (hfile : ∀ c ∈ file, c ≠ 0x5c ∧ c ≠ 0x2f)
    (hle : dir.length ≤ CURRENTDIR_MAX) :
    efi_setcwd CURRENTDIR_MAX dp =
      dir.map (fun c => if c = 0x5c then 0x2f else c % 256) ++ [0] := by
  have hl : dp.length = dir.length + 1 + file.length := by
    rw [hdp]
    simp only [List.length_append, List.length_cons]
    omega
  have hi : (if to_int (dp.length + 4294967295) < 0 then to_int (dp.length + 4294967295)
      else scan_back dp ((to_int (dp.length + 4294967295)).toNat + 1)) =
      (dir.length : Int) := by
    rw [to_int_length dp.length hlen, if_neg (by omega)]
    have h1 : ((dp.length : Int) - 1).toNat + 1 = dir.length + 1 + file.length := by
      omega
    rw [h1, hdp]
    exact scan_back_last dir s file hs hfile file.length (Nat.le_refl _)
  rw [efi_setcwd_copy CURRENTDIR_MAX dp _ hi (by omega), Int.toNat_ofNat,
    copy_path_take dp dir.length (by omega), hdp, List.take_left]

/-! ## Theorems: the bound of `CurrentDirName` -/

/-- C34 (the defect): with `CURRENTDIR_MAX = 256`, for the path made of 256
characters `a`, a backslash and the character `x`, the last separator is at
index 256, the test `i > CURRENTDIR_MAX` does not fire, and `efi_setcwd`
stores 257 bytes: the 256 characters at indices 0 to 255 and the NUL at
index 256, one byte past the end of `CurrentDirName`; the stored string has
256 characters. -/
theorem efi_setcwd_stores_past_the_array :
    (efi_setcwd 256 (List.replicate 256 0x61 ++ [0x5c, 0x78])).length = 257 ∧
    efi_setcwd 256 (List.replicate 256 0x61 ++ [0x5c, 0x78]) =
      List.replicate 256 0x61 ++ [0] ∧
    (c_string (efi_setcwd 256 (List.replicate 256 0x61 ++ [0x5c, 0x78]))).length = 256 := by
  have hc : (if (0x61 : Nat) = 0x5c then 0x2f else 0x61 % 256) = 0x61 := by decide
  have h : efi_setcwd 256 (List.replicate 256 0x61 ++ [0x5c, 0x78]) =
      List.replicate 256 0x61 ++ [0] := by
    rw [efi_setcwd_stores 256 _ (List.replicate 256 0x61) 0x5c [0x78]
      (by rw [List.length_append, List.length_replicate]; decide) rfl
      (Or.inl rfl) (by decide) (Nat.le_of_eq (List.length_replicate _ _))]
    simp only [List.map_replicate, hc]
  refine ⟨?_, h, ?_⟩
  · rw [h, List.length_append, List.length_replicate]
    rfl
  · rw [h, c_string_terminated _ (fun c hc1 => by
      rw [List.eq_of_mem_replicate hc1]
      decide), List.length_replicate]

end EfiMain

namespace MemdiskFind

/-! ## Theorems: `valid_mbft` -/

theorem csum_eq_sum (mbft : Nat → Nat) (n : Nat) :
    csum mbft n = ((List.range n).map (fun i => mbft i % 256)).sum % 256 := by
  induction n with
  | zero => rfl
  | succ n ih =>
    unfold csum
    rw [ih, List.range_succ, List.map_append, List.sum_append]
    simp only [List.map_cons, List.map_nil, List.sum_cons, List.sum_nil, Nat.add_zero]
    omega

/-- C33: `valid_mbft(mbft, space)` returns true if and only if the signature
is the four bytes `mBFT`, the ACPI length is at least 66 and at most `space`,
the length equals `mdi.bytes + 40`, and the sum of the first `length` bytes
of the table is 0 modulo 256. -/
theorem valid_mbft_iff (mbft : Nat → Nat) (space : Nat) :
    valid_mbft mbft space = true ↔
      acpi_signature mbft = ['m'.toNat, 'B'.toNat, 'F'.toNat, 'T'.toNat] ∧
      66 ≤ acpi_length mbft ∧ acpi_length mbft ≤ space ∧
      acpi_length mbft = mdi_bytes mbft + 40 ∧
      ((List.range (acpi_length mbft)).map (fun i => mbft i % 256)).sum % 256 = 0 := by
  have hsig : (['m'.toNat, 'B'.toNat, 'F'.toNat, 'T'.toNat] : List Nat) =
      [0x6d, 0x42, 0x46, 0x54] := by decide
  rw [hsig, ← csum_eq_sum]
  unfold valid_mbft MBFT_MIN_LENGTH
  constructor
  · intro h
    split_ifs at h with h1 h2 h3 h4 h5
    exact ⟨not_not.mp h1, by omega, by omega, by omega, not_not.mp h5⟩
  · intro ⟨h1, h2, h3, h4, h5⟩
    rw [if_neg (not_not.mpr h1), if_neg (by omega), if_neg (by omega), if_neg (by omega),
      if_neg (not_not.mpr h5)]

theorem valid_mbft_example :
    valid_mbft sampleMbft 0x1000 = true ∧ valid_mbft sampleMbft 65 = false ∧
    valid_mbft (fun k => if k = 8 then 0 else sampleMbft k) 0x1000 = false := by
  decide

end MemdiskFind
